import Mathlib

/-!
Verification of the reconciliation / variance-computation core of the
financial weekly-report generator (`logic/utils/functions.py`,
`logic/process/data_process.py`, `logic/calculations/product_scale.py`).

The pandas data model is embedded shallowly:

* numeric values (numpy `float64`) are modelled by `NpV`: a rational
  together with the IEEE special values `+inf`, `-inf`, `NaN`
  (float rounding itself is not modelled; every claim under study is
  about missing/zero-denominator behaviour, not about rounding);
* a DataFrame is a `Frame`: a list of column names plus a list of rows,
  each row an association list from column names to cells;
* `None`/`NaN`/missing are all modelled as `NpV.nan` (pandas treats them
  uniformly through `pd.isna`).

Division by zero follows numpy semantics (`x / 0.0` is `±inf` or `NaN`
with a warning, never an exception); this matters for the claims about
`process_channel_data` and the share columns.
-/

namespace FinReport

/-- A numpy `float64` value: a finite rational or an IEEE special value. -/
inductive NpV where
  | fin : ℚ → NpV
  | pinf : NpV
  | ninf : NpV
  | nan : NpV
  deriving DecidableEq, Repr

namespace NpV

/-- `pd.isna` on a numeric value: true exactly on `NaN`. -/
def isna : NpV → Bool
  | nan => true
  | _ => false

/-- IEEE addition on `NpV` (used by pandas sums). -/
def npAdd : NpV → NpV → NpV
  | nan, _ => nan
  | _, nan => nan
  | pinf, ninf => nan
  | ninf, pinf => nan
  | pinf, _ => pinf
  | _, pinf => pinf
  | ninf, _ => ninf
  | _, ninf => ninf
  | fin a, fin b => fin (a + b)

/-- IEEE subtraction on `NpV`. -/
def npSub : NpV → NpV → NpV
  | nan, _ => nan
  | _, nan => nan
  | pinf, pinf => nan
  | ninf, ninf => nan
  | pinf, _ => pinf
  | _, pinf => ninf
  | ninf, _ => ninf
  | _, ninf => pinf
  | fin a, fin b => fin (a - b)

/-- IEEE absolute value on `NpV`. -/
def npAbs : NpV → NpV
  | nan => nan
  | pinf => pinf
  | ninf => pinf
  | fin a => fin |a|

/-- IEEE division on `NpV` (numpy semantics: division by zero yields
`±inf` or `NaN`, never an exception). -/
def npDiv : NpV → NpV → NpV
  | nan, _ => nan
  | _, nan => nan
  | pinf, pinf => nan
  | pinf, ninf => nan
  | ninf, pinf => nan
  | ninf, ninf => nan
  | pinf, fin b => if b < 0 then ninf else pinf
  | ninf, fin b => if b < 0 then pinf else ninf
  | fin _, pinf => fin 0
  | fin _, ninf => fin 0
  | fin a, fin b =>
      if b = 0 then (if a > 0 then pinf else if a < 0 then ninf else nan)
      else fin (a / b)

/-- IEEE strict greater-than on `NpV` (`NaN` compares false). -/
def npGtB : NpV → NpV → Bool
  | nan, _ => false
  | _, nan => false
  | pinf, pinf => false
  | pinf, _ => true
  | _, pinf => false
  | ninf, _ => false
  | fin _, ninf => true
  | fin a, fin b => decide (b < a)

/-- Replace `NaN` by `0` (how a skip-NA sum treats a missing addend). -/
def orZero (x : NpV) : NpV := if x.isna then fin 0 else x

instance : Zero NpV := ⟨fin 0⟩

instance : Add NpV := ⟨npAdd⟩

instance : AddCommMonoid NpV where
  add := npAdd
  zero := fin 0
  nsmul := nsmulRec
  add_assoc a b c := by
    show npAdd (npAdd a b) c = npAdd a (npAdd b c)
    cases a <;> cases b <;> cases c <;> simp [npAdd, add_assoc]
  zero_add a := by
    show npAdd (fin 0) a = a
    cases a <;> simp [npAdd]
  add_zero a := by
    show npAdd a (fin 0) = a
    cases a <;> simp [npAdd]
  add_comm a b := by
    show npAdd a b = npAdd b a
    cases a <;> cases b <;> simp [npAdd, add_comm]

end NpV

/-- A DataFrame cell: a numeric value or a string (categories, codes,
names).  Python `None` and float `NaN` are both modelled by
`Cell.v NpV.nan`. -/
inductive Cell where
  | v : NpV → Cell
  | str : String → Cell
  deriving DecidableEq, Repr

namespace Cell

/-- `pd.isna` on a cell. -/
def isna : Cell → Bool
  | v x => x.isna
  | str _ => false

/-- Numeric view of a cell.  Strings are mapped to `NaN` here; in the
source a string cell reaching column arithmetic raises a `TypeError`
into the enclosing handler instead, so every claim whose conclusion
depends on such arithmetic restricts the relevant columns to numeric
cells (`isNumCell`/`isFinOrNa` hypotheses). -/
def toNp : Cell → NpV
  | v x => x
  | str _ => NpV.nan

/-- Total order used to model the ascending key sort of
`DataFrame.groupby` (missing first, then numbers, then strings; within a
kind, the natural order). -/
def leB : Cell → Cell → Bool
  | v NpV.nan, _ => true
  | _, v NpV.nan => false
  | v NpV.ninf, _ => true
  | _, v NpV.ninf => false
  | v (NpV.fin a), v (NpV.fin b) => decide (a ≤ b)
  | v (NpV.fin _), v NpV.pinf => true
  | v NpV.pinf, v (NpV.fin _) => false
  | v NpV.pinf, v NpV.pinf => true
  | v _, str _ => true
  | str _, v _ => false
  | str a, str b => decide (a ≤ b)

end Cell

/-- A row: an association list from column names to cells (first binding
wins on lookup, as later operations only ever append fresh columns). -/
abbrev Row := List (String × Cell)

/-- A DataFrame: its column labels and its rows. -/
structure Frame where
  cols : List String
  rows : List Row
  deriving DecidableEq, Repr

/-- Read a cell from a row (missing bindings read as `NaN`; all modelled
accesses are guarded by column checks, mirroring the source). -/
def getCell (r : Row) (c : String) : Cell :=
  match r.find? (fun p => p.1 = c) with
  | some p => p.2
  | none => Cell.v NpV.nan

/-- Column assignment `r[c] = x` on one row: overwrite if bound,
otherwise append. -/
def setCell (r : Row) (c : String) (x : Cell) : Row :=
  if r.any (fun p => p.1 = c) then
    r.map (fun p => if p.1 = c then (c, x) else p)
  else r ++ [(c, x)]

/-- Column assignment `df[c] = f(row)` (row-wise, like
`df.apply(..., axis=1)` assigned to a column). -/
def setCol (df : Frame) (c : String) (f : Row → Cell) : Frame :=
  ⟨if df.cols.contains c then df.cols else df.cols ++ [c],
   df.rows.map (fun r => setCell r c (f r))⟩

/-- `df.rename(columns={old: new})`: a no-op when `old` is absent. -/
def renameCol (df : Frame) (old new : String) : Frame :=
  ⟨df.cols.map (fun c => if c = old then new else c),
   df.rows.map (fun r => r.map (fun p => if p.1 = old then (new, p.2) else p))⟩

/-- Restriction of a row to the listed columns. -/
def projRow (cols : List String) (r : Row) : Row :=
  cols.map (fun c => (c, getCell r c))

/-- Column selection `df[cols]` (callers check existence first, as the
source paths do before pandas would raise a `KeyError`). -/
def selectCols (df : Frame) (cols : List String) : Frame :=
  ⟨cols, df.rows.map (projRow cols)⟩

/-- Lexicographic extension of `Cell.leB` to key tuples (the order
`DataFrame.groupby` sorts its group keys by). -/
def keyLeB : List Cell → List Cell → Bool
  | [], _ => true
  | _ :: _, [] => false
  | a :: as, b :: bs => if a = b then keyLeB as bs else a.leB b

/-- The key order as a relation, for use with `List.insertionSort`. -/
def keyLe (a b : List Cell) : Prop := keyLeB a b = true

instance : DecidableRel keyLe := fun a b => inferInstanceAs (Decidable (_ = true))

theorem cellLeB_total (a b : Cell) : a.leB b = true ∨ b.leB a = true := by
  rcases a with x | s <;> rcases b with y | t
  · cases x <;> cases y <;> simp [Cell.leB] <;> exact le_total _ _
  · cases x <;> simp [Cell.leB]
  · cases y <;> simp [Cell.leB]
  · simp [Cell.leB]; exact le_total _ _

theorem cellLeB_antisymm (a b : Cell) (h1 : a.leB b = true) (h2 : b.leB a = true) :
    a = b := by
  rcases a with x | s <;> rcases b with y | t
  · revert h1 h2
    cases x <;> cases y <;> simp [Cell.leB] <;> exact fun h h2 => le_antisymm h h2
  · revert h1 h2; cases x <;> simp [Cell.leB]
  · revert h1 h2; cases y <;> simp [Cell.leB]
  · revert h1 h2; simp [Cell.leB]
    exact fun h h2 => String.ext (le_antisymm h h2)

theorem cellLeB_trans (a b c : Cell) (h1 : a.leB b = true) (h2 : b.leB c = true) :
    a.leB c = true := by
  revert h1 h2
  rcases a with x | s <;> rcases b with y | t <;> rcases c with z | u
  · cases x <;> cases y <;> cases z <;> simp [Cell.leB] <;>
      exact fun h h2 => le_trans h h2
  · cases x <;> cases y <;> simp [Cell.leB]
  · cases x <;> cases z <;> simp [Cell.leB]
  · cases x <;> simp [Cell.leB]
  · cases y <;> simp [Cell.leB]
  · cases y <;> simp [Cell.leB]
  · cases z <;> simp [Cell.leB]
  · simp [Cell.leB]; exact fun h h2 => le_trans h h2

instance : IsTotal (List Cell) keyLe where
  total := by
    intro a b
    induction a generalizing b with
    | nil => exact Or.inl rfl
    | cons x xs ih =>
      cases b with
      | nil => exact Or.inr rfl
      | cons y ys =>
        by_cases hxy : x = y
        · subst hxy
          rcases ih ys with h | h
          · exact Or.inl (by simp [keyLe, keyLeB]; exact h)
          · exact Or.inr (by simp [keyLe, keyLeB]; exact h)
        · rcases cellLeB_total x y with h | h
          · exact Or.inl (by simp [keyLe, keyLeB, hxy]; exact h)
          · exact Or.inr (by simp [keyLe, keyLeB, Ne.symm hxy]; exact h)

instance : IsAntisymm (List Cell) keyLe where
  antisymm := by
    intro a b hab hba
    induction a generalizing b with
    | nil =>
      cases b with
      | nil => rfl
      | cons y ys => exact absurd hba (by simp [keyLe, keyLeB])
    | cons x xs ih =>
      cases b with
      | nil => exact absurd hab (by simp [keyLe, keyLeB])
      | cons y ys =>
        by_cases hxy : x = y
        · subst hxy
          have h1 : keyLe xs ys := by simpa [keyLe, keyLeB] using hab
          have h2 : keyLe ys xs := by simpa [keyLe, keyLeB] using hba
          exact congrArg (x :: ·) (ih ys h1 h2)
        · have h1 : x.leB y = true := by simpa [keyLe, keyLeB, hxy] using hab
          have h2 : y.leB x = true := by simpa [keyLe, keyLeB, Ne.symm hxy] using hba
          exact absurd (cellLeB_antisymm x y h1 h2) hxy

instance : IsTrans (List Cell) keyLe where
  trans := by
    intro a b c hab hbc
    induction a generalizing b c with
    | nil => rfl
    | cons x xs ih =>
      cases b with
      | nil => exact absurd hab (by simp [keyLe, keyLeB])
      | cons y ys =>
        cases c with
        | nil => exact absurd hbc (by simp [keyLe, keyLeB])
        | cons z zs =>
          by_cases hxy : x = y <;> by_cases hyz : y = z
          · subst hxy; subst hyz
            have h1 : keyLe xs ys := by simpa [keyLe, keyLeB] using hab
            have h2 : keyLe ys zs := by simpa [keyLe, keyLeB] using hbc
            have := ih ys zs h1 h2
            simp [keyLe, keyLeB]; exact this
          · subst hxy
            have h2 : x.leB z = true := by simpa [keyLe, keyLeB, hyz] using hbc
            simp [keyLe, keyLeB, hyz, h2]
          · subst hyz
            have h1 : x.leB y = true := by simpa [keyLe, keyLeB, hxy] using hab
            simp [keyLe, keyLeB, hxy, h1]
          · have h1 : x.leB y = true := by simpa [keyLe, keyLeB, hxy] using hab
            have h2 : y.leB z = true := by simpa [keyLe, keyLeB, hyz] using hbc
            by_cases hxz : x = z
            · subst hxz
              exact absurd (cellLeB_antisymm x y h1 h2) hxy
            · simp [keyLe, keyLeB, hxz, cellLeB_trans x y z h1 h2]

/-- The tuple of group-key cells of a row. -/
def rowKey (g : List String) (r : Row) : List Cell :=
  g.map (fun c => getCell r c)

/-- `groupby` keeps a row only when none of its key cells is missing
(`dropna=True`, the pandas default). -/
def keyIsValid (k : List Cell) : Bool :=
  !(k.any (fun c => c == Cell.v NpV.nan))

/-- The distinct valid group keys of a row set, sorted ascending — the
index produced by `DataFrame.groupby(...)` with its default `sort=True`. -/
def groupKeys (g : List String) (rows : List Row) : List (List Cell) :=
  List.insertionSort keyLe
    (((rows.filter (fun r => keyIsValid (rowKey g r))).map (rowKey g)).dedup)

/-- Skip-NA sum of a numeric series (`Series.sum()`: missing entries
count as zero; an empty or all-missing series sums to `0.0`). -/
def seriesSum (l : List NpV) : NpV := (l.map NpV.orZero).sum

/-- The numeric series of one column of a frame (`df[c]`). -/
def seriesOfCol (df : Frame) (c : String) : List NpV :=
  df.rows.map (fun r => (getCell r c).toNp)

/-- `df[c].sum()` on a numeric column (on a column holding strings the
source raises a `TypeError` — or concatenates and makes the consumer
raise — so claims using this sum restrict the column to numeric cells). -/
def colSum (df : Frame) (c : String) : NpV := seriesSum (seriesOfCol df c)

/-- The aggregated output row for one group key: the key cells under the
group columns followed by the per-column skip-NA sums over the rows of
that group. -/
def groupRow (g s : List String) (rows : List Row) (k : List Cell) : Row :=
  g.zip k ++ s.map (fun c =>
    (c, Cell.v (seriesSum ((rows.filter (fun r => rowKey g r == k)).map
      (fun r => (getCell r c).toNp)))))

/-- `df.groupby(g)[s].sum().reset_index()`: one row per distinct valid
key, keys sorted ascending, per-group skip-NA sums. -/
def groupbySum (df : Frame) (g s : List String) : Frame :=
  ⟨g ++ s, (groupKeys g df.rows).map (groupRow g s df.rows)⟩

/-- The body of `group_and_sum` before its exception handler: the
explicit column check (which `raise`s a `ValueError` naming the first
missing column) followed by the group-and-aggregate.  With an empty
group-key list the column check passes but `df.groupby([])` itself
raises `ValueError('No group keys passed!')`, so that call also ends in
the handler. -/
def group_and_sum_checked (df : Frame) (group_by_cols sum_cols : List String) :
    Except String Frame :=
  match (group_by_cols ++ sum_cols).find? (fun c => !(df.cols.contains c)) with
  | some c => Except.error c
  | none =>
    if group_by_cols.isEmpty then Except.error "No group keys passed!"
    else Except.ok (groupbySum df group_by_cols sum_cols)

/-- `functions.group_and_sum`: the `except` clause catches any failure,
prints it and returns the input frame unchanged. -/
def group_and_sum (df : Frame) (group_by_cols sum_cols : List String) : Frame :=
  match group_and_sum_checked df group_by_cols sum_cols with
  | Except.ok r => r
  | Except.error _ => df

/-- `functions.calculate_percentage_change` on numeric values: `None`
(modelled as `NaN`) when the previous value is missing or zero,
otherwise `(current - previous) / previous` with a missing current
treated as zero.  Total, mirroring the source's catch-all handler. -/
def calculate_percentage_change (current_value previous_value : NpV) : NpV :=
  if previous_value.isna || previous_value == NpV.fin 0 then NpV.nan
  else NpV.npDiv (NpV.npSub (NpV.orZero current_value) previous_value) previous_value

/-- Cell-level wrapper for `calculate_percentage_change` as used inside
`DataFrame.apply`.  A string argument makes the source's `float()`
conversion raise `ValueError`/`TypeError`, which the function catches,
returning `None` (numeric-looking strings are not modelled: the claims
only exercise numeric columns). -/
def calculate_percentage_change_cell (c p : Cell) : Cell :=
  match c, p with
  | Cell.v cv, Cell.v pv => Cell.v (calculate_percentage_change cv pv)
  | _, _ => Cell.v NpV.nan

/-- `functions.safe_divide` on numeric values: the default when the
denominator is missing or zero, otherwise plain division with a missing
numerator treated as zero. -/
def safe_divide (numerator denominator default_value : NpV) : NpV :=
  if denominator.isna || denominator == NpV.fin 0 then default_value
  else NpV.npDiv (NpV.orZero numerator) denominator

/-- Cell-level wrapper for `safe_divide` with its default `0`: a string
argument makes `float()` raise, which the source catches, returning the
default. -/
def safe_divide_cell (n d : Cell) : Cell :=
  match n, d with
  | Cell.v nv, Cell.v dv => Cell.v (safe_divide nv dv (NpV.fin 0))
  | _, _ => Cell.v (NpV.fin 0)

/-- Python-level subtraction of two cells, as it appears inside `apply`
lambdas (`x[a] - x[b]`): numpy float semantics; string operands would
raise a `TypeError` in the source (propagating to the enclosing section
handler) and are not modelled — the claims only exercise numeric
columns. -/
def cellSub (a b : Cell) : Cell := Cell.v (NpV.npSub a.toNp b.toNp)

/-- `pd.merge(left, right, on=on, how='left')`: one output row per
matching pair, an all-missing extension when a left row has no match;
overlapping non-key columns get pandas' `_x`/`_y` suffixes. -/
def mergeOn (left right : Frame) (onCols : List String) : Frame :=
  let rvalsRaw := right.cols.filter (fun c => !(onCols.contains c))
  let overlap := left.cols.filter (fun c => rvalsRaw.contains c)
  let lf := overlap.foldl (fun f c => renameCol f c (c ++ "_x")) left
  let rf := overlap.foldl (fun f c => renameCol f c (c ++ "_y")) right
  let rvals := rf.cols.filter (fun c => !(onCols.contains c))
  ⟨lf.cols ++ rvals,
   lf.rows.flatMap (fun r =>
     match rf.rows.filter (fun h => onCols.all (fun c => getCell h c == getCell r c)) with
     | [] => [r ++ rvals.map (fun c => (c, Cell.v NpV.nan))]
     | ms => ms.map (fun h => r ++ rvals.map (fun c => (c, getCell h c))))⟩

/-- The body of `functions.merge_with_history` inside its `try`: rename
the historical value columns with the history suffix, select the key and
renamed columns (a `KeyError` if any is absent), left-merge (a
`KeyError` if a key column is absent from `current`), then add one
percentage-change column per value column (`apply` raises a `KeyError`
if a value column is absent from the merged frame). -/
def merge_with_history_core (current_df historical_df : Frame)
    (on_columns value_columns : List String) : Except String Frame :=
  let h := value_columns.foldl (fun f c => renameCol f c (c ++ "_历史")) historical_df
  let want := on_columns ++ value_columns.map (fun c => c ++ "_历史")
  if want.any (fun c => !(h.cols.contains c)) then Except.error "select"
  else if on_columns.any (fun c => !(current_df.cols.contains c)) then
    Except.error "merge"
  else
    let m := mergeOn current_df (selectCols h want) on_columns
    if value_columns.any (fun c => !(m.cols.contains c)) then Except.error "apply"
    else Except.ok (value_columns.foldl (fun f c =>
      setCol f (c ++ "_变化") (fun r =>
        calculate_percentage_change_cell (getCell r c) (getCell r (c ++ "_历史")))) m)

/-- `functions.merge_with_history`: `None` history returns `current`
unchanged; any exception inside the `try` is caught and `current` is
returned unchanged. -/
def merge_with_history (current_df : Frame) (historical_df : Option Frame)
    (on_columns value_columns : List String) : Frame :=
  match historical_df with
  | none => current_df
  | some h =>
    match merge_with_history_core current_df h on_columns value_columns with
    | Except.ok r => r
    | Except.error _ => current_df

/-- The channel-name normalization table of `process_channel_data`. -/
def channel_name_map : List (String × String) :=
  [("外部渠道1", "外部渠道A"), ("外部渠道2", "外部渠道B"),
   ("渠道A", "外部渠道A"), ("渠道B", "外部渠道B"),
   ("自营渠道", "自营"), ("自有渠道", "自营")]

/-- The per-cell lambda normalizing `渠道名称`: missing becomes `其他`,
known aliases are canonicalized, anything else is kept. -/
def normalizeChannelName (c : Cell) : Cell :=
  match c with
  | Cell.str s =>
    Cell.str (match channel_name_map.lookup s with
              | some t => t
              | none => s)
  | Cell.v NpV.nan => Cell.str "其他"
  | other => other

/-- `dict(zip(ov[产品代码], ov[规模]))` followed by `.map`: the scale of
the last overview row carrying this code (later duplicates overwrite
earlier ones in a Python dict), `NaN` when the code is absent.  The dict
build itself raises a `KeyError` when the overview lacks the `规模`
column; `process_channel_data_core` checks that before this lookup is
ever consulted. -/
def product_scale_lookup (ov : Frame) (code : Cell) : Cell :=
  match ov.rows.reverse.find? (fun r => getCell r "产品代码" == code) with
  | some r => getCell r "规模"
  | none => Cell.v NpV.nan

/-- The reconciliation lambda of `process_channel_data`
(`data_process.py` line 190): use the book-of-record scale when it is
present and `abs(reported - reference) / reference > 0.1`, else keep the
reported scale.  The division is numpy float division: a zero reference
yields `±inf`/`NaN`, not an exception.  (This function carries only the
non-raising outcome; the operand shapes on which the source's lambda
raises a `TypeError` instead are captured by `adjustRaises` below and
routed to the error outcome of `process_channel_data_core`.) -/
def adjustScale (scale checked : Cell) : Cell :=
  match scale, checked with
  | Cell.v s, Cell.v c =>
    if !(c.isna) && NpV.npGtB (NpV.npDiv (NpV.npAbs (NpV.npSub s c)) c)
        (NpV.fin (1 / 10)) then
      Cell.v c
    else Cell.v s
  | _, _ => scale

/-- Whether a cell holds a (possibly missing or infinite) number rather
than a string. -/
def isNumCell : Cell → Bool
  | Cell.v _ => true
  | Cell.str _ => false

/-- Whether the source's reconciliation lambda raises a `TypeError` on
this operand pair: `pd.notna` of the reference short-circuits the
arithmetic, but with a present reference the subtraction
`x[规模] - x[校对产品规模]` raises whenever either operand is a string.
One raising row aborts the whole `DataFrame.apply`. -/
def adjustRaises (scale checked : Cell) : Bool :=
  !(checked.isna) && (!(isNumCell scale) || !(isNumCell checked))

/-- The date-filter and channel-name-normalization prefix of
`process_channel_data`: filter to the report date when a date column
exists (datetime coercion is modelled as identity on the opaque date
cells), then normalize channel names when that column exists.  Neither
step raises. -/
def channelPrep (reportDate : Cell) (channel_df : Frame) : Frame :=
  let df := if channel_df.cols.contains "日期" then
      Frame.mk channel_df.cols
        (channel_df.rows.filter (fun r => getCell r "日期" == reportDate))
    else channel_df
  if df.cols.contains "渠道名称" then
    setCol df "标准渠道名称" (fun r => normalizeChannelName (getCell r "渠道名称"))
  else df

/-- The body of `process_channel_data` inside its `try`: the prefix
steps, then — when an operation overview is supplied and the guard's
columns exist (`产品代码` in both frames and `规模` in the channel
frame; the guard does **not** check `规模` on the overview) — the
reconciliation block.  There `dict(zip(ov[产品代码], ov[规模]))` raises
a `KeyError` when the overview lacks `规模`, and the adjustment
`apply` raises a `TypeError` when any row pairs a present reference
with a string operand; either exception reaches the enclosing handler. -/
def process_channel_data_core (reportDate : Cell) (channel_df : Frame)
    (operation_overview_df : Option Frame) : Except String Frame :=
  let df := channelPrep reportDate channel_df
  match operation_overview_df with
  | none => Except.ok df
  | some ov =>
    if df.cols.contains "产品代码" && ov.cols.contains "产品代码"
        && df.cols.contains "规模" then
      if ov.cols.contains "规模" then
        let df := setCol df "校对产品规模"
          (fun r => product_scale_lookup ov (getCell r "产品代码"))
        if df.rows.any (fun r =>
            adjustRaises (getCell r "规模") (getCell r "校对产品规模")) then
          Except.error "TypeError"
        else
          Except.ok (setCol df "调整后规模"
            (fun r => adjustScale (getCell r "规模") (getCell r "校对产品规模")))
      else Except.error "KeyError: 规模"
    else Except.ok df

/-- `data_process.process_channel_data`: the `except` clause catches any
failure and returns the caller's raw `channel_df` — without the
`校对产品规模`/`调整后规模` columns. -/
def process_channel_data (reportDate : Cell) (channel_df : Frame)
    (operation_overview_df : Option Frame) : Frame :=
  match process_channel_data_core reportDate channel_df operation_overview_df with
  | Except.ok r => r
  | Except.error _ => channel_df

/-- `pd.merge(..., left_on=lkeys, right_on=rkeys, how='left')`.  When
the two key-label lists coincide this is `mergeOn`; with differing
labels pandas keeps the right key columns as well (the modelled call
paths keep left and right labels disjoint in that case, so suffixing is
not modelled). -/
def mergeLeftRightOn (left right : Frame) (lkeys rkeys : List String) : Frame :=
  if lkeys == rkeys then mergeOn left right lkeys
  else
    let rvals := right.cols.filter (fun c => !(left.cols.contains c))
    ⟨left.cols ++ rvals,
     left.rows.flatMap (fun r =>
       match right.rows.filter (fun h =>
           (lkeys.zip rkeys).all (fun p => getCell h p.2 == getCell r p.1)) with
       | [] => [r ++ rvals.map (fun c => (c, Cell.v NpV.nan))]
       | ms => ms.map (fun h => r ++ rvals.map (fun c => (c, getCell h c))))⟩

/-- The period-label-to-suffix table of `merge_operation_with_history`
(`.get(period, '')` semantics). -/
def period_suffix_op (p : String) : String :=
  if p = "last_week" then "上周"
  else if p = "last_month" then "上月"
  else if p = "last_year" then "去年同期"
  else ""

/-- One iteration of the period loop in `merge_operation_with_history`:
rename the historical value columns, select keys plus renamed values
(`KeyError` when absent), left-merge (`KeyError` when a key column is
absent from the accumulated frame), and add the change columns
(`KeyError` when a value column is absent). -/
def merge_operation_step (key_columns value_columns : List String)
    (acc : Frame) (entry : String × Option Frame) : Except String Frame :=
  match entry.2 with
  | none => Except.ok acc
  | some hist_df =>
    let sfx := period_suffix_op entry.1
    let rn := value_columns.foldl (fun f c => renameCol f c (c ++ "_" ++ sfx)) hist_df
    let want := key_columns ++ value_columns.map (fun c => c ++ "_" ++ sfx)
    if want.any (fun c => !(rn.cols.contains c)) then Except.error "select"
    else if key_columns.any (fun c => !(acc.cols.contains c)) then
      Except.error "merge"
    else
      let m := mergeOn acc (selectCols rn want) key_columns
      if value_columns.any (fun c => !(m.cols.contains c)) then Except.error "apply"
      else Except.ok (value_columns.foldl (fun f c =>
        setCol f (c ++ "变化_" ++ sfx) (fun r =>
          calculate_percentage_change_cell (getCell r c)
            (getCell r (c ++ "_" ++ sfx)))) m)

/-- The body of `merge_operation_with_history` inside its `try`: fold
the period loop over the historical dictionary (iteration order of the
dict is the order of the association list). -/
def merge_operation_with_history_core (current_df : Frame)
    (historical_dfs : List (String × Option Frame)) : Except String Frame :=
  historical_dfs.foldlM
    (merge_operation_step ["产品代码", "产品名称"] ["规模", "净值"]) current_df

/-- `data_process.merge_operation_with_history`: any exception inside
the loop is caught and the caller's `current_df` is returned as-is. -/
def merge_operation_with_history (current_df : Frame)
    (historical_dfs : List (String × Option Frame)) : Frame :=
  match merge_operation_with_history_core current_df historical_dfs with
  | Except.ok r => r
  | Except.error _ => current_df

/-- The period-label-to-suffix table of `merge_channel_with_history`. -/
def period_suffix_ch (p : String) : String :=
  if p = "last_week" then "上周"
  else if p = "last_month" then "上月"
  else ""

/-- One iteration of the period loop in `merge_channel_with_history`:
normalize the historical channel names when needed (recursing into
`process_channel_data` with no overview), fall back to the raw channel
name as historical key when the historical frame has no standardized
one, then rename/select/merge/derive exactly as the operation variant. -/
def merge_channel_step (reportDate : Cell) (key_columns value_columns : List String)
    (acc : Frame) (entry : String × Option Frame) : Except String Frame :=
  match entry.2 with
  | none => Except.ok acc
  | some hist0 =>
    let sfx := period_suffix_ch entry.1
    let hist_df :=
      if hist0.cols.contains "渠道名称" && !(hist0.cols.contains "标准渠道名称") then
        process_channel_data reportDate hist0 none
      else hist0
    let hist_key_columns :=
      if key_columns.contains "标准渠道名称"
          && !(hist_df.cols.contains "标准渠道名称") then
        ["产品代码", "渠道名称"]
      else key_columns
    let rn := value_columns.foldl (fun f c => renameCol f c (c ++ "_" ++ sfx)) hist_df
    let want := hist_key_columns ++ value_columns.map (fun c => c ++ "_" ++ sfx)
    if want.any (fun c => !(rn.cols.contains c)) then Except.error "select"
    else if key_columns.any (fun c => !(acc.cols.contains c)) then
      Except.error "merge"
    else
      let m := mergeLeftRightOn acc (selectCols rn want) key_columns hist_key_columns
      if value_columns.any (fun c => !(m.cols.contains c)) then Except.error "apply"
      else Except.ok (value_columns.foldl (fun f c =>
        setCol f (c ++ "变化_" ++ sfx) (fun r =>
          calculate_percentage_change_cell (getCell r c)
            (getCell r (c ++ "_" ++ sfx)))) m)

/-- The body of `merge_channel_with_history` inside its `try`,
including the key/value-column selection made from the current frame. -/
def merge_channel_with_history_core (reportDate : Cell) (current_df : Frame)
    (historical_dfs : List (String × Option Frame)) : Except String Frame :=
  let key_columns :=
    if current_df.cols.contains "标准渠道名称" then ["产品代码", "标准渠道名称"]
    else ["产品代码", "渠道名称"]
  let value_columns :=
    if current_df.cols.contains "调整后规模" then ["调整后规模"] else ["规模"]
  historical_dfs.foldlM
    (merge_channel_step reportDate key_columns value_columns) current_df

/-- `data_process.merge_channel_with_history`: any exception inside the
loop is caught and the caller's `current_df` is returned as-is. -/
def merge_channel_with_history (reportDate : Cell) (current_df : Frame)
    (historical_dfs : List (String × Option Frame)) : Frame :=
  match merge_channel_with_history_core reportDate current_df historical_dfs with
  | Except.ok r => r
  | Except.error _ => current_df

/-- The historical-snapshot dictionary consumed by the scale reports
(keys `last_week`, `last_month`, `last_year`; `None` marks absence). -/
structure HistData where
  last_week : Option Frame
  last_month : Option Frame
  last_year : Option Frame
  deriving DecidableEq, Repr

/-- The required-column loop of the report builders: any missing
required column is synthesized as an all-missing column (with a logged
warning in the source). -/
def ensure_columns (df : Frame) (req : List String) : Frame :=
  req.foldl (fun f c =>
    if f.cols.contains c then f else setCol f c (fun _ => Cell.v NpV.nan)) df

/-- One historical-period block of `calculate_product_scale`: aggregate
the period's frame by product type via `group_and_sum`, rename its
scale column, left-merge onto the category table (`pd.merge` raises a
`KeyError` when a side lacks the key column), then add the period's
change column via `safe_divide` (`apply` raises a `KeyError` when an
operand column is missing). -/
def scalePeriodMerge (pts : Frame) (histF : Option Frame)
    (histCol changeCol : String) : Except String Frame :=
  match histF with
  | none => Except.ok pts
  | some h =>
    let hts := group_and_sum h ["产品类型"] ["规模"]
    let rn := renameCol hts "规模" histCol
    if !(rn.cols.contains "产品类型") || !(pts.cols.contains "产品类型") then
      Except.error "merge"
    else
      let m := mergeOn pts rn ["产品类型"]
      if !(m.cols.contains "规模") || !(m.cols.contains histCol) then
        Except.error "apply"
      else Except.ok (setCol m changeCol (fun r =>
        safe_divide_cell (cellSub (getCell r "规模") (getCell r histCol))
          (getCell r histCol)))

/-- The synthetic total row of `calculate_product_scale`: scale is the
grand total, share is the literal `1.0`, and each available period
contributes that period's own grand total (`hist['规模'].sum()`, a
`KeyError` when the column is absent) plus a `safe_divide` change
computed from the two grand totals — independent of the per-category
rows. -/
def scaleTotalRow (total_scale : NpV) (historical_data : HistData) :
    Except String Row := do
  let base : Row := [("产品类型", Cell.str "总计"), ("规模", Cell.v total_scale),
                     ("占比", Cell.v (NpV.fin 1))]
  let base ← match historical_data.last_week with
    | none => pure base
    | some h =>
      if !(h.cols.contains "规模") then Except.error "total_week"
      else
        let tw := colSum h "规模"
        pure (base ++ [("上周规模", Cell.v tw),
          ("环比变化", Cell.v (safe_divide (NpV.npSub total_scale tw) tw (NpV.fin 0)))])
  let base ← match historical_data.last_month with
    | none => pure base
    | some h =>
      if !(h.cols.contains "规模") then Except.error "total_month"
      else
        let tm := colSum h "规模"
        pure (base ++ [("上月规模", Cell.v tm),
          ("月度变化", Cell.v (safe_divide (NpV.npSub total_scale tm) tm (NpV.fin 0)))])
  match historical_data.last_year with
    | none => pure base
    | some h =>
      if !(h.cols.contains "规模") then Except.error "total_year"
      else
        let ty := colSum h "规模"
        pure (base ++ [("去年同期规模", Cell.v ty),
          ("同比变化", Cell.v (safe_divide (NpV.npSub total_scale ty) ty (NpV.fin 0)))])

/-- `pd.concat([df, DataFrame([row])], ignore_index=True)`: append the
row; any of its labels the frame lacks become new trailing columns. -/
def concatRow (df : Frame) (r : Row) : Frame :=
  ⟨df.cols ++ (r.map Prod.fst).filter (fun c => !(df.cols.contains c)),
   df.rows ++ [r]⟩

/-- The body of `calculate_product_scale` inside its `try`, up to (and
not including) the final `style_dataframe` call — the numeric category
table handed to the presentation layer (string formatting of currency
and percentage columns is presentation, out of the modelled core). -/
def calculate_product_scale_core (current_data : Frame)
    (historical_data : HistData) : Except String Frame := do
  let df := ensure_columns current_data ["产品代码", "产品名称", "产品类型", "规模"]
  let total_scale := colSum df "规模"
  let pts := group_and_sum df ["产品类型"] ["规模"]
  let pts := setCol pts "占比"
    (fun r => Cell.v (NpV.npDiv (getCell r "规模").toNp total_scale))
  let pts ← scalePeriodMerge pts historical_data.last_week "上周规模" "环比变化"
  let pts ← scalePeriodMerge pts historical_data.last_month "上月规模" "月度变化"
  let pts ← scalePeriodMerge pts historical_data.last_year "去年同期规模" "同比变化"
  let total_row ← scaleTotalRow total_scale historical_data
  pure (concatRow pts total_row)

/-- `product_scale.calculate_product_scale` (numeric table): the `except`
clause catches any failure and returns an empty `DataFrame`. -/
def calculate_product_scale_table (current_data : Frame)
    (historical_data : HistData) : Frame :=
  match calculate_product_scale_core current_data historical_data with
  | Except.ok r => r
  | Except.error _ => ⟨[], []⟩

/-- Sort key of `calculate_product_scale_details`:
`sort_values(by=['产品类型', '规模'], ascending=[True, False])`. -/
def detailLeB (r1 r2 : Row) : Bool :=
  if getCell r1 "产品类型" = getCell r2 "产品类型" then
    Cell.leB (getCell r2 "规模") (getCell r1 "规模")
  else Cell.leB (getCell r1 "产品类型") (getCell r2 "产品类型")

/-- The detail sort as a relation. -/
def detailLe (r1 r2 : Row) : Prop := detailLeB r1 r2 = true

instance : DecidableRel detailLe := fun a b => inferInstanceAs (Decidable (_ = true))

/-- The body of `calculate_product_scale_details` inside its `try`, up
to the final `style_dataframe` call: per-product shares of total and of
category (plain pandas division, not `safe_divide`), optional last-week
merge with `safe_divide` week changes, column selection, and the
category/scale sort. -/
def calculate_product_scale_details_core (current_data : Frame)
    (historical_data : Option HistData) : Except String Frame := do
  let df := ensure_columns current_data ["产品代码", "产品名称", "产品类型", "规模", "净值"]
  let total_scale := colSum df "规模"
  let df := setCol df "占总规模比例"
    (fun r => Cell.v (NpV.npDiv (getCell r "规模").toNp total_scale))
  let ts := renameCol (groupbySum df ["产品类型"] ["规模"]) "规模" "类型总规模"
  let df := mergeOn df ts ["产品类型"]
  let df := setCol df "占类型规模比例"
    (fun r => Cell.v (NpV.npDiv (getCell r "规模").toNp (getCell r "类型总规模").toNp))
  let lw := match historical_data with
    | some hd => hd.last_week
    | none => none
  let step ← match lw with
    | none => pure (df, false)
    | some h =>
      if ["产品代码", "规模", "净值"].any (fun c => !(h.cols.contains c)) then
        Except.error "select"
      else
        let sel := renameCol (renameCol (selectCols h ["产品代码", "规模", "净值"])
          "规模" "上周规模") "净值" "上周净值"
        let m := mergeOn df sel ["产品代码"]
        let m := setCol m "周规模变化" (fun r =>
          safe_divide_cell (cellSub (getCell r "规模") (getCell r "上周规模"))
            (getCell r "上周规模"))
        let m := setCol m "周净值变化" (fun r =>
          safe_divide_cell (cellSub (getCell r "净值") (getCell r "上周净值"))
            (getCell r "上周净值"))
        pure (m, true)
  let output_columns :=
    ["产品代码", "产品名称", "产品类型", "规模", "占总规模比例", "占类型规模比例", "净值"]
      ++ (if step.2 then ["上周规模", "周规模变化", "上周净值", "周净值变化"] else [])
  let dfo := selectCols step.1 output_columns
  pure ⟨dfo.cols, List.insertionSort detailLe dfo.rows⟩

/-- `product_scale.calculate_product_scale_details` (numeric table): the
`except` clause catches any failure and returns an empty `DataFrame`. -/
def calculate_product_scale_details_table (current_data : Frame)
    (historical_data : Option HistData) : Frame :=
  match calculate_product_scale_details_core current_data historical_data with
  | Except.ok r => r
  | Except.error _ => ⟨[], []⟩

/-- Whether a cell holds a finite number. -/
def isFin (c : Cell) : Bool :=
  match c with
  | Cell.v (NpV.fin _) => true
  | _ => false

/-- Whether a cell holds a finite number or is missing. -/
def isFinOrNa (c : Cell) : Bool :=
  match c with
  | Cell.v (NpV.fin _) => true
  | Cell.v NpV.nan => true
  | _ => false

/-- The finite rational held by a cell (`0` otherwise); used to state
arithmetic-sum properties for frames whose cells are known finite. -/
def cellQ (c : Cell) : ℚ :=
  match c with
  | Cell.v (NpV.fin q) => q
  | _ => 0

/-- The finite rational held by a numeric value (`0` otherwise). -/
def npvQ (x : NpV) : ℚ :=
  match x with
  | NpV.fin q => q
  | _ => 0

/-- The grand total `df['规模'].sum()` as computed by
`calculate_product_scale` (after the required columns are ensured). -/
def scale_total (cur : Frame) : NpV :=
  colSum (ensure_columns cur ["产品代码", "产品名称", "产品类型", "规模"]) "规模"

/-- The grand total as computed by `calculate_product_scale_details`. -/
def details_total_scale (cur : Frame) : NpV :=
  colSum (ensure_columns cur ["产品代码", "产品名称", "产品类型", "规模", "净值"]) "规模"

/-- The per-category scale sum of the detail report (the `类型总规模`
attached by grouping the ensured current frame by product type). -/
def details_category_scale (cur : Frame) (k : Cell) : NpV :=
  seriesSum (((ensure_columns cur ["产品代码", "产品名称", "产品类型", "规模", "净值"]).rows.filter
    (fun r => rowKey ["产品类型"] r == [k])).map (fun r => (getCell r "规模").toNp))

/-- Safe-division delta semantics of a report row: the change column is
`0` when the historical value is missing or zero, and the exact relative
change otherwise.  (`scaleCol` is the current-value column the delta is
computed from.) -/
def deltaRel (r : Row) (scaleCol histCol chCol : String) : Prop :=
  ((getCell r histCol = Cell.v NpV.nan ∨ getCell r histCol = Cell.v (NpV.fin 0)) →
      getCell r chCol = Cell.v (NpV.fin 0))
  ∧ (∀ s h : ℚ, getCell r scaleCol = Cell.v (NpV.fin s) →
      getCell r histCol = Cell.v (NpV.fin h) → h ≠ 0 →
      getCell r chCol = Cell.v (NpV.fin ((s - h) / h)))

/-- The extension a left row receives in `mergeOn` (the matched right
row's value cells, or all-missing when unmatched); used to state that a
left merge with at most one match per row keeps every row exactly once. -/
def mergeExt (rt : Frame) (onCols : List String) (r0 : Row) : Row :=
  let rvals := rt.cols.filter (fun c => !(onCols.contains c))
  match rt.rows.filter (fun h => onCols.all (fun c => getCell h c == getCell r0 c)) with
  | [] => rvals.map (fun c => (c, Cell.v NpV.nan))
  | h :: _ => rvals.map (fun c => (c, getCell h c))

/-- Concrete channel frame: one record reporting scale `5`. -/
def chZeroRef : Frame :=
  ⟨["产品代码", "规模"], [[("产品代码", Cell.str "P1"), ("规模", Cell.v (NpV.fin 5))]]⟩

/-- Concrete overview frame: the book-of-record scale for `P1` is `0`. -/
def ovZeroRef : Frame :=
  ⟨["产品代码", "规模"], [[("产品代码", Cell.str "P1"), ("规模", Cell.v (NpV.fin 0))]]⟩

/-- Concrete current snapshot: one category `A` record of scale `100`. -/
def curOneCat : Frame :=
  ⟨["产品代码", "产品名称", "产品类型", "规模"],
   [[("产品代码", Cell.str "A1"), ("产品名称", Cell.str "甲"),
     ("产品类型", Cell.str "A"), ("规模", Cell.v (NpV.fin 100))]]⟩

/-- Concrete last-week snapshot whose only category `B` does not occur
in `curOneCat`. -/
def lwOtherCat : Frame :=
  ⟨["产品类型", "规模"], [[("产品类型", Cell.str "B"), ("规模", Cell.v (NpV.fin 50))]]⟩

/-- Concrete two-row frame with the sum column present, used to exercise
`group_and_sum` with an empty group-key list. -/
def twoRowsScale : Frame :=
  ⟨["产品类型", "规模"],
   [[("产品类型", Cell.str "A"), ("规模", Cell.v (NpV.fin 1))],
    [("产品类型", Cell.str "B"), ("规模", Cell.v (NpV.fin 2))]]⟩

/-- Concrete current snapshot with a single zero-scale record. -/
def curZeroScale : Frame :=
  ⟨["产品代码", "产品名称", "产品类型", "规模", "净值"],
   [[("产品代码", Cell.str "P"), ("产品名称", Cell.str "甲"),
     ("产品类型", Cell.str "A"), ("规模", Cell.v (NpV.fin 0)),
     ("净值", Cell.v (NpV.fin 1))]]⟩

/-- Concrete current frame for the duplicate-key merge counterexample. -/
def curDupKey : Frame :=
  ⟨["k", "x"], [[("k", Cell.str "A"), ("x", Cell.v (NpV.fin 10))]]⟩

/-- Concrete historical frame with two rows sharing the join key `A`. -/
def histDupKey : Frame :=
  ⟨["k", "x"], [[("k", Cell.str "A"), ("x", Cell.v (NpV.fin 1))],
                [("k", Cell.str "A"), ("x", Cell.v (NpV.fin 2))]]⟩

/-- Concrete historical frame with a single row for the join key `A`. -/
def histOneKey : Frame :=
  ⟨["k", "x"], [[("k", Cell.str "A"), ("x", Cell.v (NpV.fin 1))]]⟩

/-- One historical-period block of `calculate_product_scale` on its good
path: the frame `scalePeriodMerge` returns when the period's aggregate,
merge and apply checks all pass. -/
def periodStage (pts h : Frame) (histCol changeCol : String) : Frame :=
  setCol (mergeOn pts (renameCol (groupbySum h ["产品类型"] ["规模"]) "规模" histCol)
      ["产品类型"]) changeCol
    (fun r => safe_divide_cell (cellSub (getCell r "规模") (getCell r histCol))
      (getCell r histCol))

/-- `periodStage` lifted to an optional period frame (an absent period
leaves the category table untouched). -/
def periodStageO (pts : Frame) (hf : Option Frame) (histCol changeCol : String) : Frame :=
  match hf with
  | none => pts
  | some h => periodStage pts h histCol changeCol

/-- The category table of `calculate_product_scale` before any
historical merge: group the ensured current frame by product type, sum
the scales, and attach the raw-division share column. -/
def scaleBase (cur : Frame) : Frame :=
  setCol (groupbySum (ensure_columns cur ["产品代码", "产品名称", "产品类型", "规模"])
      ["产品类型"] ["规模"]) "占比"
    (fun r => Cell.v (NpV.npDiv (getCell r "规模").toNp (scale_total cur)))

/-- The category table after the three optional period merges (the frame
`calculate_product_scale` appends its total row to, on the good path). -/
def scaleStages (cur : Frame) (hd : HistData) : Frame :=
  periodStageO (periodStageO (periodStageO (scaleBase cur)
    hd.last_week "上周规模" "环比变化") hd.last_month "上月规模" "月度变化")
    hd.last_year "去年同期规模" "同比变化"

/-- The detail report's share-annotated current frame: required columns
ensured, then the raw-division share of the grand total attached. -/
def details_df1 (cur : Frame) : Frame :=
  setCol (ensure_columns cur ["产品代码", "产品名称", "产品类型", "规模", "净值"])
    "占总规模比例"
    (fun r => Cell.v (NpV.npDiv (getCell r "规模").toNp (details_total_scale cur)))

/-- The detail report's per-category scale totals, renamed for the merge
back onto the main frame. -/
def details_ts (cur : Frame) : Frame :=
  renameCol (groupbySum (details_df1 cur) ["产品类型"] ["规模"]) "规模" "类型总规模"

/-- The detail report's frame after the category-total merge and the
raw-division share of the category total. -/
def details_df3 (cur : Frame) : Frame :=
  setCol (mergeOn (details_df1 cur) (details_ts cur) ["产品类型"]) "占类型规模比例"
    (fun r => Cell.v (NpV.npDiv (getCell r "规模").toNp (getCell r "类型总规模").toNp))

/-- The last-week columns selected and renamed for the detail merge. -/
def details_sel (h : Frame) : Frame :=
  renameCol (renameCol (selectCols h ["产品代码", "规模", "净值"])
    "规模" "上周规模") "净值" "上周净值"

/-- The detail report's frame after the last-week merge and the two
`safe_divide` week-change columns. -/
def details_m2 (cur h : Frame) : Frame :=
  setCol (setCol (mergeOn (details_df3 cur) (details_sel h) ["产品代码"])
      "周规模变化" (fun r =>
        safe_divide_cell (cellSub (getCell r "规模") (getCell r "上周规模"))
          (getCell r "上周规模")))
    "周净值变化" (fun r =>
      safe_divide_cell (cellSub (getCell r "净值") (getCell r "上周净值"))
        (getCell r "上周净值"))

/-- The detail report's base output columns. -/
def details_out : List String :=
  ["产品代码", "产品名称", "产品类型", "规模", "占总规模比例", "占类型规模比例", "净值"]

/-- The good path of `calculate_product_scale_details` when a last-week
snapshot with the selected columns is supplied: shares by raw division,
category totals merged back, week deltas via `safe_divide`, column
selection, and the category/scale sort. -/
def details_good (cur h : Frame) : Frame :=
  ⟨details_out ++ ["上周规模", "周规模变化", "上周净值", "周净值变化"],
   List.insertionSort detailLe ((details_m2 cur h).rows.map
     (projRow (details_out ++ ["上周规模", "周规模变化", "上周净值", "周净值变化"])))⟩

/-- The good path of `calculate_product_scale_details` when no
historical data is supplied: shares only, then selection and sort. -/
def details_good_none (cur : Frame) : Frame :=
  ⟨details_out,
   List.insertionSort detailLe ((details_df3 cur).rows.map (projRow details_out))⟩

/-- Concrete current snapshot for the category report whose only record
has the non-negative scale `0` (so the grand total is `0`). -/
def curZeroCat : Frame :=
  ⟨["产品代码", "产品名称", "产品类型", "规模"],
   [[("产品代码", Cell.str "P"), ("产品名称", Cell.str "甲"),
     ("产品类型", Cell.str "A"), ("规模", Cell.v (NpV.fin 0))]]⟩

/-! ### Row-access lemmas -/

theorem getCell_append_right_not_mem {r t : Row} {c : String}
    (h : c ∉ t.map Prod.fst) : getCell (r ++ t) c = getCell r c := by
  have ht : t.find? (fun p => p.1 = c) = none := by
    rw [List.find?_eq_none]
    intro x hx
    simp only [decide_eq_true_eq]
    intro hc
    exact h (hc ▸ List.mem_map_of_mem Prod.fst hx)
  unfold getCell
  rw [List.find?_append, ht]
  cases r.find? (fun p => p.1 = c) <;> rfl

theorem getCell_append_left_not_mem {r t : Row} {c : String}
    (h : c ∉ r.map Prod.fst) : getCell (r ++ t) c = getCell t c := by
  have hr : r.find? (fun p => p.1 = c) = none := by
    rw [List.find?_eq_none]
    intro x hx
    simp only [decide_eq_true_eq]
    intro hc
    exact h (hc ▸ List.mem_map_of_mem Prod.fst hx)
  unfold getCell
  rw [List.find?_append, hr]
  rfl

theorem getCell_setCell_self (r : Row) (c : String) (x : Cell) :
    getCell (setCell r c x) c = x := by
  induction r with
  | nil => simp [setCell, getCell, List.find?]
  | cons p rs ih =>
    by_cases hp : p.1 = c
    · simp [setCell, List.any_cons, hp, getCell, List.find?]
    · by_cases ha : rs.any (fun q => q.1 = c)
      · have hs : setCell (p :: rs) c x =
            p :: (rs.map fun q => if q.1 = c then (c, x) else q) := by
          simp [setCell, List.any_cons, hp, ha]
        have hs2 : setCell rs c x = rs.map fun q => if q.1 = c then (c, x) else q := by
          simp [setCell, ha]
        rw [hs]
        show getCell (p :: (rs.map fun q => if q.1 = c then (c, x) else q)) c = x
        unfold getCell
        rw [List.find?_cons_of_neg _ (by simpa using hp)]
        rw [← hs2]
        exact ih
      · have hs : setCell (p :: rs) c x = p :: (rs ++ [(c, x)]) := by
          simp [setCell, List.any_cons, hp, ha]
        have hs2 : setCell rs c x = rs ++ [(c, x)] := by
          simp [setCell, ha]
        rw [hs]
        unfold getCell
        rw [List.find?_cons_of_neg _ (by simpa using hp)]
        rw [← hs2]
        exact ih

theorem getCell_setCell_of_ne {d c : String} (r : Row) (x : Cell) (h : d ≠ c) :
    getCell (setCell r c x) d = getCell r d := by
  by_cases ha : r.any (fun q => q.1 = c)
  · have hs : setCell r c x = r.map fun q => if q.1 = c then (c, x) else q := by
      simp [setCell, ha]
    rw [hs]
    clear hs ha
    induction r with
    | nil => rfl
    | cons p rs ih =>
      by_cases hp : p.1 = c
      · unfold getCell
        rw [List.map_cons, List.find?_cons_of_neg _ (by simp [hp, Ne.symm h]),
          List.find?_cons_of_neg _ (by simp [hp, h, Ne.symm h])]
        exact ih
      · by_cases hd : p.1 = d
        · unfold getCell
          rw [List.map_cons, if_neg hp, List.find?_cons_of_pos _ (by simp [hd]),
            List.find?_cons_of_pos _ (by simp [hd])]
        · unfold getCell
          rw [List.map_cons, if_neg hp, List.find?_cons_of_neg _ (by simp [hd]),
            List.find?_cons_of_neg _ (by simp [hd])]
          exact ih
  · have hs : setCell r c x = r ++ [(c, x)] := by simp [setCell, ha]
    rw [hs]
    exact getCell_append_right_not_mem (by simpa using h)

theorem getCell_projRow_of_mem {cols : List String} {c : String} (r : Row)
    (h : c ∈ cols) : getCell (projRow cols r) c = getCell r c := by
  induction cols with
  | nil => cases h
  | cons d ds ih =>
    by_cases hd : d = c
    · subst hd
      unfold projRow getCell
      rw [List.map_cons, List.find?_cons_of_pos _ (by simp)]
    · unfold projRow getCell
      rw [List.map_cons, List.find?_cons_of_neg _ (by simp [hd])]
      exact ih (List.mem_of_ne_of_mem (fun hc => hd hc.symm) h)

theorem getCell_projRow_of_not_mem {cols : List String} {c : String} (r : Row)
    (h : c ∉ cols) : getCell (projRow cols r) c = Cell.v NpV.nan := by
  have hnone : (projRow cols r).find? (fun p => p.1 = c) = none := by
    rw [List.find?_eq_none]
    intro x hx
    unfold projRow at hx
    simp only [List.mem_map] at hx
    obtain ⟨d, hd, rfl⟩ := hx
    simp only [decide_eq_true_eq]
    exact fun hc => h (hc ▸ hd)
  unfold getCell
  rw [hnone]

theorem projRow_map_fst (cols : List String) (r : Row) :
    (projRow cols r).map Prod.fst = cols := by
  unfold projRow
  rw [List.map_map]
  exact List.map_congr_left (fun a _ => rfl) |>.trans (List.map_id cols)

theorem setCell_not_mem_eq {r : Row} {c : String} (x : Cell)
    (h : c ∉ r.map Prod.fst) : setCell r c x = r ++ [(c, x)] := by
  have : r.any (fun q => q.1 = c) = false := by
    rw [List.any_eq_false]
    intro q hq
    simp only [decide_eq_true_eq]
    exact fun hc => h (hc ▸ List.mem_map_of_mem Prod.fst hq)
  simp [setCell, this]

theorem getCell_mapRow_of_mem {cols : List String} {c : String} (val : String → Cell)
    (h : c ∈ cols) : getCell (cols.map (fun d => (d, val d))) c = val c := by
  induction cols with
  | nil => cases h
  | cons d ds ih =>
    by_cases hd : d = c
    · subst hd
      unfold getCell
      rw [List.map_cons, List.find?_cons_of_pos _ (by simp)]
    · unfold getCell
      rw [List.map_cons, List.find?_cons_of_neg _ (by simp [hd])]
      exact ih (List.mem_of_ne_of_mem (fun hc => hd hc.symm) h)

theorem getCell_cons_of_ne {p : String × Cell} {row : Row} {c : String}
    (h : p.1 ≠ c) : getCell (p :: row) c = getCell row c := by
  unfold getCell
  rw [List.find?_cons_of_neg _ (by simpa using h)]

/-! ### Numeric-sum lemmas -/

theorem sum_map_fin (l : List ℚ) : (l.map NpV.fin).sum = NpV.fin l.sum := by
  induction l with
  | nil => rfl
  | cons a t ih => rw [List.map_cons, List.sum_cons, List.sum_cons, ih]; rfl

theorem seriesSum_eq_fin (l : List NpV) (h : ∀ x ∈ l, (isFinOrNa (Cell.v x)) = true) :
    seriesSum l = NpV.fin ((l.map npvQ).sum) := by
  induction l with
  | nil => rfl
  | cons a t ih =>
    have ha := h a (List.mem_cons_self a t)
    have ht := ih (fun x hx => h x (List.mem_cons_of_mem a hx))
    unfold seriesSum at ht ⊢
    rw [List.map_cons, List.sum_cons, ht, List.map_cons, List.sum_cons]
    cases a with
    | fin q => rfl
    | nan =>
      show NpV.npAdd (NpV.orZero NpV.nan) _ = _
      simp [NpV.orZero, NpV.isna, NpV.npAdd, npvQ]
    | pinf => simp [isFinOrNa] at ha
    | ninf => simp [isFinOrNa] at ha

theorem sum_fibers {α K M : Type} [BEq K] [LawfulBEq K] [DecidableEq K]
    [AddCommMonoid M] (keys : Finset K) (key : α → K) (val : α → M) :
    ∀ (l : List α), (∀ r ∈ l, key r ∈ keys) →
      (∑ k ∈ keys, ((l.filter (fun r => key r == k)).map val).sum) = (l.map val).sum := by
  intro l
  induction l with
  | nil => simp
  | cons r t ih =>
    intro h
    have hk : key r ∈ keys := h r (List.mem_cons_self r t)
    have hsplit : ∀ k, ((List.filter (fun x => key x == k) (r :: t)).map val).sum
        = (if key r = k then val r else 0)
          + ((List.filter (fun x => key x == k) t).map val).sum := by
      intro k
      by_cases hrk : key r = k
      · simp [List.filter_cons, hrk]
      · simp [List.filter_cons, hrk]
    calc (∑ k ∈ keys, ((List.filter (fun x => key x == k) (r :: t)).map val).sum)
        = ∑ k ∈ keys, ((if key r = k then val r else 0)
            + ((List.filter (fun x => key x == k) t).map val).sum) :=
          Finset.sum_congr rfl (fun k _ => hsplit k)
      _ = (∑ k ∈ keys, if key r = k then val r else 0)
            + ∑ k ∈ keys, ((List.filter (fun x => key x == k) t).map val).sum :=
          Finset.sum_add_distrib
      _ = val r + (t.map val).sum := by
          rw [Finset.sum_ite_eq keys (key r) (fun _ => val r), if_pos hk,
            ih (fun x hx => h x (List.mem_cons_of_mem r hx))]
      _ = ((r :: t).map val).sum := by rw [List.map_cons, List.sum_cons]

/-! ### Merge-shape lemmas -/

theorem flatMap_eq_map_of_singleton {α β : Type} (l : List α) (g : α → List β)
    (f : α → β) (h : ∀ a ∈ l, g a = [f a]) : l.flatMap g = l.map f := by
  induction l with
  | nil => rfl
  | cons a t ih =>
    rw [List.flatMap_cons, List.map_cons, h a (List.mem_cons_self a t),
      ih (fun x hx => h x (List.mem_cons_of_mem a hx))]
    rfl

theorem filter_key_length_le_one {α K : Type} [BEq K] [LawfulBEq K]
    (l : List α) (key : α → K) (hnd : (l.map key).Nodup) (k : K) :
    (l.filter (fun a => key a == k)).length ≤ 1 := by
  induction l with
  | nil => simp
  | cons a t ih =>
    rw [List.map_cons, List.nodup_cons] at hnd
    cases hak : (key a == k) with
    | true =>
      have hak2 : key a = k := eq_of_beq hak
      have hnil : t.filter (fun x => key x == k) = [] := by
        rw [List.filter_eq_nil_iff]
        intro x hx hbx
        have hxk : key x = k := eq_of_beq hbx
        have hmem : key x ∈ t.map key := List.mem_map_of_mem key hx
        rw [hxk, ← hak2] at hmem
        exact hnd.1 hmem
      rw [List.filter_cons, if_pos hak, hnil]
      simp
    | false =>
      rw [List.filter_cons, if_neg (by simp [hak])]
      exact ih hnd.2

theorem all_beq_eq_map_beq (onc : List String) (h r0 : Row) :
    (onc.all (fun c => getCell h c == getCell r0 c))
      = ((onc.map (fun c => getCell h c)) == (onc.map (fun c => getCell r0 c))) := by
  induction onc with
  | nil => rfl
  | cons c cs ih => simp [List.all_cons, ih, List.cons_beq_cons]

theorem mem_mergeOn_rows {l rt : Frame} {onc : List String}
    (hov : l.cols.filter
      (fun c => (rt.cols.filter (fun c2 => !(onc.contains c2))).contains c) = [])
    {r : Row} (hr : r ∈ (mergeOn l rt onc).rows) :
    ∃ r0 ∈ l.rows, ∃ vals : String → Cell,
      r = r0 ++ (rt.cols.filter (fun c => !(onc.contains c))).map
        (fun c => (c, vals c)) := by
  unfold mergeOn at hr
  simp only [hov, List.foldl_nil] at hr
  rw [List.mem_flatMap] at hr
  obtain ⟨r0, hr0, hmem⟩ := hr
  rcases hfilt : rt.rows.filter
      (fun h => onc.all (fun c => getCell h c == getCell r0 c)) with _ | ⟨h1, hs⟩
  · rw [hfilt] at hmem
    simp only [List.mem_singleton] at hmem
    exact ⟨r0, hr0, fun _ => Cell.v NpV.nan, hmem⟩
  · rw [hfilt] at hmem
    simp only [List.mem_map] at hmem
    obtain ⟨h2, _, rfl⟩ := hmem
    exact ⟨r0, hr0, fun c => getCell h2 c, rfl⟩

theorem mergeOn_rows_eq_map {l rt : Frame} {onc : List String}
    (hov : l.cols.filter
      (fun c => (rt.cols.filter (fun c2 => !(onc.contains c2))).contains c) = [])
    (h1 : ∀ r0 ∈ l.rows,
      (rt.rows.filter (fun h => onc.all (fun c => getCell h c == getCell r0 c))).length ≤ 1) :
    (mergeOn l rt onc).rows = l.rows.map (fun r0 => r0 ++ mergeExt rt onc r0) := by
  unfold mergeOn
  simp only [hov, List.foldl_nil]
  apply flatMap_eq_map_of_singleton
  intro r0 hr0
  unfold mergeExt
  rcases hfilt : rt.rows.filter
      (fun h => onc.all (fun c => getCell h c == getCell r0 c)) with _ | ⟨h2, hs⟩
  · rfl
  · have := h1 r0 hr0
    rw [hfilt] at this
    have hnil : hs = [] := by
      cases hs with
      | nil => rfl
      | cons a b => simp at this
    subst hnil
    rfl

/-! ### Group-by lemmas -/

theorem rowKey_cons_not_mem {g : List String} {c : String} {x : Cell} {row : Row}
    (h : c ∉ g) : rowKey g ((c, x) :: row) = rowKey g row := by
  unfold rowKey
  exact List.map_congr_left (fun d hd =>
    getCell_cons_of_ne (fun hc => h (by rw [show c = d from hc]; exact hd)))

theorem rowKey_zip_append (g : List String) :
    ∀ (k : List Cell) (rest : Row), g.Nodup → k.length = g.length →
      rowKey g (g.zip k ++ rest) = k := by
  induction g with
  | nil =>
    intro k rest _ hlen
    have hk : k = [] := List.length_eq_zero.mp (by simpa using hlen)
    subst hk
    rfl
  | cons c gs ih =>
    intro k rest hg hlen
    cases k with
    | nil => simp at hlen
    | cons x ks =>
      rw [List.nodup_cons] at hg
      have hlen2 : ks.length = gs.length := by simpa using hlen
      show rowKey (c :: gs) ((c, x) :: (gs.zip ks ++ rest)) = x :: ks
      unfold rowKey
      rw [List.map_cons]
      have h1 : getCell ((c, x) :: (gs.zip ks ++ rest)) c = x := by
        unfold getCell
        rw [List.find?_cons_of_pos _ (by simp)]
      rw [h1]
      have h2 : gs.map (fun d => getCell ((c, x) :: (gs.zip ks ++ rest)) d)
          = rowKey gs (gs.zip ks ++ rest) :=
        List.map_congr_left (fun d hd =>
          getCell_cons_of_ne (fun hc => hg.1 (by rw [show c = d from hc]; exact hd)))
      rw [h2, ih ks rest hg.2 hlen2]

theorem rowKey_groupRow (g s : List String) (rows : List Row) (k : List Cell)
    (hg : g.Nodup) (hlen : k.length = g.length) :
    rowKey g (groupRow g s rows k) = k := by
  unfold groupRow
  exact rowKey_zip_append g k _ hg hlen

theorem getCell_groupRow {g s : List String} {c : String} (rows : List Row)
    (k : List Cell) (hcs : c ∈ s) (hcg : c ∉ g) :
    getCell (groupRow g s rows k) c
      = Cell.v (seriesSum ((rows.filter (fun r => rowKey g r == k)).map
          (fun r => (getCell r c).toNp))) := by
  unfold groupRow
  rw [getCell_append_left_not_mem (by
    intro hmem
    rw [List.mem_map] at hmem
    obtain ⟨p, hp, rfl⟩ := hmem
    exact hcg (List.of_mem_zip hp).1)]
  exact getCell_mapRow_of_mem _ hcs

theorem groupKeys_nodup (g : List String) (rows : List Row) :
    (groupKeys g rows).Nodup :=
  ((List.perm_insertionSort keyLe _).nodup_iff).mpr (List.nodup_dedup _)

theorem mem_groupKeys {g : List String} {rows : List Row} {k : List Cell} :
    k ∈ groupKeys g rows
      ↔ k ∈ (rows.filter (fun r => keyIsValid (rowKey g r))).map (rowKey g) := by
  unfold groupKeys
  rw [List.mem_insertionSort, List.mem_dedup]

theorem groupKeys_sorted (g : List String) (rows : List Row) :
    List.Sorted keyLe (groupKeys g rows) :=
  List.sorted_insertionSort keyLe _

theorem groupKeys_perm (g : List String) {r1 r2 : List Row} (h : r1.Perm r2) :
    groupKeys g r1 = groupKeys g r2 :=
  List.eq_of_perm_of_sorted
    ((List.perm_insertionSort keyLe _).trans
      ((((h.filter _).map _).dedup).trans (List.perm_insertionSort keyLe _).symm))
    (groupKeys_sorted g r1) (groupKeys_sorted g r2)

theorem groupKeys_length {g : List String} {rows : List Row} {k : List Cell}
    (h : k ∈ groupKeys g rows) : k.length = g.length := by
  rw [mem_groupKeys, List.mem_map] at h
  obtain ⟨r, _, rfl⟩ := h
  exact List.length_map _ _

theorem groupbySum_rows_rowKey (df : Frame) (g s : List String) (hg : g.Nodup) :
    (groupbySum df g s).rows.map (rowKey g) = groupKeys g df.rows := by
  unfold groupbySum
  rw [List.map_map]
  have : ∀ k ∈ groupKeys g df.rows,
      (rowKey g ∘ groupRow g s df.rows) k = id k := by
    intro k hk
    exact rowKey_groupRow g s df.rows k hg (groupKeys_length hk)
  rw [List.map_congr_left this, List.map_id]

theorem groupbySum_match_le_one (df : Frame) (g s : List String) (hg : g.Nodup)
    (r0 : Row) :
    ((groupbySum df g s).rows.filter
      (fun h => g.all (fun c => getCell h c == getCell r0 c))).length ≤ 1 := by
  have hconv : ∀ h, (g.all (fun c => getCell h c == getCell r0 c))
      = (rowKey g h == rowKey g r0) := fun h => all_beq_eq_map_beq g h r0
  rw [List.filter_congr (fun a _ => hconv a)]
  apply filter_key_length_le_one _ (rowKey g)
  rw [groupbySum_rows_rowKey df g s hg]
  exact groupKeys_nodup g df.rows

theorem mergeOn_cols {l rt : Frame} {onc : List String}
    (hov : l.cols.filter
      (fun c => (rt.cols.filter (fun c2 => !(onc.contains c2))).contains c) = []) :
    (mergeOn l rt onc).cols
      = l.cols ++ rt.cols.filter (fun c => !(onc.contains c)) := by
  unfold mergeOn
  simp only [hov, List.foldl_nil]

theorem isna_iff {p : NpV} : p.isna = true ↔ p = NpV.nan := by
  cases p <;> simp [NpV.isna]

/-! ### Claim C7 -/

/-- C7: `calculate_percentage_change` returns null (`NaN`) whenever the
previous value is missing or zero; for any other previous value it
returns `(current - previous) / previous` with a missing current treated
as zero (in particular, for finite values the exact rational relative
change); and `calculate_percentage_change(110, 100) = 0.10`.  The
function is total (the source's catch-all handler precludes any
exception). -/
theorem C7_percentage_change_spec :
    (∀ c p : NpV, (p = NpV.nan ∨ p = NpV.fin 0) →
      calculate_percentage_change c p = NpV.nan)
  ∧ (∀ c p : NpV, p ≠ NpV.nan → p ≠ NpV.fin 0 →
      calculate_percentage_change c p
        = NpV.npDiv (NpV.npSub (NpV.orZero c) p) p)
  ∧ (∀ c p : ℚ, p ≠ 0 →
      calculate_percentage_change (NpV.fin c) (NpV.fin p) = NpV.fin ((c - p) / p))
  ∧ (∀ p : ℚ, p ≠ 0 →
      calculate_percentage_change NpV.nan (NpV.fin p) = NpV.fin ((0 - p) / p))
  ∧ calculate_percentage_change (NpV.fin 110) (NpV.fin 100) = NpV.fin (1 / 10) := by
  refine ⟨?_, ?_, ?_, ?_, ?_⟩
  · rintro c p (rfl | rfl) <;> simp [calculate_percentage_change, NpV.isna]
  · intro c p h1 h2
    unfold calculate_percentage_change
    rw [if_neg]
    simp only [Bool.or_eq_true, beq_iff_eq]
    rintro (hna | h0)
    · exact h1 (isna_iff.mp hna)
    · exact h2 h0
  · intro c p hp
    simp [calculate_percentage_change, NpV.isna, NpV.orZero, NpV.npSub, NpV.npDiv, hp]
  · intro p hp
    simp [calculate_percentage_change, NpV.isna, NpV.orZero, NpV.npSub, NpV.npDiv, hp]
  · norm_num [calculate_percentage_change, NpV.isna, NpV.orZero, NpV.npSub, NpV.npDiv]

/-- C7 witness: the three behaviours at concrete inputs, obtained by
applying `C7_percentage_change_spec` with its hypotheses discharged. -/
theorem C7_percentage_change_witness :
    calculate_percentage_change (NpV.fin 110) NpV.nan = NpV.nan
  ∧ calculate_percentage_change (NpV.fin 110) (NpV.fin 0) = NpV.nan
  ∧ calculate_percentage_change (NpV.fin 110) (NpV.fin 100)
      = NpV.fin ((110 - 100) / 100) :=
  ⟨C7_percentage_change_spec.1 _ _ (Or.inl rfl),
   C7_percentage_change_spec.1 _ _ (Or.inr rfl),
   C7_percentage_change_spec.2.2.1 110 100 (by norm_num)⟩

/-! ### Claim C4 -/

/-- C4 counterexample: on a frame lacking the requested group column
`b`, `group_and_sum` does not fail with a `SchemaError` — the internal
`ValueError` is caught and the caller receives the input frame
unchanged, the grouping request silently dropped. -/
theorem C4_counterexample :
    group_and_sum ⟨["a"], [[("a", Cell.v (NpV.fin 1))]]⟩ ["b"] ["a"]
      = Frame.mk ["a"] [[("a", Cell.v (NpV.fin 1))]]
  ∧ group_and_sum_checked ⟨["a"], [[("a", Cell.v (NpV.fin 1))]]⟩ ["b"] ["a"]
      = Except.error "b" := by
  exact ⟨rfl, rfl⟩

/-- C4 (amended): whenever a requested group or sum column is absent,
`group_and_sum` detects it — the column check raises a `ValueError`
naming the missing column — but its handler catches the error and
returns the input frame unchanged, so no `SchemaError` reaches the
caller. -/
theorem C4_group_and_sum_missing_column (df : Frame) (g s : List String)
    (h : ∃ c ∈ g ++ s, df.cols.contains c = false) :
    (∃ c, group_and_sum_checked df g s = Except.error c)
  ∧ group_and_sum df g s = df := by
  have hsome : ((g ++ s).find? (fun c => !(df.cols.contains c))).isSome := by
    rw [List.find?_isSome]
    obtain ⟨c, hc, hn⟩ := h
    exact ⟨c, hc, by rw [hn]; rfl⟩
  obtain ⟨c0, hc0⟩ := Option.isSome_iff_exists.mp hsome
  constructor
  · refine ⟨c0, ?_⟩
    unfold group_and_sum_checked
    rw [hc0]
  · unfold group_and_sum group_and_sum_checked
    rw [hc0]

/-- C4 witness: `C4_group_and_sum_missing_column` applied at a concrete
frame missing the group column. -/
theorem C4_witness :
    (∃ c, group_and_sum_checked ⟨["x"], []⟩ ["y"] [] = Except.error c)
  ∧ group_and_sum ⟨["x"], []⟩ ["y"] [] = ⟨["x"], []⟩ :=
  C4_group_and_sum_missing_column ⟨["x"], []⟩ ["y"] [] ⟨"y", by simp, by decide⟩

/-! ### Claim C10 -/

/-- C10: whenever the body of `group_and_sum`, `merge_with_history`,
`merge_operation_with_history` or `merge_channel_with_history` raises
(modelled by the `Except.error` outcome of the corresponding `_core`
computation), the exception is caught and the caller's original input
frame is returned as-is — no partially built columns appear. -/
theorem C10_exception_atomicity :
    (∀ (df : Frame) (g s : List String) (e : String),
      group_and_sum_checked df g s = Except.error e → group_and_sum df g s = df)
  ∧ (∀ (cur hist : Frame) (onc vals : List String) (e : String),
      merge_with_history_core cur hist onc vals = Except.error e →
        merge_with_history cur (some hist) onc vals = cur)
  ∧ (∀ (cur : Frame) (hs : List (String × Option Frame)) (e : String),
      merge_operation_with_history_core cur hs = Except.error e →
        merge_operation_with_history cur hs = cur)
  ∧ (∀ (d : Cell) (cur : Frame) (hs : List (String × Option Frame)) (e : String),
      merge_channel_with_history_core d cur hs = Except.error e →
        merge_channel_with_history d cur hs = cur) := by
  refine ⟨?_, ?_, ?_, ?_⟩
  · intro df g s e he
    unfold group_and_sum
    rw [he]
  · intro cur hist onc vals e he
    show (match merge_with_history_core cur hist onc vals with
          | Except.ok r => r
          | Except.error _ => cur) = cur
    rw [he]
  · intro cur hs e he
    unfold merge_operation_with_history
    rw [he]
  · intro d cur hs e he
    unfold merge_channel_with_history
    rw [he]

/-- C10 witness: concrete failing calls (all needed columns absent) for
each of the four functions, each returning its input unchanged by
`C10_exception_atomicity`. -/
theorem C10_witness :
    group_and_sum ⟨[], []⟩ ["a"] [] = ⟨[], []⟩
  ∧ merge_with_history ⟨[], []⟩ (some ⟨[], []⟩) ["k"] [] = ⟨[], []⟩
  ∧ merge_operation_with_history ⟨[], []⟩ [("last_week", some ⟨[], []⟩)] = ⟨[], []⟩
  ∧ merge_channel_with_history (Cell.str "d") ⟨[], []⟩
      [("last_week", some ⟨[], []⟩)] = ⟨[], []⟩ :=
  ⟨C10_exception_atomicity.1 ⟨[], []⟩ ["a"] [] "a" rfl,
   C10_exception_atomicity.2.1 ⟨[], []⟩ ⟨[], []⟩ ["k"] [] "select" rfl,
   C10_exception_atomicity.2.2.1 ⟨[], []⟩ [("last_week", some ⟨[], []⟩)] "select" rfl,
   C10_exception_atomicity.2.2.2 (Cell.str "d") ⟨[], []⟩
     [("last_week", some ⟨[], []⟩)] "select" rfl⟩

/-! ### Rename / column-assignment fold lemmas -/

theorem getCell_renameRow_of_ne {c old new : String} (r : Row)
    (h1 : c ≠ old) (h2 : c ≠ new) :
    getCell (r.map (fun p => if p.1 = old then (new, p.2) else p)) c
      = getCell r c := by
  induction r with
  | nil => rfl
  | cons p rs ih =>
    by_cases hp : p.1 = old
    · rw [List.map_cons, if_pos hp,
        getCell_cons_of_ne (show ((new, p.2) : String × Cell).1 ≠ c from
          fun hc => h2 hc.symm),
        getCell_cons_of_ne (show p.1 ≠ c from fun hc => h1 ((hc ▸ hp : c = old)))]
      exact ih
    · rw [List.map_cons, if_neg hp]
      by_cases hc : p.1 = c
      · unfold getCell
        rw [List.find?_cons_of_pos _ (by simpa using hc),
          List.find?_cons_of_pos _ (by simpa using hc)]
      · rw [getCell_cons_of_ne hc, getCell_cons_of_ne hc]
        exact ih

theorem getCell_chainRow (sfx : String) {c : String} :
    ∀ (vals : List String) (r : Row), c ∉ vals → (∀ v ∈ vals, c ≠ v ++ sfx) →
    getCell (vals.foldl (fun rr v =>
        rr.map (fun p => if p.1 = v then (v ++ sfx, p.2) else p)) r) c
      = getCell r c := by
  intro vals
  induction vals with
  | nil => intro r _ _; rfl
  | cons v vs ih =>
    intro r h1 h2
    rw [List.foldl_cons,
      ih _ (fun hm => h1 (List.mem_cons_of_mem _ hm))
        (fun w hw => h2 w (List.mem_cons_of_mem _ hw))]
    exact getCell_renameRow_of_ne r
      (fun hc => h1 (by rw [hc]; exact List.mem_cons_self v vs))
      (h2 v (List.mem_cons_self v vs))

theorem foldl_renameCol_rows (sfx : String) :
    ∀ (vals : List String) (f : Frame),
    (vals.foldl (fun fr v => renameCol fr v (v ++ sfx)) f).rows
      = f.rows.map (fun r => vals.foldl (fun rr v =>
          rr.map (fun p => if p.1 = v then (v ++ sfx, p.2) else p)) r) := by
  intro vals
  induction vals with
  | nil => intro f; simp
  | cons v vs ih =>
    intro f
    rw [List.foldl_cons, ih]
    show (f.rows.map _).map _ = _
    rw [List.map_map]
    rfl

theorem foldl_renameCol_cols (sfx : String) :
    ∀ (vals : List String) (f : Frame),
    (vals.foldl (fun fr v => renameCol fr v (v ++ sfx)) f).cols
      = vals.foldl (fun cs v => cs.map (fun x => if x = v then v ++ sfx else x))
          f.cols := by
  intro vals
  induction vals with
  | nil => intro f; rfl
  | cons v vs ih =>
    intro f
    rw [List.foldl_cons, ih, List.foldl_cons]
    rfl

theorem mem_chainCols_stable (sfx : String) {c : String} :
    ∀ (vals : List String) (cols : List String), c ∈ cols → c ∉ vals →
      (∀ v ∈ vals, c ≠ v ++ sfx) →
      c ∈ vals.foldl (fun cs v => cs.map (fun x => if x = v then v ++ sfx else x))
        cols := by
  intro vals
  induction vals with
  | nil => intro cols h _ _; exact h
  | cons v vs ih =>
    intro cols h h1 h2
    rw [List.foldl_cons]
    have himg : (if c = v then v ++ sfx else c) = c :=
      if_neg (fun hc => h1 (by rw [hc]; exact List.mem_cons_self v vs))
    exact ih _ (himg ▸ List.mem_map_of_mem _ h)
      (fun hm => h1 (List.mem_cons_of_mem _ hm))
      (fun w hw => h2 w (List.mem_cons_of_mem _ hw))

theorem mem_chainCols_suffixed (sfx : String) :
    ∀ (vals : List String) (cols : List String) (v : String),
      vals.Nodup → (∀ u ∈ vals, ∀ w ∈ vals, u ≠ w ++ sfx) →
      (vals.map (fun x => x ++ sfx)).Nodup →
      v ∈ vals → v ∈ cols →
      (v ++ sfx) ∈ vals.foldl
        (fun cs u => cs.map (fun x => if x = u then u ++ sfx else x)) cols := by
  intro vals
  induction vals with
  | nil => intro cols v _ _ _ hv; cases hv
  | cons u us ih =>
    intro cols v hnd hvs hmapnd hv hcols
    rw [List.foldl_cons]
    rw [List.map_cons, List.nodup_cons] at hmapnd
    rcases List.mem_cons.mp hv with rfl | hvus
    · apply mem_chainCols_stable sfx us _ ?_ ?_ ?_
      · have h0 := List.mem_map_of_mem (fun x => if x = v then v ++ sfx else x) hcols
        simpa using h0
      · intro hmem
        exact hvs (v ++ sfx) (List.mem_cons_of_mem _ hmem) v
          (List.mem_cons_self _ _) rfl
      · intro w hw heq
        exact hmapnd.1 (by rw [heq]; exact List.mem_map_of_mem _ hw)
    · have hvu : v ≠ u := fun h => ((List.nodup_cons.mp hnd).1) (h ▸ hvus)
      have himg : (if v = u then u ++ sfx else v) = v := if_neg hvu
      exact ih _ v (List.nodup_cons.mp hnd).2
        (fun a ha w hw => hvs a (List.mem_cons_of_mem _ ha) w
          (List.mem_cons_of_mem _ hw))
        hmapnd.2 hvus (himg ▸ List.mem_map_of_mem _ hcols)

theorem all_congr_of_mem {α : Type} {l : List α} {p q : α → Bool}
    (h : ∀ a ∈ l, p a = q a) : l.all p = l.all q := by
  induction l with
  | nil => rfl
  | cons a t ih =>
    rw [List.all_cons, List.all_cons, h a (List.mem_cons_self a t),
      ih (fun x hx => h x (List.mem_cons_of_mem a hx))]

theorem foldl_setCol_rows (k : String → String) (g : String → Row → Cell) :
    ∀ (vals : List String) (m : Frame),
    (vals.foldl (fun f c => setCol f (k c) (fun r => g c r)) m).rows
      = m.rows.map (fun r => vals.foldl
          (fun rr c => setCell rr (k c) (g c rr)) r) := by
  intro vals
  induction vals with
  | nil => intro m; simp
  | cons c cs ih =>
    intro m
    rw [List.foldl_cons, ih]
    show (m.rows.map _).map _ = _
    rw [List.map_map]
    rfl

theorem getCell_foldl_setCell_of_ne (k : String → String) (g : String → Row → Cell)
    {c : String} :
    ∀ (vals : List String) (r : Row), (∀ w ∈ vals, c ≠ k w) →
    getCell (vals.foldl (fun rr w => setCell rr (k w) (g w rr)) r) c
      = getCell r c := by
  intro vals
  induction vals with
  | nil => intro r _; rfl
  | cons w ws ih =>
    intro r h
    rw [List.foldl_cons,
      ih _ (fun u hu => h u (List.mem_cons_of_mem _ hu)),
      getCell_setCell_of_ne _ _ (h w (List.mem_cons_self w ws))]

theorem mergeExt_map_fst (rt : Frame) (onc : List String) (r0 : Row) :
    (mergeExt rt onc r0).map Prod.fst
      = rt.cols.filter (fun c => !(onc.contains c)) := by
  unfold mergeExt
  rcases rt.rows.filter
      (fun h => onc.all (fun c => getCell h c == getCell r0 c)) with _ | ⟨h, hs⟩
  · rw [List.map_map]
    exact (List.map_congr_left (fun a _ => rfl)).trans (List.map_id _)
  · rw [List.map_map]
    exact (List.map_congr_left (fun a _ => rfl)).trans (List.map_id _)

theorem cpcc_nan_right (c : Cell) :
    calculate_percentage_change_cell c (Cell.v NpV.nan) = Cell.v NpV.nan := by
  cases c with
  | v cv => simp [calculate_percentage_change_cell, calculate_percentage_change,
      NpV.isna]
  | str s => rfl

theorem projRow_congr {cols : List String} {r1 r2 : Row}
    (h : ∀ c ∈ cols, getCell r1 c = getCell r2 c) :
    projRow cols r1 = projRow cols r2 :=
  List.map_congr_left (fun c hc => by rw [h c hc])

theorem fold_change_nan (vals : List String) :
    ∀ (r : Row), (vals.map (fun v => v ++ "_变化")).Nodup →
      (∀ u ∈ vals, ∀ w ∈ vals, (u ++ "_历史") ≠ (w ++ "_变化")) →
      (∀ v ∈ vals, getCell r (v ++ "_历史") = Cell.v NpV.nan) →
      ∀ v ∈ vals,
        getCell (vals.foldl (fun rr c => setCell rr (c ++ "_变化")
          (calculate_percentage_change_cell (getCell rr c)
            (getCell rr (c ++ "_历史")))) r) (v ++ "_变化") = Cell.v NpV.nan := by
  induction vals with
  | nil => intro r _ _ _ v hv; cases hv
  | cons u us ih =>
    intro r hnd hcross hhist v hv
    rw [List.foldl_cons]
    rw [List.map_cons, List.nodup_cons] at hnd
    have hhist1 : ∀ w ∈ u :: us,
        getCell (setCell r (u ++ "_变化")
          (calculate_percentage_change_cell (getCell r u)
            (getCell r (u ++ "_历史")))) (w ++ "_历史")
          = getCell r (w ++ "_历史") := fun w hw =>
      getCell_setCell_of_ne _ _ (hcross w hw u (List.mem_cons_self u us))
    rcases List.mem_cons.mp hv with rfl | hvus
    · rw [getCell_foldl_setCell_of_ne (fun c => c ++ "_变化")
        (fun c rr => calculate_percentage_change_cell (getCell rr c)
          (getCell rr (c ++ "_历史"))) us _
        (fun w hw heq => hnd.1 (by
          rw [show v ++ "_变化" = w ++ "_变化" from heq]
          exact List.mem_map_of_mem _ hw))]
      rw [getCell_setCell_self, hhist (v) (List.mem_cons_self v us), cpcc_nan_right]
    · exact ih _ hnd.2
        (fun a ha w hw => hcross a (List.mem_cons_of_mem _ ha) w
          (List.mem_cons_of_mem _ hw))
        (fun w hw => (hhist1 w (List.mem_cons_of_mem _ hw)).trans
          (hhist w (List.mem_cons_of_mem _ hw)))
        v hvus

/-! ### Claim C3 -/

/-- C3 counterexample: with a historical frame holding two rows for the
join key `A`, the single current row appears twice in the output of
`merge_with_history` — the pandas left merge multiplies rows on
duplicate historical keys instead of keeping every current row exactly
once. -/
theorem C3_counterexample :
    (merge_with_history curDupKey (some histDupKey) ["k"] ["x"]).rows.length = 2
  ∧ curDupKey.rows.length = 1
  ∧ (merge_with_history curDupKey (some histDupKey) ["k"] ["x"]).rows.countP
      (fun r => projRow ["k", "x"] r
        == [("k", Cell.str "A"), ("x", Cell.v (NpV.fin 10))]) = 2 := by
  refine ⟨by decide, rfl, by decide⟩

/-- C3 (amended): `merge_with_history` keeps every row of `current`
exactly once provided each current row matches at most one historical
row (with duplicate matching historical keys, pandas emits one output
row per match — see the counterexample); the hypotheses fix the
well-formed column naming the util is written for (key, value and
suffixed column names present where needed, pairwise distinct and fresh).
Each output row preserves its current row's cells, and an unmatched
current row carries null historical and null change columns. -/
theorem C3_merge_with_history_unique
    (cur hist : Frame) (onc vals : List String)
    (hco : ∀ c ∈ onc, cur.cols.contains c = true)
    (hcv : ∀ v ∈ vals, cur.cols.contains v = true)
    (hho : ∀ c ∈ onc, hist.cols.contains c = true)
    (hhv : ∀ v ∈ vals, hist.cols.contains v = true)
    (hdisj : ∀ c ∈ onc, c ∉ vals)
    (hvnd : vals.Nodup)
    (hfresh : ∀ v ∈ vals, (v ++ "_历史") ∉ cur.cols ∧ (v ++ "_变化") ∉ cur.cols)
    (hsfxo : ∀ v ∈ vals, (v ++ "_历史") ∉ onc)
    (hsfxv : ∀ u ∈ vals, ∀ w ∈ vals, u ≠ w ++ "_历史")
    (hsfxnd : (vals.map (fun v => v ++ "_历史")).Nodup)
    (hchnd : (vals.map (fun v => v ++ "_变化")).Nodup)
    (hcross : ∀ v ∈ vals, ∀ w ∈ vals, (v ++ "_历史") ≠ (w ++ "_变化"))
    (hwf : ∀ r ∈ cur.rows, r.map Prod.fst = cur.cols)
    (hmatch : ∀ r0 ∈ cur.rows, (hist.rows.filter
        (fun h => onc.all (fun c => getCell h c == getCell r0 c))).length ≤ 1) :
    (merge_with_history cur (some hist) onc vals).rows.length = cur.rows.length
  ∧ List.Forall₂ (fun rOut rCur =>
      projRow cur.cols rOut = projRow cur.cols rCur
      ∧ (hist.rows.filter
            (fun h => onc.all (fun c => getCell h c == getCell rCur c)) = [] →
          ∀ v ∈ vals, getCell rOut (v ++ "_历史") = Cell.v NpV.nan
            ∧ getCell rOut (v ++ "_变化") = Cell.v NpV.nan))
      (merge_with_history cur (some hist) onc vals).rows cur.rows := by
  -- abbreviations (written out; `h2` is the renamed historical frame,
  -- `want` its selected columns, `rt` the selected right side)
  have hwantmem : ∀ c ∈ onc ++ vals.map (fun v => v ++ "_历史"),
      ((vals.foldl (fun f c => renameCol f c (c ++ "_历史")) hist).cols.contains c)
        = true := by
    intro c hc
    rw [List.elem_iff, foldl_renameCol_cols]
    rcases List.mem_append.mp hc with hc1 | hc2
    · exact mem_chainCols_stable "_历史" vals hist.cols
        (List.elem_iff.mp (hho c hc1)) (hdisj c hc1)
        (fun v hv heq => hsfxo v hv (heq ▸ hc1))
    · obtain ⟨v, hv, rfl⟩ := List.mem_map.mp hc2
      exact mem_chainCols_suffixed "_历史" vals hist.cols v hvnd hsfxv hsfxnd hv
        (List.elem_iff.mp (hhv v hv))
  have hcheck1 : ((onc ++ vals.map (fun c => c ++ "_历史")).any (fun c =>
      !((vals.foldl (fun f c => renameCol f c (c ++ "_历史")) hist).cols.contains c)))
        = false := by
    rw [List.any_eq_false]
    intro c hc
    have h := hwantmem c hc
    simp only [Bool.not_eq_eq_eq_not, Bool.not_true]
    rw [h]
    simp
  have hcheck2 : (onc.any (fun c => !(cur.cols.contains c))) = false := by
    rw [List.any_eq_false]
    intro c hc
    have h := hco c hc
    simp only [Bool.not_eq_eq_eq_not, Bool.not_true]
    rw [h]
    simp
  have hrvals : (onc ++ vals.map (fun c => c ++ "_历史")).filter
      (fun c => !(onc.contains c)) = vals.map (fun c => c ++ "_历史") := by
    rw [List.filter_append]
    have h1 : onc.filter (fun c => !(onc.contains c)) = [] := by
      rw [List.filter_eq_nil_iff]
      intro c hc
      have h : onc.contains c = true := List.elem_iff.mpr hc
      simp only [Bool.not_eq_eq_eq_not, Bool.not_true]
      rw [h]
      simp
    have h2 : (vals.map (fun c => c ++ "_历史")).filter (fun c => !(onc.contains c))
        = vals.map (fun c => c ++ "_历史") := by
      rw [List.filter_eq_self]
      intro c hc
      obtain ⟨v, hv, rfl⟩ := List.mem_map.mp hc
      simp only [Bool.not_eq_eq_eq_not, Bool.not_true]
      rw [← Bool.not_eq_true]
      intro hcon
      exact hsfxo v hv (List.elem_iff.mp hcon)
    rw [h1, h2, List.nil_append]
  have hov : cur.cols.filter (fun c =>
      (((selectCols (vals.foldl (fun f c => renameCol f c (c ++ "_历史")) hist)
        (onc ++ vals.map (fun c => c ++ "_历史"))).cols.filter
          (fun c2 => !(onc.contains c2))).contains c)) = [] := by
    show cur.cols.filter (fun c =>
      (((onc ++ vals.map (fun c => c ++ "_历史")).filter
          (fun c2 => !(onc.contains c2))).contains c)) = []
    rw [hrvals, List.filter_eq_nil_iff]
    intro c hc hcon
    obtain ⟨v, hv, heq⟩ := List.mem_map.mp (List.elem_iff.mp hcon)
    exact (hfresh v hv).1 (by
      rw [show v ++ "_历史" = c from heq]
      exact hc)
  have hrtrows : (selectCols (vals.foldl (fun f c => renameCol f c (c ++ "_历史")) hist)
      (onc ++ vals.map (fun c => c ++ "_历史"))).rows
      = hist.rows.map (fun r => projRow (onc ++ vals.map (fun c => c ++ "_历史"))
          (vals.foldl (fun rr v =>
            rr.map (fun p => if p.1 = v then (v ++ "_历史", p.2) else p)) r)) := by
    show ((vals.foldl (fun f c => renameCol f c (c ++ "_历史")) hist).rows.map
      (projRow (onc ++ vals.map (fun c => c ++ "_历史")))) = _
    rw [foldl_renameCol_rows, List.map_map]
    rfl
  have hpredeq : ∀ r0 : Row, ∀ r ∈ hist.rows,
      (onc.all (fun c => getCell (projRow (onc ++ vals.map (fun c => c ++ "_历史"))
          (vals.foldl (fun rr v =>
            rr.map (fun p => if p.1 = v then (v ++ "_历史", p.2) else p)) r)) c
        == getCell r0 c))
      = (onc.all (fun c => getCell r c == getCell r0 c)) := by
    intro r0 r _
    apply all_congr_of_mem
    intro c hc
    rw [getCell_projRow_of_mem _ (List.mem_append_left _ hc),
      getCell_chainRow "_历史" vals _ (hdisj c hc)
        (fun v hv heq => hsfxo v hv (heq ▸ hc))]
  have hfiltmap : ∀ r0 : Row,
      ((selectCols (vals.foldl (fun f c => renameCol f c (c ++ "_历史")) hist)
        (onc ++ vals.map (fun c => c ++ "_历史"))).rows.filter
          (fun h => onc.all (fun c => getCell h c == getCell r0 c)))
      = (hist.rows.filter
          (fun h => onc.all (fun c => getCell h c == getCell r0 c))).map
        (fun r => projRow (onc ++ vals.map (fun c => c ++ "_历史"))
          (vals.foldl (fun rr v =>
            rr.map (fun p => if p.1 = v then (v ++ "_历史", p.2) else p)) r)) := by
    intro r0
    rw [hrtrows, List.filter_map]
    congr 1
    exact List.filter_congr (fun r hr => hpredeq r0 r hr)
  have hmatch2 : ∀ r0 ∈ cur.rows,
      ((selectCols (vals.foldl (fun f c => renameCol f c (c ++ "_历史")) hist)
        (onc ++ vals.map (fun c => c ++ "_历史"))).rows.filter
          (fun h => onc.all (fun c => getCell h c == getCell r0 c))).length ≤ 1 := by
    intro r0 hr0
    rw [hfiltmap r0, List.length_map]
    exact hmatch r0 hr0
  have hmrows : (mergeOn cur
      (selectCols (vals.foldl (fun f c => renameCol f c (c ++ "_历史")) hist)
        (onc ++ vals.map (fun c => c ++ "_历史"))) onc).rows
      = cur.rows.map (fun r0 => r0 ++ mergeExt
          (selectCols (vals.foldl (fun f c => renameCol f c (c ++ "_历史")) hist)
            (onc ++ vals.map (fun c => c ++ "_历史"))) onc r0) :=
    mergeOn_rows_eq_map hov hmatch2
  have hmcols : (mergeOn cur
      (selectCols (vals.foldl (fun f c => renameCol f c (c ++ "_历史")) hist)
        (onc ++ vals.map (fun c => c ++ "_历史"))) onc).cols
      = cur.cols ++ vals.map (fun c => c ++ "_历史") := by
    rw [mergeOn_cols hov]
    show cur.cols ++ (onc ++ vals.map (fun c => c ++ "_历史")).filter
      (fun c => !(onc.contains c)) = _
    rw [hrvals]
  have hcheck3 : (vals.any (fun c => !((mergeOn cur
      (selectCols (vals.foldl (fun f c => renameCol f c (c ++ "_历史")) hist)
        (onc ++ vals.map (fun c => c ++ "_历史"))) onc).cols.contains c))) = false := by
    rw [List.any_eq_false]
    intro v hv
    have : (mergeOn cur
        (selectCols (vals.foldl (fun f c => renameCol f c (c ++ "_历史")) hist)
          (onc ++ vals.map (fun c => c ++ "_历史"))) onc).cols.contains v = true := by
      rw [hmcols, List.elem_iff]
      exact List.mem_append_left _ (List.elem_iff.mp (hcv v hv))
    simp only [Bool.not_eq_eq_eq_not, Bool.not_true]
    rw [this]
    simp
  have hres : merge_with_history cur (some hist) onc vals
      = vals.foldl (fun f c => setCol f (c ++ "_变化") (fun r =>
          calculate_percentage_change_cell (getCell r c) (getCell r (c ++ "_历史"))))
        (mergeOn cur
          (selectCols (vals.foldl (fun f c => renameCol f c (c ++ "_历史")) hist)
            (onc ++ vals.map (fun c => c ++ "_历史"))) onc) := by
    show (match merge_with_history_core cur hist onc vals with
          | Except.ok r => r
          | Except.error _ => cur) = _
    have hcore : merge_with_history_core cur hist onc vals
        = Except.ok (vals.foldl (fun f c => setCol f (c ++ "_变化") (fun r =>
            calculate_percentage_change_cell (getCell r c)
              (getCell r (c ++ "_历史"))))
          (mergeOn cur
            (selectCols (vals.foldl (fun f c => renameCol f c (c ++ "_历史")) hist)
              (onc ++ vals.map (fun c => c ++ "_历史"))) onc)) := by
      unfold merge_with_history_core
      simp only [hcheck1, hcheck2, hcheck3, Bool.false_eq_true, if_false]
    rw [hcore]
  have hrows : (merge_with_history cur (some hist) onc vals).rows
      = cur.rows.map (fun r0 =>
          vals.foldl (fun rr c => setCell rr (c ++ "_变化")
            (calculate_percentage_change_cell (getCell rr c)
              (getCell rr (c ++ "_历史"))))
          (r0 ++ mergeExt
            (selectCols (vals.foldl (fun f c => renameCol f c (c ++ "_历史")) hist)
              (onc ++ vals.map (fun c => c ++ "_历史"))) onc r0)) := by
    rw [hres, foldl_setCol_rows (fun c => c ++ "_变化") (fun c r =>
      calculate_percentage_change_cell (getCell r c) (getCell r (c ++ "_历史"))),
      hmrows, List.map_map]
    rfl
  have hextfst : ∀ r0 : Row, (mergeExt
      (selectCols (vals.foldl (fun f c => renameCol f c (c ++ "_历史")) hist)
        (onc ++ vals.map (fun c => c ++ "_历史"))) onc r0).map Prod.fst
      = vals.map (fun c => c ++ "_历史") := by
    intro r0
    rw [mergeExt_map_fst]
    show (onc ++ vals.map (fun c => c ++ "_历史")).filter
      (fun c => !(onc.contains c)) = _
    exact hrvals
  constructor
  · rw [hrows, List.length_map]
  · rw [hrows]
    rw [List.forall₂_map_left_iff]
    rw [List.forall₂_same]
    intro r0 hr0
    constructor
    · -- current cells preserved
      apply projRow_congr
      intro c hc
      rw [getCell_foldl_setCell_of_ne (fun c => c ++ "_变化") _ vals _
        (fun w hw heq => (hfresh w hw).2 (by
          rw [← show c = w ++ "_变化" from heq]
          exact hc))]
      rw [getCell_append_right_not_mem (by
        rw [hextfst r0]
        intro hmem
        obtain ⟨v, hv, heq⟩ := List.mem_map.mp hmem
        exact (hfresh v hv).1 (by
          rw [show v ++ "_历史" = c from heq]
          exact hc))]
    · -- unmatched rows carry null history and change columns
      intro hnil v hv
      have hfiltnil : ((selectCols (vals.foldl (fun f c =>
          renameCol f c (c ++ "_历史")) hist)
          (onc ++ vals.map (fun c => c ++ "_历史"))).rows.filter
            (fun h => onc.all (fun c => getCell h c == getCell r0 c))) = [] := by
        rw [hfiltmap r0, hnil]
        rfl
      have hext : mergeExt
          (selectCols (vals.foldl (fun f c => renameCol f c (c ++ "_历史")) hist)
            (onc ++ vals.map (fun c => c ++ "_历史"))) onc r0
          = ((onc ++ vals.map (fun c => c ++ "_历史")).filter
              (fun c => !(onc.contains c))).map (fun c => (c, Cell.v NpV.nan)) := by
        unfold mergeExt
        rw [hfiltnil]
        rfl
      have hhistnan : ∀ w ∈ vals,
          getCell (r0 ++ mergeExt
            (selectCols (vals.foldl (fun f c => renameCol f c (c ++ "_历史")) hist)
              (onc ++ vals.map (fun c => c ++ "_历史"))) onc r0) (w ++ "_历史")
          = Cell.v NpV.nan := by
        intro w hw
        rw [getCell_append_left_not_mem (by
          rw [hwf r0 hr0]
          exact (hfresh w hw).1)]
        rw [hext, hrvals]
        exact getCell_mapRow_of_mem (fun _ => Cell.v NpV.nan)
          (List.mem_map_of_mem _ hw)
      constructor
      · -- null historical column
        rw [getCell_foldl_setCell_of_ne (fun c => c ++ "_变化") _ vals _
          (fun w hw => hcross v hv w hw)]
        exact hhistnan v hv
      · -- null change column
        exact fold_change_nan vals _ hchnd hcross hhistnan v hv

/-- C3 witness: `C3_merge_with_history_unique` applied to a concrete
one-row current frame and a single-match historical frame, all
hypotheses discharged by computation. -/
theorem C3_merge_with_history_witness :
    (merge_with_history curDupKey (some histOneKey) ["k"] ["x"]).rows.length
      = curDupKey.rows.length :=
  (C3_merge_with_history_unique curDupKey histOneKey ["k"] ["x"]
    (by decide) (by decide) (by decide) (by decide) (by decide) (by decide)
    (by decide) (by decide) (by decide) (by decide) (by decide) (by decide)
    (by decide) (by decide)).1

theorem npvQ_toNp (c : Cell) : npvQ c.toNp = cellQ c := by
  cases c with
  | v x => cases x <;> rfl
  | str s => rfl

/-! ### Claim C8 -/

/-- C8 counterexample: with an empty group-key list and the sum column
present, the column check passes but `df.groupby([])` raises
`ValueError('No group keys passed!')`; `group_and_sum`'s handler catches
it and returns the two-row input unchanged.  All rows share the same
(empty) observed group key, yet the output has two rows carrying the raw
values `1` and `2` — not the single aggregate row with the summed value
that the claim's universal statement requires. -/
theorem C8_counterexample :
    group_and_sum_checked twoRowsScale [] ["规模"]
      = Except.error "No group keys passed!"
  ∧ group_and_sum twoRowsScale [] ["规模"] = twoRowsScale
  ∧ (twoRowsScale.rows.map (rowKey ([] : List String))).dedup = [[]]
  ∧ (group_and_sum twoRowsScale [] ["规模"]).rows.length = 2
  ∧ ((group_and_sum twoRowsScale [] ["规模"]).rows.map (fun r => getCell r "规模"))
      = [Cell.v (NpV.fin 1), Cell.v (NpV.fin 2)] :=
  ⟨rfl, rfl, rfl, rfl, rfl⟩

/-- C8 (amended): for a **non-empty** group-key list — with an empty
one `df.groupby([])` raises `ValueError('No group keys passed!')`,
caught by the handler, which returns the input unaggregated — and for
inputs whose group and sum columns are present (with the group keys
non-missing and the summed cells finite numbers — missing keys are
dropped by pandas `groupby` and thus not group-key values),
`group_and_sum` produces exactly one row per distinct observed group
key, each summed value equals the arithmetic sum of the matching input
rows' values, the rows are ordered by group key ascending, and the
result is invariant under any permutation of the input rows. -/
theorem C8_group_and_sum_spec (df : Frame) (g s : List String)
    (hgne : g ≠ [])
    (hg : g.Nodup)
    (hgs : ∀ c ∈ s, c ∉ g)
    (hcols : ∀ c ∈ g ++ s, df.cols.contains c = true)
    (hkeys : ∀ r ∈ df.rows, keyIsValid (rowKey g r) = true)
    (hnum : ∀ r ∈ df.rows, ∀ c ∈ s, isFin (getCell r c) = true) :
    ((group_and_sum df g s).rows.map (rowKey g) = groupKeys g df.rows)
  ∧ ((group_and_sum df g s).rows.map (rowKey g)).Nodup
  ∧ (∀ k, k ∈ (group_and_sum df g s).rows.map (rowKey g)
        ↔ k ∈ df.rows.map (rowKey g))
  ∧ (∀ r0 ∈ (group_and_sum df g s).rows, ∀ c ∈ s,
      getCell r0 c = Cell.v (NpV.fin
        (((df.rows.filter (fun r => rowKey g r == rowKey g r0)).map
          (fun r => cellQ (getCell r c))).sum)))
  ∧ List.Sorted keyLe ((group_and_sum df g s).rows.map (rowKey g))
  ∧ (∀ rows2 : List Row, rows2.Perm df.rows →
      group_and_sum (Frame.mk df.cols rows2) g s = group_and_sum df g s) := by
  have hfind : ∀ rows2 : List Row,
      group_and_sum (Frame.mk df.cols rows2) g s
        = groupbySum (Frame.mk df.cols rows2) g s := by
    intro rows2
    have hge : g.isEmpty = false := by
      cases g with
      | nil => exact absurd rfl hgne
      | cons a t => rfl
    unfold group_and_sum group_and_sum_checked
    have hnone : (g ++ s).find? (fun c => !((Frame.mk df.cols rows2).cols.contains c))
        = none := by
      rw [List.find?_eq_none]
      intro c hc
      show ¬(!(df.cols.contains c)) = true
      rw [hcols c hc]
      simp
    rw [hnone, hge]
    rfl
  have hok : group_and_sum df g s = groupbySum df g s := by
    have h := hfind df.rows
    exact h
  have hkey1 : (group_and_sum df g s).rows.map (rowKey g) = groupKeys g df.rows := by
    rw [hok]
    exact groupbySum_rows_rowKey df g s hg
  refine ⟨hkey1, ?_, ?_, ?_, ?_, ?_⟩
  · rw [hkey1]
    exact groupKeys_nodup g df.rows
  · intro k
    rw [hkey1, mem_groupKeys, List.filter_eq_self.mpr hkeys]
  · intro r0 hr0 c hcs
    rw [hok] at hr0
    unfold groupbySum at hr0
    rw [List.mem_map] at hr0
    obtain ⟨k, hk, rfl⟩ := hr0
    have hkl : k.length = g.length := groupKeys_length hk
    have hrk : rowKey g (groupRow g s df.rows k) = k :=
      rowKey_groupRow g s df.rows k hg hkl
    rw [getCell_groupRow df.rows k hcs (hgs c hcs), hrk]
    have hfin : ∀ x ∈ (df.rows.filter (fun r => rowKey g r == k)).map
        (fun r => (getCell r c).toNp), isFinOrNa (Cell.v x) = true := by
      intro x hx
      rw [List.mem_map] at hx
      obtain ⟨r, hr, rfl⟩ := hx
      have hr2 := List.mem_of_mem_filter hr
      have := hnum r hr2 c hcs
      cases hcell : getCell r c with
      | v y =>
        rw [hcell] at this
        cases y <;> simp_all [isFin, isFinOrNa, Cell.toNp]
      | str t => rw [hcell] at this; simp [isFin] at this
    rw [seriesSum_eq_fin _ hfin, List.map_map]
    congr 1
    congr 1
    congr 1
    exact List.map_congr_left (fun r _ => npvQ_toNp (getCell r c))
  · rw [hkey1]
    exact groupKeys_sorted g df.rows
  · intro rows2 hperm
    rw [hfind rows2, hok]
    unfold groupbySum
    have hkeq : groupKeys g rows2 = groupKeys g df.rows := groupKeys_perm g hperm
    rw [hkeq]
    congr 1
    apply List.map_congr_left
    intro k _
    unfold groupRow
    congr 1
    apply List.map_congr_left
    intro c _
    congr 1
    congr 1
    unfold seriesSum
    apply List.Perm.sum_eq
    exact ((hperm.filter _).map _).map _

/-- C8 witness: `C8_group_and_sum_spec` at a concrete one-row frame, all
hypotheses discharged by computation. -/
theorem C8_group_and_sum_witness :
    (group_and_sum curOneCat ["产品类型"] ["规模"]).rows.map (rowKey ["产品类型"])
      = groupKeys ["产品类型"] curOneCat.rows :=
  (C8_group_and_sum_spec curOneCat ["产品类型"] ["规模"]
    (by decide) (by decide) (by decide) (by decide) (by decide) (by decide)).1

theorem setCol_contains (f : Frame) (c0 : String) (g : Row → Cell) {c : String}
    (h : f.cols.contains c = true) : (setCol f c0 g).cols.contains c = true := by
  unfold setCol
  by_cases hc : f.cols.contains c0
  · simp only [hc, if_true]
    exact h
  · simp only [hc, if_false]
    rw [List.elem_iff]
    exact List.mem_append_left _ (List.elem_iff.mp h)

theorem contains_ite (A : Prop) [Decidable A] (f g : Frame) {c : String}
    (hf : f.cols.contains c = true) (hg : g.cols.contains c = true) :
    (if A then f else g).cols.contains c = true := by
  by_cases h : A
  · rw [if_pos h]; exact hf
  · rw [if_neg h]; exact hg

theorem reconciled_rows_prop (ov df2 : Frame) :
    ∀ r ∈ (setCol (setCol df2 "校对产品规模"
        (fun r => product_scale_lookup ov (getCell r "产品代码")))
      "调整后规模" (fun r => adjustScale (getCell r "规模")
        (getCell r "校对产品规模"))).rows,
      getCell r "调整后规模"
        = adjustScale (getCell r "规模") (getCell r "校对产品规模")
      ∧ getCell r "校对产品规模"
        = product_scale_lookup ov (getCell r "产品代码") := by
  intro r hr
  rw [show (setCol (setCol df2 "校对产品规模"
      (fun r => product_scale_lookup ov (getCell r "产品代码")))
      "调整后规模" (fun r => adjustScale (getCell r "规模")
        (getCell r "校对产品规模"))).rows
    = (setCol df2 "校对产品规模"
        (fun r => product_scale_lookup ov (getCell r "产品代码"))).rows.map
      (fun r1 => setCell r1 "调整后规模" (adjustScale (getCell r1 "规模")
        (getCell r1 "校对产品规模"))) from rfl, List.mem_map] at hr
  obtain ⟨r1, hr1, rfl⟩ := hr
  constructor
  · rw [getCell_setCell_self,
      getCell_setCell_of_ne _ _ (show "规模" ≠ "调整后规模" by decide),
      getCell_setCell_of_ne _ _ (show "校对产品规模" ≠ "调整后规模" by decide)]
  · rw [getCell_setCell_of_ne _ _ (show "校对产品规模" ≠ "调整后规模" by decide),
      getCell_setCell_of_ne _ _ (show "产品代码" ≠ "调整后规模" by decide)]
    rw [show (setCol df2 "校对产品规模"
        (fun r => product_scale_lookup ov (getCell r "产品代码"))).rows
      = df2.rows.map (fun r0 => setCell r0 "校对产品规模"
          (product_scale_lookup ov (getCell r0 "产品代码"))) from rfl,
      List.mem_map] at hr1
    obtain ⟨r0, hr0, rfl⟩ := hr1
    rw [getCell_setCell_self,
      getCell_setCell_of_ne _ _ (show "产品代码" ≠ "校对产品规模" by decide)]

theorem channelPrep_contains (d : Cell) (ch : Frame) {c : String}
    (h : ch.cols.contains c = true) :
    (channelPrep d ch).cols.contains c = true := by
  simp only [channelPrep]
  exact contains_ite _ _ _
    (setCol_contains _ _ _ (contains_ite _ _ _ h h))
    (contains_ite _ _ _ h h)

theorem setCol_scale_num (df2 : Frame) (c0 : String) (g : Row → Cell)
    (hne : "规模" ≠ c0)
    (h : ∀ r ∈ df2.rows, isNumCell (getCell r "规模") = true) :
    ∀ r ∈ (setCol df2 c0 g).rows, isNumCell (getCell r "规模") = true := by
  intro r hr
  rw [show (setCol df2 c0 g).rows = df2.rows.map (fun r0 => setCell r0 c0 (g r0))
    from rfl, List.mem_map] at hr
  obtain ⟨r0, hr0, rfl⟩ := hr
  rw [getCell_setCell_of_ne _ _ hne]
  exact h r0 hr0

theorem channelPrep_scale_num (d : Cell) (ch : Frame)
    (hchn : ∀ r ∈ ch.rows, isNumCell (getCell r "规模") = true) :
    ∀ r ∈ (channelPrep d ch).rows, isNumCell (getCell r "规模") = true := by
  intro r hr
  simp only [channelPrep] at hr
  split at hr
  · have hF : ∀ r0 ∈ (Frame.mk ch.cols
        (ch.rows.filter (fun r1 => getCell r1 "日期" == d))).rows,
        isNumCell (getCell r0 "规模") = true := by
      intro r0 hr0
      exact hchn r0 (List.mem_of_mem_filter hr0)
    split at hr
    · exact setCol_scale_num _ _ _ (by decide) hF r hr
    · exact hF r hr
  · split at hr
    · exact setCol_scale_num _ _ _ (by decide) hchn r hr
    · exact hchn r hr

theorem pcd_no_raise (d : Cell) (ch ov : Frame)
    (hchn : ∀ r ∈ ch.rows, isNumCell (getCell r "规模") = true)
    (hovn : ∀ r ∈ ov.rows, isNumCell (getCell r "规模") = true) :
    ((setCol (channelPrep d ch) "校对产品规模"
        (fun r => product_scale_lookup ov (getCell r "产品代码"))).rows.any
      (fun r => adjustRaises (getCell r "规模") (getCell r "校对产品规模"))) = false := by
  rw [List.any_eq_false]
  intro r hr
  rw [show (setCol (channelPrep d ch) "校对产品规模"
      (fun r0 => product_scale_lookup ov (getCell r0 "产品代码"))).rows
    = (channelPrep d ch).rows.map (fun r0 => setCell r0 "校对产品规模"
        (product_scale_lookup ov (getCell r0 "产品代码"))) from rfl,
    List.mem_map] at hr
  obtain ⟨r0, hr0, rfl⟩ := hr
  have hs : isNumCell (getCell r0 "规模") = true :=
    channelPrep_scale_num d ch hchn r0 hr0
  have hc : isNumCell (product_scale_lookup ov (getCell r0 "产品代码")) = true := by
    unfold product_scale_lookup
    split
    · rename_i r1 hfind
      exact hovn r1 (List.mem_reverse.mp (List.mem_of_find?_eq_some hfind))
    · rfl
  rw [getCell_setCell_of_ne _ _ (show "规模" ≠ "校对产品规模" by decide),
      getCell_setCell_self]
  simp [adjustRaises, hs, hc]

/-! ### Claim C1 -/

/-- C1 counterexample: a channel record reporting scale `5` whose
book-of-record reference is `0` is overridden to the reference `0` —
under numpy float semantics `abs(5 - 0) / 0` is `+inf`, which exceeds
the `0.1` threshold — rather than keeping the reported `5` as the claim
demands for a zero reference. -/
theorem C1_counterexample :
    ((process_channel_data (Cell.str "d") chZeroRef (some ovZeroRef)).rows.map
      (fun r => getCell r "调整后规模")) = [Cell.v (NpV.fin 0)]
  ∧ ((process_channel_data (Cell.str "d") chZeroRef (some ovZeroRef)).rows.map
      (fun r => getCell r "规模")) = [Cell.v (NpV.fin 5)]
  ∧ Cell.v (NpV.fin 0) ≠ Cell.v (NpV.fin 5) := by
  have h5 : adjustScale (Cell.v (NpV.fin 5)) (Cell.v (NpV.fin 0))
      = Cell.v (NpV.fin 0) := by
    norm_num [adjustScale, NpV.isna, NpV.npSub, NpV.npAbs, NpV.npDiv, NpV.npGtB]
  have hrow : (process_channel_data (Cell.str "d") chZeroRef (some ovZeroRef)).rows
      = [[("产品代码", Cell.str "P1"), ("规模", Cell.v (NpV.fin 5)),
          ("校对产品规模", Cell.v (NpV.fin 0)),
          ("调整后规模", adjustScale (Cell.v (NpV.fin 5)) (Cell.v (NpV.fin 0)))]] :=
    rfl
  refine ⟨?_, ?_, by decide⟩
  · rw [hrow, h5]
    decide
  · rw [hrow, h5]
    decide

/-- C1 (amended): when the operation overview carries both `产品代码`
and `规模` and both frames' `规模` cells are numeric — an overview
without `规模` makes the source's dict build raise `KeyError` (the
guard checks `规模` only on the channel frame), and a string scale
paired with a present reference makes the adjustment lambda raise
`TypeError`; either way the handler returns the raw channel frame
without the reconciliation columns, as the last conjunct records for
the missing-`规模` overview: every output record's resolved scale is
`adjustScale` of its reported scale and its book-of-record reference
(the dict-lookup of its code in the overview), and for finite values
the override fires exactly when the reference is non-zero and
`|reported - reference| / reference > 0.1`, **or** when the reference
is zero and the reported scale non-zero (the relative difference is
then `+inf` under IEEE division, so the resolved scale becomes the zero
reference).  No exception is raised on this domain; a record with no
matching reference (`NaN`) keeps its reported scale. -/
theorem C1_channel_reconciliation (d : Cell) (ch ov : Frame)
    (hc1 : ch.cols.contains "产品代码" = true)
    (hc2 : ch.cols.contains "规模" = true)
    (ho : ov.cols.contains "产品代码" = true)
    (hov : ov.cols.contains "规模" = true)
    (hchn : ∀ r ∈ ch.rows, isNumCell (getCell r "规模") = true)
    (hovn : ∀ r ∈ ov.rows, isNumCell (getCell r "规模") = true) :
    (∀ r ∈ (process_channel_data d ch (some ov)).rows,
       getCell r "调整后规模"
         = adjustScale (getCell r "规模") (getCell r "校对产品规模")
     ∧ getCell r "校对产品规模"
         = product_scale_lookup ov (getCell r "产品代码"))
  ∧ (∀ s c : ℚ, adjustScale (Cell.v (NpV.fin s)) (Cell.v (NpV.fin c))
       = if (c ≠ 0 ∧ |s - c| / c > 1 / 10) ∨ (c = 0 ∧ s ≠ 0)
         then Cell.v (NpV.fin c) else Cell.v (NpV.fin s))
  ∧ (∀ sc : Cell, adjustScale sc (Cell.v NpV.nan) = sc)
  ∧ (∀ ov2 : Frame, ov2.cols.contains "产品代码" = true →
       ov2.cols.contains "规模" = false →
       process_channel_data d ch (some ov2) = ch) := by
  have hg1 : (channelPrep d ch).cols.contains "产品代码" = true :=
    channelPrep_contains d ch hc1
  have hg2 : (channelPrep d ch).cols.contains "规模" = true :=
    channelPrep_contains d ch hc2
  refine ⟨?_, ?_, ?_, ?_⟩
  · have hguard : ((channelPrep d ch).cols.contains "产品代码"
        && ov.cols.contains "产品代码"
        && (channelPrep d ch).cols.contains "规模") = true := by
      rw [hg1, ho, hg2]; rfl
    have hnr : ¬ (((setCol (channelPrep d ch) "校对产品规模"
        (fun r => product_scale_lookup ov (getCell r "产品代码"))).rows.any
          (fun r => adjustRaises (getCell r "规模")
            (getCell r "校对产品规模"))) = true) := by
      rw [pcd_no_raise d ch ov hchn hovn]
      simp
    have hcore : process_channel_data_core d ch (some ov)
        = Except.ok (setCol (setCol (channelPrep d ch) "校对产品规模"
            (fun r => product_scale_lookup ov (getCell r "产品代码")))
          "调整后规模" (fun r => adjustScale (getCell r "规模")
            (getCell r "校对产品规模"))) := by
      simp only [process_channel_data_core]
      rw [if_pos hguard, if_pos hov, if_neg hnr]
    intro r hr
    unfold process_channel_data at hr
    rw [hcore] at hr
    exact reconciled_rows_prop ov _ r hr
  · intro s c
    by_cases hc : c = 0
    · subst hc
      by_cases hs : s = 0
      · subst hs
        norm_num [adjustScale, NpV.isna, NpV.npSub, NpV.npAbs, NpV.npDiv, NpV.npGtB]
      · have habs : |s - 0| > 0 := by
          rw [sub_zero]
          exact abs_pos.mpr hs
        simp [adjustScale, NpV.isna, NpV.npSub, NpV.npAbs, NpV.npDiv, NpV.npGtB,
          habs, hs]
    · by_cases hgt : |s - c| / c > 1 / 10
      · simp [adjustScale, NpV.isna, NpV.npSub, NpV.npAbs, NpV.npDiv, NpV.npGtB,
          hc, hgt]
      · simp [adjustScale, NpV.isna, NpV.npSub, NpV.npAbs, NpV.npDiv, NpV.npGtB,
          hc, hgt]
  · intro sc
    cases sc with
    | v x => simp [adjustScale, NpV.isna]
    | str t => rfl
  · intro ov2 ho2 hno2
    have hguard2 : ((channelPrep d ch).cols.contains "产品代码"
        && ov2.cols.contains "产品代码"
        && (channelPrep d ch).cols.contains "规模") = true := by
      rw [hg1, ho2, hg2]; rfl
    have hnocol : ¬ (ov2.cols.contains "规模" = true) := by
      rw [hno2]
      simp
    have hcore2 : process_channel_data_core d ch (some ov2)
        = Except.error "KeyError: 规模" := by
      simp only [process_channel_data_core]
      rw [if_pos hguard2, if_neg hnocol]
    unfold process_channel_data
    rw [hcore2]

/-- C1 witness: `C1_channel_reconciliation` at the concrete zero-reference
frames and their single output record, hypotheses discharged by
computation. -/
theorem C1_channel_reconciliation_witness :
    getCell [("产品代码", Cell.str "P1"), ("规模", Cell.v (NpV.fin 5)),
       ("校对产品规模", Cell.v (NpV.fin 0)),
       ("调整后规模", adjustScale (Cell.v (NpV.fin 5)) (Cell.v (NpV.fin 0)))] "调整后规模"
      = adjustScale (getCell [("产品代码", Cell.str "P1"), ("规模", Cell.v (NpV.fin 5)),
       ("校对产品规模", Cell.v (NpV.fin 0)),
       ("调整后规模", adjustScale (Cell.v (NpV.fin 5)) (Cell.v (NpV.fin 0)))] "规模")
          (getCell [("产品代码", Cell.str "P1"), ("规模", Cell.v (NpV.fin 5)),
       ("校对产品规模", Cell.v (NpV.fin 0)),
       ("调整后规模", adjustScale (Cell.v (NpV.fin 5)) (Cell.v (NpV.fin 0)))] "校对产品规模")
    ∧ getCell [("产品代码", Cell.str "P1"), ("规模", Cell.v (NpV.fin 5)),
       ("校对产品规模", Cell.v (NpV.fin 0)),
       ("调整后规模", adjustScale (Cell.v (NpV.fin 5)) (Cell.v (NpV.fin 0)))] "校对产品规模"
      = product_scale_lookup ovZeroRef
          (getCell [("产品代码", Cell.str "P1"), ("规模", Cell.v (NpV.fin 5)),
       ("校对产品规模", Cell.v (NpV.fin 0)),
       ("调整后规模", adjustScale (Cell.v (NpV.fin 5)) (Cell.v (NpV.fin 0)))] "产品代码") := by
  refine (C1_channel_reconciliation (Cell.str "d") chZeroRef ovZeroRef
    (by decide) (by decide) (by decide) (by decide) (by decide) (by decide)).1 _ ?_
  rw [show (process_channel_data (Cell.str "d") chZeroRef (some ovZeroRef)).rows
    = [[("产品代码", Cell.str "P1"), ("规模", Cell.v (NpV.fin 5)),
       ("校对产品规模", Cell.v (NpV.fin 0)),
       ("调整后规模", adjustScale (Cell.v (NpV.fin 5)) (Cell.v (NpV.fin 0)))]] from rfl]
  exact List.mem_singleton_self _

/-! ### Product-scale pipeline lemmas -/

theorem setCol_cols (df : Frame) (c : String) (f : Row → Cell) :
    (setCol df c f).cols
      = if df.cols.contains c then df.cols else df.cols ++ [c] := rfl

theorem setCol_rows (df : Frame) (c : String) (f : Row → Cell) :
    (setCol df c f).rows = df.rows.map (fun r => setCell r c (f r)) := rfl

theorem selectCols_cols (df : Frame) (cols : List String) :
    (selectCols df cols).cols = cols := rfl

theorem selectCols_rows (df : Frame) (cols : List String) :
    (selectCols df cols).rows = df.rows.map (projRow cols) := rfl

theorem frame_rows_mk (cols : List String) (rows : List Row) :
    (Frame.mk cols rows).rows = rows := rfl

theorem setCol_contains_self (f : Frame) (c : String) (g : Row → Cell) :
    (setCol f c g).cols.contains c = true := by
  rw [setCol_cols]
  by_cases hc : f.cols.contains c
  · rw [if_pos hc]
    exact hc
  · rw [if_neg hc]
    rw [List.elem_iff]
    exact List.mem_append_right _ (List.mem_singleton_self c)

theorem mem_setCol_cols {f : Frame} {c0 : String} {g : Row → Cell} {c : String}
    (h : c ∈ (setCol f c0 g).cols) : c ∈ f.cols ∨ c = c0 := by
  rw [setCol_cols] at h
  by_cases hc : f.cols.contains c0
  · rw [if_pos hc] at h
    exact Or.inl h
  · rw [if_neg hc] at h
    rcases List.mem_append.mp h with h1 | h1
    · exact Or.inl h1
    · exact Or.inr (List.mem_singleton.mp h1)

theorem ensure_columns_cons (f : Frame) (a : String) (t : List String) :
    ensure_columns f (a :: t)
      = ensure_columns (if f.cols.contains a then f
          else setCol f a (fun _ => Cell.v NpV.nan)) t := rfl

theorem ensure_columns_contains_mono (req : List String) :
    ∀ (f : Frame) (c : String), f.cols.contains c = true →
      (ensure_columns f req).cols.contains c = true := by
  induction req with
  | nil => intro f c h; exact h
  | cons a t ih =>
    intro f c h
    rw [ensure_columns_cons]
    by_cases ha : f.cols.contains a
    · rw [if_pos ha]
      exact ih f c h
    · rw [if_neg ha]
      exact ih _ c (setCol_contains f a _ h)

theorem ensure_columns_contains (req : List String) :
    ∀ (f : Frame) (c : String), c ∈ req →
      (ensure_columns f req).cols.contains c = true := by
  induction req with
  | nil => intro f c h; exact absurd h (List.not_mem_nil c)
  | cons a t ih =>
    intro f c h
    rw [ensure_columns_cons]
    rcases List.mem_cons.mp h with rfl | h2
    · by_cases hc : f.cols.contains c
      · rw [if_pos hc]
        exact ensure_columns_contains_mono t f c hc
      · rw [if_neg hc]
        exact ensure_columns_contains_mono t _ c (setCol_contains_self f c _)
    · exact ih _ c h2

theorem ensure_columns_eq_self (req : List String) :
    ∀ (f : Frame), (∀ c ∈ req, f.cols.contains c = true) →
      ensure_columns f req = f := by
  induction req with
  | nil => intro f _; rfl
  | cons a t ih =>
    intro f h
    rw [ensure_columns_cons, if_pos (h a (List.mem_cons_self a t))]
    exact ih f (fun c hc => h c (List.mem_cons_of_mem a hc))

theorem mem_ensure_columns_cols (req : List String) :
    ∀ (f : Frame) (c : String), c ∈ (ensure_columns f req).cols →
      c ∈ f.cols ∨ c ∈ req := by
  induction req with
  | nil => intro f c h; exact Or.inl h
  | cons a t ih =>
    intro f c h
    rw [ensure_columns_cons] at h
    by_cases ha : f.cols.contains a
    · rw [if_pos ha] at h
      rcases ih f c h with h1 | h2
      · exact Or.inl h1
      · exact Or.inr (List.mem_cons_of_mem a h2)
    · rw [if_neg ha] at h
      rcases ih _ c h with h1 | h2
      · rcases mem_setCol_cols h1 with h3 | h3
        · exact Or.inl h3
        · exact Or.inr (by rw [h3]; exact List.mem_cons_self a t)
      · exact Or.inr (List.mem_cons_of_mem a h2)

theorem group_and_sum_ok (df : Frame) (g s : List String) (hne : g ≠ [])
    (h : ∀ c ∈ g ++ s, df.cols.contains c = true) :
    group_and_sum df g s = groupbySum df g s := by
  have hge : g.isEmpty = false := by
    cases g with
    | nil => exact absurd rfl hne
    | cons a t => rfl
  unfold group_and_sum group_and_sum_checked
  rw [List.find?_eq_none.mpr (fun c hc => by rw [h c hc]; simp), hge]
  rfl

theorem rows_match_le_one (rows : List Row) (onc : List String) (r0 : Row)
    (hnd : (rows.map (rowKey onc)).Nodup) :
    (rows.filter
      (fun h => onc.all (fun c => getCell h c == getCell r0 c))).length ≤ 1 := by
  have hconv : ∀ h : Row, (onc.all (fun c => getCell h c == getCell r0 c))
      = (rowKey onc h == rowKey onc r0) := fun h => all_beq_eq_map_beq onc h r0
  rw [List.filter_congr (fun a _ => hconv a)]
  exact filter_key_length_le_one rows (rowKey onc) hnd (rowKey onc r0)

theorem filter_beq_eq_singleton {α : Type} [BEq α] [LawfulBEq α] {l : List α} {a : α}
    (hnd : l.Nodup) (ha : a ∈ l) : l.filter (fun x => x == a) = [a] := by
  induction l with
  | nil => cases ha
  | cons b t ih =>
    rw [List.nodup_cons] at hnd
    by_cases hb : b = a
    · rw [List.filter_cons, if_pos (by simp [hb])]
      have ht : t.filter (fun x => x == a) = [] := List.filter_eq_nil_iff.mpr
        (fun x hx hbx => hnd.1 (by rw [hb, ← eq_of_beq hbx]; exact hx))
      rw [ht, hb]
    · have hat : a ∈ t := by
        rcases List.mem_cons.mp ha with h1 | h1
        · exact absurd h1.symm hb
        · exact h1
      rw [List.filter_cons, if_neg (by simp [hb])]
      exact ih hnd.2 hat

theorem rowKey_renameRow_of_ne {g : List String} {old new : String} (r : Row)
    (h1 : old ∉ g) (h2 : new ∉ g) :
    rowKey g (r.map (fun p => if p.1 = old then (new, p.2) else p)) = rowKey g r := by
  unfold rowKey
  refine List.map_congr_left (fun c hc => ?_)
  exact getCell_renameRow_of_ne r
    (fun he => h1 (by rw [show c = old from he] at hc; exact hc))
    (fun he => h2 (by rw [show c = new from he] at hc; exact hc))

theorem renamed_groupbySum_key_nodup (h : Frame) (histCol : String)
    (hhc : histCol ≠ "产品类型") :
    ((renameCol (groupbySum h ["产品类型"] ["规模"]) "规模" histCol).rows.map
      (rowKey ["产品类型"])).Nodup := by
  show (((groupbySum h ["产品类型"] ["规模"]).rows.map
      (fun r => r.map (fun p => if p.1 = "规模" then (histCol, p.2) else p))).map
        (rowKey ["产品类型"])).Nodup
  rw [List.map_map]
  have hcongr : ∀ r ∈ (groupbySum h ["产品类型"] ["规模"]).rows,
      (rowKey ["产品类型"] ∘ (fun r => r.map
        (fun p => if p.1 = "规模" then (histCol, p.2) else p))) r
      = rowKey ["产品类型"] r := by
    intro r _
    exact rowKey_renameRow_of_ne r (by decide)
      (fun hm => hhc (List.mem_singleton.mp hm))
  rw [List.map_congr_left hcongr,
    groupbySum_rows_rowKey h ["产品类型"] ["规模"] (by decide)]
  exact groupKeys_nodup ["产品类型"] h.rows

theorem renamed_groupbySum_cols (h : Frame) (histCol : String) :
    (renameCol (groupbySum h ["产品类型"] ["规模"]) "规模" histCol).cols
      = ["产品类型", histCol] := by
  show List.map (fun c => if c = "规模" then histCol else c) (["产品类型"] ++ ["规模"])
      = ["产品类型", histCol]
  simp

theorem periodStage_rvals (h : Frame) (histCol : String) (hhc : histCol ≠ "产品类型") :
    (renameCol (groupbySum h ["产品类型"] ["规模"]) "规模" histCol).cols.filter
      (fun c2 => !(["产品类型"].contains c2)) = [histCol] := by
  rw [renamed_groupbySum_cols]
  have hd : decide (histCol = "产品类型") = false := decide_eq_false hhc
  simp [List.filter, hd]

theorem periodStage_hov (pts h : Frame) (histCol : String)
    (hfresh : pts.cols.contains histCol = false) (hhc : histCol ≠ "产品类型") :
    pts.cols.filter (fun c =>
      ((renameCol (groupbySum h ["产品类型"] ["规模"]) "规模" histCol).cols.filter
        (fun c2 => !(["产品类型"].contains c2))).contains c) = [] := by
  rw [periodStage_rvals h histCol hhc, List.filter_eq_nil_iff]
  intro c hc hcontains
  have hceq : c = histCol := by simpa using hcontains
  rw [hceq] at hc
  have habs : pts.cols.contains histCol = true := List.elem_iff.mpr hc
  rw [hfresh] at habs
  exact Bool.false_ne_true habs

theorem scaleBase_cols (cur : Frame) :
    (scaleBase cur).cols = ["产品类型", "规模", "占比"] := rfl

theorem periodStage_cols (pts h : Frame) (histCol changeCol : String)
    (hfresh : pts.cols.contains histCol = false) (hhc : histCol ≠ "产品类型")
    (hch : (pts.cols ++ [histCol]).contains changeCol = false) :
    (periodStage pts h histCol changeCol).cols = pts.cols ++ [histCol, changeCol] := by
  unfold periodStage
  have hm : (mergeOn pts (renameCol (groupbySum h ["产品类型"] ["规模"]) "规模" histCol)
      ["产品类型"]).cols = pts.cols ++ [histCol] := by
    rw [mergeOn_cols (periodStage_hov pts h histCol hfresh hhc),
      periodStage_rvals h histCol hhc]
  rw [setCol_cols, hm, hch]
  simp

theorem periodStageO_cols (pts : Frame) (hf : Option Frame) (histCol changeCol : String)
    (hfresh : pts.cols.contains histCol = false) (hhc : histCol ≠ "产品类型")
    (hch : (pts.cols ++ [histCol]).contains changeCol = false) :
    (periodStageO pts hf histCol changeCol).cols = pts.cols
    ∨ (periodStageO pts hf histCol changeCol).cols = pts.cols ++ [histCol, changeCol] := by
  cases hf with
  | none => exact Or.inl rfl
  | some f => exact Or.inr (periodStage_cols pts f histCol changeCol hfresh hhc hch)

theorem scalePeriodMerge_ok (pts h : Frame) (histCol changeCol : String)
    (hh1 : h.cols.contains "产品类型" = true) (hh2 : h.cols.contains "规模" = true)
    (hp1 : pts.cols.contains "产品类型" = true) (hp2 : pts.cols.contains "规模" = true)
    (hfresh : pts.cols.contains histCol = false) (hhc : histCol ≠ "产品类型") :
    scalePeriodMerge pts (some h) histCol changeCol
      = Except.ok (periodStage pts h histCol changeCol) := by
  have hgs : group_and_sum h ["产品类型"] ["规模"] = groupbySum h ["产品类型"] ["规模"] :=
    group_and_sum_ok h _ _ (by decide) (by
      intro c hc
      rcases List.mem_cons.mp hc with rfl | hc2
      · exact hh1
      · rcases List.mem_cons.mp hc2 with rfl | hc3
        · exact hh2
        · cases hc3)
  have hmcols : (mergeOn pts (renameCol (groupbySum h ["产品类型"] ["规模"]) "规模" histCol)
      ["产品类型"]).cols = pts.cols ++ [histCol] := by
    rw [mergeOn_cols (periodStage_hov pts h histCol hfresh hhc),
      periodStage_rvals h histCol hhc]
  simp only [scalePeriodMerge]
  rw [hgs]
  rw [if_neg ?c1, if_neg ?c2]
  · rfl
  case c1 =>
    rw [renamed_groupbySum_cols]
    simp [List.elem_iff.mp hp1]
  case c2 =>
    have hsc : ("规模" : String) ∈ pts.cols ++ [histCol] :=
      List.mem_append_left _ (List.elem_iff.mp hp2)
    have hhcol : histCol ∈ pts.cols ++ [histCol] :=
      List.mem_append_right _ (List.mem_singleton_self histCol)
    rw [hmcols]
    simp [hsc, hhcol]

theorem scalePeriodMerge_okO (pts : Frame) (hf : Option Frame)
    (histCol changeCol : String)
    (hh : ∀ f, hf = some f →
      f.cols.contains "产品类型" = true ∧ f.cols.contains "规模" = true)
    (hp1 : pts.cols.contains "产品类型" = true) (hp2 : pts.cols.contains "规模" = true)
    (hfresh : pts.cols.contains histCol = false) (hhc : histCol ≠ "产品类型") :
    scalePeriodMerge pts hf histCol changeCol
      = Except.ok (periodStageO pts hf histCol changeCol) := by
  cases hf with
  | none => rfl
  | some f =>
    exact scalePeriodMerge_ok pts f histCol changeCol (hh f rfl).1 (hh f rfl).2
      hp1 hp2 hfresh hhc

theorem deltaRel_of_getCell {r : Row} {sCol hCol cCol : String}
    (h : getCell r cCol
      = safe_divide_cell (cellSub (getCell r sCol) (getCell r hCol))
          (getCell r hCol)) :
    deltaRel r sCol hCol cCol := by
  constructor
  · intro hcase
    rcases hcase with h1 | h1 <;> rw [h, h1] <;>
      simp [safe_divide_cell, cellSub, safe_divide, NpV.isna, Cell.toNp]
  · intro s q hs hq hne
    rw [h, hs, hq]
    simp [safe_divide_cell, cellSub, safe_divide, NpV.isna, Cell.toNp, NpV.npSub,
      NpV.npDiv, NpV.orZero, hne]

theorem deltaRel_congr {r1 r2 : Row} {sCol hCol cCol : String}
    (hs : getCell r1 sCol = getCell r2 sCol)
    (hh : getCell r1 hCol = getCell r2 hCol)
    (hc : getCell r1 cCol = getCell r2 cCol)
    (h : deltaRel r2 sCol hCol cCol) : deltaRel r1 sCol hCol cCol := by
  unfold deltaRel
  rw [hs, hh, hc]
  exact h

theorem mem_periodStage_rows (pts h : Frame) (histCol changeCol : String)
    (hfresh : pts.cols.contains histCol = false) (hhc : histCol ≠ "产品类型")
    (hd1 : "规模" ≠ changeCol) (hd2 : histCol ≠ changeCol) :
    ∀ r ∈ (periodStage pts h histCol changeCol).rows, ∃ r0 ∈ pts.rows,
      (∀ c : String, c ≠ histCol → c ≠ changeCol → getCell r c = getCell r0 c)
      ∧ deltaRel r "规模" histCol changeCol := by
  intro r hr
  have hrows : (periodStage pts h histCol changeCol).rows
      = (mergeOn pts (renameCol (groupbySum h ["产品类型"] ["规模"]) "规模" histCol)
          ["产品类型"]).rows.map (fun rm => setCell rm changeCol
            (safe_divide_cell (cellSub (getCell rm "规模") (getCell rm histCol))
              (getCell rm histCol))) := rfl
  rw [hrows, List.mem_map] at hr
  obtain ⟨rm, hrm, rfl⟩ := hr
  obtain ⟨r0, hr0, vals, rfl⟩ := mem_mergeOn_rows
    (periodStage_hov pts h histCol hfresh hhc) hrm
  rw [periodStage_rvals h histCol hhc]
  refine ⟨r0, hr0, ?_, ?_⟩
  · intro c hc1 hc2
    rw [getCell_setCell_of_ne _ _ hc2]
    exact getCell_append_right_not_mem (by
      intro hmem
      simp only [List.map_cons, List.map_nil, List.mem_singleton] at hmem
      exact hc1 hmem)
  · apply deltaRel_of_getCell
    rw [getCell_setCell_self, getCell_setCell_of_ne _ _ hd1,
      getCell_setCell_of_ne _ _ hd2]

theorem except_bind_ok {E A B : Type} (a : A) (f : A → Except E B) :
    Bind.bind (Except.ok a) f = f a := rfl

theorem except_pure_eq_ok {E A : Type} (a : A) :
    (Pure.pure a : Except E A) = Except.ok a := rfl

theorem scaleTotalRow_ok (t : NpV) (hd : HistData)
    (hw : ∀ f, hd.last_week = some f → f.cols.contains "规模" = true)
    (hm : ∀ f, hd.last_month = some f → f.cols.contains "规模" = true)
    (hy : ∀ f, hd.last_year = some f → f.cols.contains "规模" = true) :
    ∃ row : Row, scaleTotalRow t hd = Except.ok row
      ∧ getCell row "产品类型" = Cell.str "总计"
      ∧ getCell row "规模" = Cell.v t
      ∧ getCell row "占比" = Cell.v (NpV.fin 1)
      ∧ (∀ f, hd.last_week = some f →
          getCell row "上周规模" = Cell.v (colSum f "规模")
          ∧ getCell row "环比变化" = Cell.v (safe_divide (NpV.npSub t (colSum f "规模"))
              (colSum f "规模") (NpV.fin 0)))
      ∧ (∀ f, hd.last_month = some f →
          getCell row "上月规模" = Cell.v (colSum f "规模")
          ∧ getCell row "月度变化" = Cell.v (safe_divide (NpV.npSub t (colSum f "规模"))
              (colSum f "规模") (NpV.fin 0)))
      ∧ (∀ f, hd.last_year = some f →
          getCell row "去年同期规模" = Cell.v (colSum f "规模")
          ∧ getCell row "同比变化" = Cell.v (safe_divide (NpV.npSub t (colSum f "规模"))
              (colSum f "规模") (NpV.fin 0))) := by
  rcases hd with ⟨lw, lm, ly⟩
  rcases lw with _ | w <;> rcases lm with _ | m <;> rcases ly with _ | y
  · refine ⟨[("产品类型", Cell.str "总计"), ("规模", Cell.v t), ("占比", Cell.v (NpV.fin 1))],
      ?_, rfl, rfl, rfl,
      fun f hf => Option.noConfusion hf,
      fun f hf => Option.noConfusion hf,
      fun f hf => Option.noConfusion hf⟩
    simp only [scaleTotalRow, except_pure_eq_ok, except_bind_ok]
    try rfl
  · refine ⟨([("产品类型", Cell.str "总计"), ("规模", Cell.v t), ("占比", Cell.v (NpV.fin 1))]
      ++ [("去年同期规模", Cell.v (colSum y "规模")),
          ("同比变化", Cell.v (safe_divide (NpV.npSub t (colSum y "规模"))
            (colSum y "规模") (NpV.fin 0)))]),
      ?_, rfl, rfl, rfl,
      fun f hf => Option.noConfusion hf,
      fun f hf => Option.noConfusion hf,
      fun f hf => by injection hf with h; subst h; exact ⟨rfl, rfl⟩⟩
    have hcy : ¬((!(y.cols.contains "规模")) = true) := by
      rw [hy y rfl]; simp
    simp only [scaleTotalRow, except_pure_eq_ok, except_bind_ok]
    rw [if_neg hcy]
    try rfl
  · refine ⟨([("产品类型", Cell.str "总计"), ("规模", Cell.v t), ("占比", Cell.v (NpV.fin 1))]
      ++ [("上月规模", Cell.v (colSum m "规模")),
          ("月度变化", Cell.v (safe_divide (NpV.npSub t (colSum m "规模"))
            (colSum m "规模") (NpV.fin 0)))]),
      ?_, rfl, rfl, rfl,
      fun f hf => Option.noConfusion hf,
      fun f hf => by injection hf with h; subst h; exact ⟨rfl, rfl⟩,
      fun f hf => Option.noConfusion hf⟩
    have hcm : ¬((!(m.cols.contains "规模")) = true) := by
      rw [hm m rfl]; simp
    simp only [scaleTotalRow, except_pure_eq_ok, except_bind_ok]
    rw [if_neg hcm]
    try rfl
  · refine ⟨(([("产品类型", Cell.str "总计"), ("规模", Cell.v t), ("占比", Cell.v (NpV.fin 1))]
      ++ [("上月规模", Cell.v (colSum m "规模")),
          ("月度变化", Cell.v (safe_divide (NpV.npSub t (colSum m "规模"))
            (colSum m "规模") (NpV.fin 0)))])
      ++ [("去年同期规模", Cell.v (colSum y "规模")),
          ("同比变化", Cell.v (safe_divide (NpV.npSub t (colSum y "规模"))
            (colSum y "规模") (NpV.fin 0)))]),
      ?_, rfl, rfl, rfl,
      fun f hf => Option.noConfusion hf,
      fun f hf => by injection hf with h; subst h; exact ⟨rfl, rfl⟩,
      fun f hf => by injection hf with h; subst h; exact ⟨rfl, rfl⟩⟩
    have hcm : ¬((!(m.cols.contains "规模")) = true) := by
      rw [hm m rfl]; simp
    have hcy : ¬((!(y.cols.contains "规模")) = true) := by
      rw [hy y rfl]; simp
    simp only [scaleTotalRow, except_pure_eq_ok, except_bind_ok]
    rw [if_neg hcm, if_neg hcy]
    try rfl
  · refine ⟨([("产品类型", Cell.str "总计"), ("规模", Cell.v t), ("占比", Cell.v (NpV.fin 1))]
      ++ [("上周规模", Cell.v (colSum w "规模")),
          ("环比变化", Cell.v (safe_divide (NpV.npSub t (colSum w "规模"))
            (colSum w "规模") (NpV.fin 0)))]),
      ?_, rfl, rfl, rfl,
      fun f hf => by injection hf with h; subst h; exact ⟨rfl, rfl⟩,
      fun f hf => Option.noConfusion hf,
      fun f hf => Option.noConfusion hf⟩
    have hcw : ¬((!(w.cols.contains "规模")) = true) := by
      rw [hw w rfl]; simp
    simp only [scaleTotalRow, except_pure_eq_ok, except_bind_ok]
    rw [if_neg hcw]
    try rfl
  · refine ⟨(([("产品类型", Cell.str "总计"), ("规模", Cell.v t), ("占比", Cell.v (NpV.fin 1))]
      ++ [("上周规模", Cell.v (colSum w "规模")),
          ("环比变化", Cell.v (safe_divide (NpV.npSub t (colSum w "规模"))
            (colSum w "规模") (NpV.fin 0)))])
      ++ [("去年同期规模", Cell.v (colSum y "规模")),
          ("同比变化", Cell.v (safe_divide (NpV.npSub t (colSum y "规模"))
            (colSum y "规模") (NpV.fin 0)))]),
      ?_, rfl, rfl, rfl,
      fun f hf => by injection hf with h; subst h; exact ⟨rfl, rfl⟩,
      fun f hf => Option.noConfusion hf,
      fun f hf => by injection hf with h; subst h; exact ⟨rfl, rfl⟩⟩
    have hcw : ¬((!(w.cols.contains "规模")) = true) := by
      rw [hw w rfl]; simp
    have hcy : ¬((!(y.cols.contains "规模")) = true) := by
      rw [hy y rfl]; simp
    simp only [scaleTotalRow, except_pure_eq_ok, except_bind_ok]
    rw [if_neg hcw, if_neg hcy]
    try rfl
  · refine ⟨(([("产品类型", Cell.str "总计"), ("规模", Cell.v t), ("占比", Cell.v (NpV.fin 1))]
      ++ [("上周规模", Cell.v (colSum w "规模")),
          ("环比变化", Cell.v (safe_divide (NpV.npSub t (colSum w "规模"))
            (colSum w "规模") (NpV.fin 0)))])
      ++ [("上月规模", Cell.v (colSum m "规模")),
          ("月度变化", Cell.v (safe_divide (NpV.npSub t (colSum m "规模"))
            (colSum m "规模") (NpV.fin 0)))]),
      ?_, rfl, rfl, rfl,
      fun f hf => by injection hf with h; subst h; exact ⟨rfl, rfl⟩,
      fun f hf => by injection hf with h; subst h; exact ⟨rfl, rfl⟩,
      fun f hf => Option.noConfusion hf⟩
    have hcw : ¬((!(w.cols.contains "规模")) = true) := by
      rw [hw w rfl]; simp
    have hcm : ¬((!(m.cols.contains "规模")) = true) := by
      rw [hm m rfl]; simp
    simp only [scaleTotalRow, except_pure_eq_ok, except_bind_ok]
    rw [if_neg hcw, if_neg hcm]
    try rfl
  · refine ⟨((([("产品类型", Cell.str "总计"), ("规模", Cell.v t), ("占比", Cell.v (NpV.fin 1))]
      ++ [("上周规模", Cell.v (colSum w "规模")),
          ("环比变化", Cell.v (safe_divide (NpV.npSub t (colSum w "规模"))
            (colSum w "规模") (NpV.fin 0)))])
      ++ [("上月规模", Cell.v (colSum m "规模")),
          ("月度变化", Cell.v (safe_divide (NpV.npSub t (colSum m "规模"))
            (colSum m "规模") (NpV.fin 0)))])
      ++ [("去年同期规模", Cell.v (colSum y "规模")),
          ("同比变化", Cell.v (safe_divide (NpV.npSub t (colSum y "规模"))
            (colSum y "规模") (NpV.fin 0)))]),
      ?_, rfl, rfl, rfl,
      fun f hf => by injection hf with h; subst h; exact ⟨rfl, rfl⟩,
      fun f hf => by injection hf with h; subst h; exact ⟨rfl, rfl⟩,
      fun f hf => by injection hf with h; subst h; exact ⟨rfl, rfl⟩⟩
    have hcw : ¬((!(w.cols.contains "规模")) = true) := by
      rw [hw w rfl]; simp
    have hcm : ¬((!(m.cols.contains "规模")) = true) := by
      rw [hm m rfl]; simp
    have hcy : ¬((!(y.cols.contains "规模")) = true) := by
      rw [hy y rfl]; simp
    simp only [scaleTotalRow, except_pure_eq_ok, except_bind_ok]
    rw [if_neg hcw, if_neg hcm, if_neg hcy]
    try rfl

theorem calculate_product_scale_core_ok (cur : Frame) (hd : HistData)
    (hw : ∀ f, hd.last_week = some f →
      f.cols.contains "产品类型" = true ∧ f.cols.contains "规模" = true)
    (hm : ∀ f, hd.last_month = some f →
      f.cols.contains "产品类型" = true ∧ f.cols.contains "规模" = true)
    (hy : ∀ f, hd.last_year = some f →
      f.cols.contains "产品类型" = true ∧ f.cols.contains "规模" = true) :
    ∃ row : Row, scaleTotalRow (scale_total cur) hd = Except.ok row
      ∧ calculate_product_scale_core cur hd
          = Except.ok (concatRow (scaleStages cur hd) row) := by
  obtain ⟨row, heq, -⟩ := scaleTotalRow_ok (scale_total cur) hd
    (fun f hf => (hw f hf).2) (fun f hf => (hm f hf).2) (fun f hf => (hy f hf).2)
  refine ⟨row, heq, ?_⟩
  have hcolsW := periodStageO_cols (scaleBase cur) hd.last_week "上周规模" "环比变化"
    rfl (by decide) rfl
  have hp1 : (periodStageO (scaleBase cur) hd.last_week "上周规模" "环比变化").cols.contains
      "产品类型" = true := by
    rcases hcolsW with hE | hE <;> rw [hE, scaleBase_cols] <;> decide
  have hp2 : (periodStageO (scaleBase cur) hd.last_week "上周规模" "环比变化").cols.contains
      "规模" = true := by
    rcases hcolsW with hE | hE <;> rw [hE, scaleBase_cols] <;> decide
  have hp3 : (periodStageO (scaleBase cur) hd.last_week "上周规模" "环比变化").cols.contains
      "上月规模" = false := by
    rcases hcolsW with hE | hE <;> rw [hE, scaleBase_cols] <;> decide
  have hcolsM := periodStageO_cols
    (periodStageO (scaleBase cur) hd.last_week "上周规模" "环比变化")
    hd.last_month "上月规模" "月度变化" hp3 (by decide)
    (by rcases hcolsW with hE | hE <;> rw [hE, scaleBase_cols] <;> decide)
  have hq1 : (periodStageO (periodStageO (scaleBase cur) hd.last_week "上周规模" "环比变化")
      hd.last_month "上月规模" "月度变化").cols.contains "产品类型" = true := by
    rcases hcolsM with hE | hE <;> rw [hE] <;>
      (rcases hcolsW with hF | hF <;> rw [hF, scaleBase_cols] <;> decide)
  have hq2 : (periodStageO (periodStageO (scaleBase cur) hd.last_week "上周规模" "环比变化")
      hd.last_month "上月规模" "月度变化").cols.contains "规模" = true := by
    rcases hcolsM with hE | hE <;> rw [hE] <;>
      (rcases hcolsW with hF | hF <;> rw [hF, scaleBase_cols] <;> decide)
  have hq3 : (periodStageO (periodStageO (scaleBase cur) hd.last_week "上周规模" "环比变化")
      hd.last_month "上月规模" "月度变化").cols.contains "去年同期规模" = false := by
    rcases hcolsM with hE | hE <;> rw [hE] <;>
      (rcases hcolsW with hF | hF <;> rw [hF, scaleBase_cols] <;> decide)
  have hfold2 : setCol (groupbySum
      (ensure_columns cur ["产品代码", "产品名称", "产品类型", "规模"]) ["产品类型"] ["规模"])
      "占比" (fun r => Cell.v (NpV.npDiv (getCell r "规模").toNp (scale_total cur)))
      = scaleBase cur := rfl
  simp only [calculate_product_scale_core]
  rw [group_and_sum_ok (ensure_columns cur ["产品代码", "产品名称", "产品类型", "规模"])
    ["产品类型"] ["规模"] (by decide) ?hgs]
  case hgs =>
    intro c hc
    apply ensure_columns_contains
    rcases List.mem_cons.mp hc with rfl | hc2
    · decide
    · rcases List.mem_cons.mp hc2 with rfl | hc3
      · decide
      · cases hc3
  rw [show colSum (ensure_columns cur ["产品代码", "产品名称", "产品类型", "规模"]) "规模"
      = scale_total cur from rfl]
  rw [hfold2]
  rw [scalePeriodMerge_okO (scaleBase cur) hd.last_week "上周规模" "环比变化" hw
    rfl rfl rfl (by decide)]
  simp only [except_bind_ok]
  rw [scalePeriodMerge_okO (periodStageO (scaleBase cur) hd.last_week "上周规模" "环比变化")
    hd.last_month "上月规模" "月度变化" hm hp1 hp2 hp3 (by decide)]
  simp only [except_bind_ok]
  rw [scalePeriodMerge_okO
    (periodStageO (periodStageO (scaleBase cur) hd.last_week "上周规模" "环比变化")
      hd.last_month "上月规模" "月度变化")
    hd.last_year "去年同期规模" "同比变化" hy hq1 hq2 hq3 (by decide)]
  simp only [except_bind_ok]
  rw [heq]
  simp only [except_bind_ok]
  rfl

theorem mem_periodStageO_rows (pts : Frame) (hf : Option Frame)
    (histCol changeCol : String)
    (hfresh : pts.cols.contains histCol = false) (hhc : histCol ≠ "产品类型")
    (hd1 : "规模" ≠ changeCol) (hd2 : histCol ≠ changeCol) :
    ∀ r ∈ (periodStageO pts hf histCol changeCol).rows, ∃ r0 ∈ pts.rows,
      (∀ c : String, c ≠ histCol → c ≠ changeCol → getCell r c = getCell r0 c)
      ∧ (hf ≠ none → deltaRel r "规模" histCol changeCol) := by
  intro r hr
  cases hf with
  | none => exact ⟨r, hr, fun c _ _ => rfl, fun hne => absurd rfl hne⟩
  | some f =>
    obtain ⟨r0, hr0, hpres, hdel⟩ := mem_periodStage_rows pts f histCol changeCol
      hfresh hhc hd1 hd2 r hr
    exact ⟨r0, hr0, hpres, fun _ => hdel⟩

theorem contains_eq_false_of_not_mem {l : List String} {c : String} (h : c ∉ l) :
    l.contains c = false := by
  rcases hb : l.contains c with _ | _
  · rfl
  · exact absurd (List.elem_iff.mp hb) h

theorem not_mem_of_contains_false {l : List String} {c : String}
    (h : l.contains c = false) : c ∉ l := by
  intro hm
  have h2 : l.contains c = true := List.elem_iff.mpr hm
  rw [h] at h2
  exact Bool.false_ne_true h2

theorem hov_of_rvals_not_mem {l rt : Frame} {onc : List String} (names : List String)
    (hrv : rt.cols.filter (fun c2 => !(onc.contains c2)) = names)
    (hfr : ∀ c ∈ names, c ∉ l.cols) :
    l.cols.filter (fun c =>
      (rt.cols.filter (fun c2 => !(onc.contains c2))).contains c) = [] := by
  rw [hrv, List.filter_eq_nil_iff]
  intro c hc hcont
  exact hfr c (List.elem_iff.mp hcont) hc

set_option maxHeartbeats 1600000 in
theorem details_core_ok (cur h : Frame) (hd : HistData) (hwk : hd.last_week = some h)
    (h1 : h.cols.contains "产品代码" = true) (h2 : h.cols.contains "规模" = true)
    (h3 : h.cols.contains "净值" = true) :
    calculate_product_scale_details_core cur (some hd)
      = Except.ok (details_good cur h) := by
  have hguard : ¬((["产品代码", "规模", "净值"].any
      (fun c => !(h.cols.contains c))) = true) := by
    simp [List.elem_iff.mp h1, List.elem_iff.mp h2, List.elem_iff.mp h3]
  simp only [calculate_product_scale_details_core, except_pure_eq_ok, except_bind_ok, hwk]
  rw [if_neg hguard, if_pos (by trivial), selectCols_cols, selectCols_rows]
  unfold details_good details_out details_m2 details_df3 details_df1 details_ts
    details_sel details_total_scale
  rfl

set_option maxHeartbeats 1600000 in
theorem details_core_none_ok (cur : Frame) :
    calculate_product_scale_details_core cur none
      = Except.ok (details_good_none cur) := by
  simp only [calculate_product_scale_details_core, except_pure_eq_ok, except_bind_ok]
  rw [if_neg (by decide), List.append_nil, selectCols_cols, selectCols_rows]
  unfold details_good_none details_out details_df3 details_df1 details_ts
    details_total_scale
  rfl

set_option maxHeartbeats 1600000 in
theorem details_m2_delta (cur h : Frame) :
    ∀ rm ∈ (details_m2 cur h).rows,
      (getCell rm "周规模变化" = safe_divide_cell
        (cellSub (getCell rm "规模") (getCell rm "上周规模")) (getCell rm "上周规模"))
      ∧ (getCell rm "周净值变化" = safe_divide_cell
        (cellSub (getCell rm "净值") (getCell rm "上周净值")) (getCell rm "上周净值")) := by
  intro rm hrm
  unfold details_m2 at hrm
  rw [setCol_rows, List.mem_map] at hrm
  obtain ⟨ra, hra, rfl⟩ := hrm
  rw [setCol_rows, List.mem_map] at hra
  obtain ⟨rb, hrb, rfl⟩ := hra
  constructor
  · rw [getCell_setCell_of_ne _ _ (by decide : "周规模变化" ≠ "周净值变化"),
      getCell_setCell_self,
      getCell_setCell_of_ne _ _ (by decide : "规模" ≠ "周净值变化"),
      getCell_setCell_of_ne _ _ (by decide : "规模" ≠ "周规模变化"),
      getCell_setCell_of_ne _ _ (by decide : "上周规模" ≠ "周净值变化"),
      getCell_setCell_of_ne _ _ (by decide : "上周规模" ≠ "周规模变化")]
  · rw [getCell_setCell_self,
      getCell_setCell_of_ne _ _ (by decide : "净值" ≠ "周净值变化"),
      getCell_setCell_of_ne _ _ (by decide : "净值" ≠ "周规模变化"),
      getCell_setCell_of_ne _ _ (by decide : "上周净值" ≠ "周净值变化"),
      getCell_setCell_of_ne _ _ (by decide : "上周净值" ≠ "周规模变化")]

set_option maxHeartbeats 1600000 in
theorem details_good_delta (cur h : Frame) :
    ∀ r ∈ (details_good cur h).rows,
      deltaRel r "规模" "上周规模" "周规模变化"
      ∧ deltaRel r "净值" "上周净值" "周净值变化" := by
  intro r hr
  unfold details_good at hr
  rw [frame_rows_mk, List.mem_insertionSort, List.mem_map] at hr
  obtain ⟨rm, hrm, rfl⟩ := hr
  obtain ⟨e1, e2⟩ := details_m2_delta cur h rm hrm
  constructor
  · refine deltaRel_of_getCell ?_
    rw [getCell_projRow_of_mem _ (by decide), getCell_projRow_of_mem _ (by decide),
      getCell_projRow_of_mem _ (by decide)]
    exact e1
  · refine deltaRel_of_getCell ?_
    rw [getCell_projRow_of_mem _ (by decide), getCell_projRow_of_mem _ (by decide),
      getCell_projRow_of_mem _ (by decide)]
    exact e2

theorem scaleStage1_cols_cases (cur : Frame) (hd : HistData) :
    (periodStageO (scaleBase cur) hd.last_week "上周规模" "环比变化").cols
      = ["产品类型", "规模", "占比"]
    ∨ (periodStageO (scaleBase cur) hd.last_week "上周规模" "环比变化").cols
      = ["产品类型", "规模", "占比", "上周规模", "环比变化"] := by
  rcases periodStageO_cols (scaleBase cur) hd.last_week "上周规模" "环比变化"
      rfl (by decide) rfl with hE | hE
  · left
    rw [hE, scaleBase_cols]
  · right
    rw [hE, scaleBase_cols]
    rfl

theorem scaleStage1_contains (cur : Frame) (hd : HistData) :
    (periodStageO (scaleBase cur) hd.last_week "上周规模" "环比变化").cols.contains
      "上月规模" = false := by
  rcases scaleStage1_cols_cases cur hd with hE | hE <;> rw [hE] <;> decide

theorem scaleStage2_cols_cases (cur : Frame) (hd : HistData) :
    (periodStageO (periodStageO (scaleBase cur) hd.last_week "上周规模" "环比变化")
      hd.last_month "上月规模" "月度变化").cols = ["产品类型", "规模", "占比"]
    ∨ (periodStageO (periodStageO (scaleBase cur) hd.last_week "上周规模" "环比变化")
      hd.last_month "上月规模" "月度变化").cols
        = ["产品类型", "规模", "占比", "上月规模", "月度变化"]
    ∨ (periodStageO (periodStageO (scaleBase cur) hd.last_week "上周规模" "环比变化")
      hd.last_month "上月规模" "月度变化").cols
        = ["产品类型", "规模", "占比", "上周规模", "环比变化"]
    ∨ (periodStageO (periodStageO (scaleBase cur) hd.last_week "上周规模" "环比变化")
      hd.last_month "上月规模" "月度变化").cols
        = ["产品类型", "规模", "占比", "上周规模", "环比变化", "上月规模", "月度变化"] := by
  have h1 := scaleStage1_cols_cases cur hd
  have hch : ((periodStageO (scaleBase cur) hd.last_week "上周规模" "环比变化").cols
      ++ ["上月规模"]).contains "月度变化" = false := by
    rcases h1 with hE | hE <;> rw [hE] <;> decide
  rcases periodStageO_cols (periodStageO (scaleBase cur) hd.last_week "上周规模" "环比变化")
      hd.last_month "上月规模" "月度变化" (scaleStage1_contains cur hd) (by decide) hch
    with hE | hE <;> rcases h1 with hF | hF
  · left
    rw [hE, hF]
  · right; right; left
    rw [hE, hF]
  · right; left
    rw [hE, hF]
    rfl
  · right; right; right
    rw [hE, hF]
    rfl

theorem scaleStage2_contains (cur : Frame) (hd : HistData) :
    (periodStageO (periodStageO (scaleBase cur) hd.last_week "上周规模" "环比变化")
      hd.last_month "上月规模" "月度变化").cols.contains "去年同期规模" = false := by
  rcases scaleStage2_cols_cases cur hd with hE | hE | hE | hE <;> rw [hE] <;> decide

/-! ### Claim C2 -/

/-- C2 counterexample: the current snapshot has the single category `A`
(scale `100`), the last-week snapshot only the category `B` (scale `50`),
so category `A` is unmatched in the left join and its historical scale
cell is missing — yet its `环比变化` delta is `0`, not null (the
`safe_divide` default), contradicting the claimed null; the total row's
delta is `(100-50)/50 = 1`. -/
theorem C2_counterexample :
    ((calculate_product_scale_table curOneCat ⟨some lwOtherCat, none, none⟩).rows.map
      (fun r => getCell r "产品类型")) = [Cell.str "A", Cell.str "总计"]
  ∧ ((calculate_product_scale_table curOneCat ⟨some lwOtherCat, none, none⟩).rows.map
      (fun r => getCell r "上周规模")) = [Cell.v NpV.nan, Cell.v (NpV.fin 50)]
  ∧ ((calculate_product_scale_table curOneCat ⟨some lwOtherCat, none, none⟩).rows.map
      (fun r => getCell r "环比变化")) = [Cell.v (NpV.fin 0), Cell.v (NpV.fin 1)]
  ∧ Cell.v (NpV.fin 0) ≠ Cell.v NpV.nan := by
  have hW : colSum lwOtherCat "规模" = NpV.fin 50 := by
    rw [show colSum lwOtherCat "规模" = NpV.fin (50 + 0) from rfl]
    norm_num
  have hT : scale_total curOneCat = NpV.fin 100 := by
    rw [show scale_total curOneCat = NpV.fin (100 + 0) from rfl]
    norm_num
  refine ⟨rfl, ?_, ?_, by decide⟩
  · rw [show (calculate_product_scale_table curOneCat ⟨some lwOtherCat, none, none⟩).rows.map
        (fun r => getCell r "上周规模")
      = [Cell.v NpV.nan, Cell.v (colSum lwOtherCat "规模")] from rfl, hW]
  · rw [show (calculate_product_scale_table curOneCat ⟨some lwOtherCat, none, none⟩).rows.map
        (fun r => getCell r "环比变化")
      = [Cell.v (NpV.fin 0),
         Cell.v (safe_divide (NpV.npSub (scale_total curOneCat) (colSum lwOtherCat "规模"))
           (colSum lwOtherCat "规模") (NpV.fin 0))] from rfl, hW, hT]
    norm_num [safe_divide, NpV.isna, NpV.npSub, NpV.npDiv, NpV.orZero]

/-- C2 (amended): every per-period delta column of both reports follows
`safe_divide` semantics with default `0`, not `percentage_change`
semantics with null — for every row (category rows and the total row of
the category report; every instrument row of the detail report), the
delta is the exact relative change `(current - historical) / historical`
when the historical value is finite and non-zero, but `0` — not null —
when the historical value is missing (unmatched) or zero.  Hypotheses:
each supplied period snapshot carries the category and scale columns,
the detail snapshot carries the key/scale/net-value columns, and the
current detail frame does not already use the merge-generated column
names (pandas would otherwise suffix them and the source would fail into
its empty-frame handler). -/
theorem C2_delta_columns (cur : Frame) (hd : HistData) (cur2 lwd : Frame) (hd2 : HistData)
    (hw : ∀ f, hd.last_week = some f →
      f.cols.contains "产品类型" = true ∧ f.cols.contains "规模" = true)
    (hm : ∀ f, hd.last_month = some f →
      f.cols.contains "产品类型" = true ∧ f.cols.contains "规模" = true)
    (hy : ∀ f, hd.last_year = some f →
      f.cols.contains "产品类型" = true ∧ f.cols.contains "规模" = true)
    (h2w : hd2.last_week = some lwd)
    (h2a : lwd.cols.contains "产品代码" = true)
    (h2b : lwd.cols.contains "规模" = true)
    (h2c : lwd.cols.contains "净值" = true)
    (h2f1 : cur2.cols.contains "类型总规模" = false)
    (h2f2 : cur2.cols.contains "上周规模" = false)
    (h2f3 : cur2.cols.contains "上周净值" = false) :
    (∀ r ∈ (calculate_product_scale_table cur hd).rows,
        (hd.last_week ≠ none → deltaRel r "规模" "上周规模" "环比变化")
      ∧ (hd.last_month ≠ none → deltaRel r "规模" "上月规模" "月度变化")
      ∧ (hd.last_year ≠ none → deltaRel r "规模" "去年同期规模" "同比变化"))
  ∧ (∀ r ∈ (calculate_product_scale_details_table cur2 (some hd2)).rows,
        deltaRel r "规模" "上周规模" "周规模变化"
      ∧ deltaRel r "净值" "上周净值" "周净值变化") := by
  constructor
  · obtain ⟨row, hrowEq, hcoreEq⟩ := calculate_product_scale_core_ok cur hd hw hm hy
    obtain ⟨row2, hrowEq2, hcat, hsc, hshare, hWk, hMo, hYr⟩ :=
      scaleTotalRow_ok (scale_total cur) hd
        (fun f hf => (hw f hf).2) (fun f hf => (hm f hf).2) (fun f hf => (hy f hf).2)
    rw [hrowEq] at hrowEq2
    have hrr : row2 = row := ((Except.ok.injEq _ _).mp hrowEq2).symm
    subst hrr
    intro r hr
    have htable : calculate_product_scale_table cur hd
        = concatRow (scaleStages cur hd) row2 := by
      unfold calculate_product_scale_table
      rw [hcoreEq]
    rw [htable] at hr
    have hr2 : r ∈ (scaleStages cur hd).rows ++ [row2] := hr
    rcases List.mem_append.mp hr2 with hrs | hrt
    · obtain ⟨r2, hr2m, hpres3, hdel3⟩ := mem_periodStageO_rows
        (periodStageO (periodStageO (scaleBase cur) hd.last_week "上周规模" "环比变化")
          hd.last_month "上月规模" "月度变化")
        hd.last_year "去年同期规模" "同比变化"
        (scaleStage2_contains cur hd) (by decide) (by decide) (by decide) r hrs
      obtain ⟨r1, hr1m, hpres2, hdel2⟩ := mem_periodStageO_rows
        (periodStageO (scaleBase cur) hd.last_week "上周规模" "环比变化")
        hd.last_month "上月规模" "月度变化"
        (scaleStage1_contains cur hd) (by decide) (by decide) (by decide) r2 hr2m
      obtain ⟨r0, hr0m, hpres1, hdel1⟩ := mem_periodStageO_rows
        (scaleBase cur) hd.last_week "上周规模" "环比变化"
        rfl (by decide) (by decide) (by decide) r1 hr1m
      refine ⟨?_, ?_, ?_⟩
      · intro hne
        have hmid : deltaRel r2 "规模" "上周规模" "环比变化" := deltaRel_congr
          (hpres2 "规模" (by decide) (by decide))
          (hpres2 "上周规模" (by decide) (by decide))
          (hpres2 "环比变化" (by decide) (by decide)) (hdel1 hne)
        exact deltaRel_congr
          (hpres3 "规模" (by decide) (by decide))
          (hpres3 "上周规模" (by decide) (by decide))
          (hpres3 "环比变化" (by decide) (by decide)) hmid
      · intro hne
        refine deltaRel_congr ?_ ?_ ?_ (hdel2 hne)
        · exact hpres3 "规模" (by decide) (by decide)
        · exact hpres3 "上月规模" (by decide) (by decide)
        · exact hpres3 "月度变化" (by decide) (by decide)
      · intro hne
        exact hdel3 hne
    · have hreq : r = row2 := List.mem_singleton.mp hrt
      subst hreq
      refine ⟨?_, ?_, ?_⟩
      · intro hne
        rcases hlw : hd.last_week with _ | f
        · exact absurd hlw hne
        · exact deltaRel_of_getCell (by rw [(hWk f hlw).2, hsc, (hWk f hlw).1]; rfl)
      · intro hne
        rcases hlm : hd.last_month with _ | f
        · exact absurd hlm hne
        · exact deltaRel_of_getCell (by rw [(hMo f hlm).2, hsc, (hMo f hlm).1]; rfl)
      · intro hne
        rcases hly : hd.last_year with _ | f
        · exact absurd hly hne
        · exact deltaRel_of_getCell (by rw [(hYr f hly).2, hsc, (hYr f hly).1]; rfl)
  · intro r hr
    have htable : calculate_product_scale_details_table cur2 (some hd2)
        = details_good cur2 lwd := by
      unfold calculate_product_scale_details_table
      rw [details_core_ok cur2 lwd hd2 h2w h2a h2b h2c]
    rw [htable] at hr
    exact details_good_delta cur2 lwd r hr

/-- C2 witness: `C2_delta_columns` at the concrete frames of the
counterexample scenario and the concrete unmatched category row,
hypotheses discharged by computation. -/
theorem C2_delta_columns_witness :
    deltaRel [("产品类型", Cell.str "A"), ("规模", Cell.v (NpV.fin (100 + 0))),
       ("占比", Cell.v (NpV.npDiv (NpV.fin (100 + 0)) (NpV.fin (100 + 0)))),
       ("上周规模", Cell.v NpV.nan), ("环比变化", Cell.v (NpV.fin 0))] "规模" "上周规模" "环比变化" := by
  refine ((C2_delta_columns curOneCat ⟨some lwOtherCat, none, none⟩ curZeroScale
    curZeroScale ⟨some curZeroScale, none, none⟩
    (fun f hf => by injection hf with h2; subst h2; exact ⟨by decide, by decide⟩)
    (fun f hf => Option.noConfusion hf)
    (fun f hf => Option.noConfusion hf)
    rfl (by decide) (by decide) (by decide) (by decide) (by decide) (by decide)).1
    _ ?_).1 (by decide)
  rw [show (calculate_product_scale_table curOneCat
      ⟨some lwOtherCat, none, none⟩).rows
    = [[("产品类型", Cell.str "A"), ("规模", Cell.v (NpV.fin (100 + 0))),
       ("占比", Cell.v (NpV.npDiv (NpV.fin (100 + 0)) (NpV.fin (100 + 0)))),
       ("上周规模", Cell.v NpV.nan), ("环比变化", Cell.v (NpV.fin 0))],
       [("产品类型", Cell.str "总计"), ("规模", Cell.v (NpV.fin (100 + 0))),
       ("占比", Cell.v (NpV.fin 1)), ("上周规模", Cell.v (NpV.fin (50 + 0))),
       ("环比变化", Cell.v (safe_divide (NpV.npSub (NpV.fin (100 + 0))
         (NpV.fin (50 + 0))) (NpV.fin (50 + 0)) (NpV.fin 0)))]] from rfl]
  exact List.mem_cons_self _ _

theorem groupbySum_rows (df : Frame) (g s : List String) :
    (groupbySum df g s).rows
      = (groupKeys g df.rows).map (groupRow g s df.rows) := rfl

theorem rowKey_setCell_not_mem {g : List String} {c : String} (r : Row) (x : Cell)
    (h : c ∉ g) : rowKey g (setCell r c x) = rowKey g r :=
  List.map_congr_left (fun d hd =>
    getCell_setCell_of_ne r x (fun he => h (by rw [show d = c from he] at hd; exact hd)))

theorem fiber_sum_map (rows : List Row) (F : Row → Row) (k : List Cell) (c : String)
    (g : List String)
    (hkey : ∀ r ∈ rows, rowKey g (F r) = rowKey g r)
    (hval : ∀ r ∈ rows, getCell (F r) c = getCell r c) :
    ((rows.map F).filter (fun r => rowKey g r == k)).map
        (fun r => (getCell r c).toNp)
      = (rows.filter (fun r => rowKey g r == k)).map
        (fun r => (getCell r c).toNp) := by
  rw [List.filter_map]
  have hpred : ∀ r ∈ rows, ((fun r => rowKey g r == k) ∘ F) r = (rowKey g r == k) := by
    intro r hr
    show (rowKey g (F r) == k) = _
    rw [hkey r hr]
  rw [List.filter_congr hpred, List.map_map]
  refine List.map_congr_left (fun r hr => ?_)
  show (getCell (F r) c).toNp = _
  rw [hval r (List.mem_of_mem_filter hr)]

theorem mem_map_fst_setCell {r : Row} {c d : String} {x : Cell}
    (h : d ∈ ((setCell r c x).map Prod.fst)) : d ∈ r.map Prod.fst ∨ d = c := by
  unfold setCell at h
  by_cases hany : r.any (fun p => p.1 = c)
  · rw [if_pos hany, List.map_map, List.mem_map] at h
    obtain ⟨p, hp, hfst⟩ := h
    simp only [Function.comp] at hfst
    by_cases hpc : p.1 = c
    · rw [if_pos hpc] at hfst
      exact Or.inr hfst.symm
    · rw [if_neg hpc] at hfst
      exact Or.inl (by rw [← hfst]; exact List.mem_map_of_mem Prod.fst hp)
  · rw [if_neg hany, List.map_append, List.mem_append] at h
    rcases h with h1 | h1
    · exact Or.inl h1
    · right
      simpa using h1

theorem ensure_columns_rows_names (req : List String) :
    ∀ (f : Frame) (r : Row), r ∈ (ensure_columns f req).rows →
      ∃ r0 ∈ f.rows, ∀ d : String, d ∈ r.map Prod.fst →
        d ∈ r0.map Prod.fst ∨ d ∈ req := by
  induction req with
  | nil => intro f r hr; exact ⟨r, hr, fun d hd => Or.inl hd⟩
  | cons a t ih =>
    intro f r hr
    rw [ensure_columns_cons] at hr
    by_cases ha : f.cols.contains a
    · rw [if_pos ha] at hr
      obtain ⟨r0, hr0, hsub⟩ := ih f r hr
      exact ⟨r0, hr0, fun d hd => (hsub d hd).imp id (List.mem_cons_of_mem a)⟩
    · rw [if_neg ha] at hr
      obtain ⟨r1, hr1, hsub⟩ := ih _ r hr
      rw [setCol_rows, List.mem_map] at hr1
      obtain ⟨r0, hr0, rfl⟩ := hr1
      refine ⟨r0, hr0, fun d hd => ?_⟩
      rcases hsub d hd with h1 | h1
      · rcases mem_map_fst_setCell h1 with h2 | h2
        · exact Or.inl h2
        · exact Or.inr (by rw [h2]; exact List.mem_cons_self a t)
      · exact Or.inr (List.mem_cons_of_mem a h1)

theorem groupbySum_filter_eq (df : Frame) (g s : List String) (hg : g.Nodup)
    (r0 : Row) (hk : rowKey g r0 ∈ groupKeys g df.rows) :
    (groupbySum df g s).rows.filter
      (fun h => g.all (fun c => getCell h c == getCell r0 c))
      = [groupRow g s df.rows (rowKey g r0)] := by
  have hconv : ∀ h : Row, (g.all (fun c => getCell h c == getCell r0 c))
      = (rowKey g h == rowKey g r0) := fun h => all_beq_eq_map_beq g h r0
  rw [List.filter_congr (fun a _ => hconv a), groupbySum_rows, List.filter_map]
  have hpred : ∀ k ∈ groupKeys g df.rows,
      ((fun h => rowKey g h == rowKey g r0) ∘ groupRow g s df.rows) k
        = (k == rowKey g r0) := by
    intro k hkk
    show (rowKey g (groupRow g s df.rows k) == rowKey g r0) = _
    rw [rowKey_groupRow g s df.rows k hg (groupKeys_length hkk)]
  rw [List.filter_congr hpred,
    filter_beq_eq_singleton (groupKeys_nodup g df.rows) hk, List.map_cons, List.map_nil]

theorem renamed_groupbySum_filter (df : Frame) (histCol : String)
    (hhc : histCol ≠ "产品类型") (r0 : Row)
    (hk : rowKey ["产品类型"] r0 ∈ groupKeys ["产品类型"] df.rows) :
    (renameCol (groupbySum df ["产品类型"] ["规模"]) "规模" histCol).rows.filter
      (fun h => ["产品类型"].all (fun c => getCell h c == getCell r0 c))
      = [(groupRow ["产品类型"] ["规模"] df.rows (rowKey ["产品类型"] r0)).map
          (fun p => if p.1 = "规模" then (histCol, p.2) else p)] := by
  show ((groupbySum df ["产品类型"] ["规模"]).rows.map
      (fun r => r.map (fun p => if p.1 = "规模" then (histCol, p.2) else p))).filter _ = _
  rw [List.filter_map]
  have hpred : ∀ rr ∈ (groupbySum df ["产品类型"] ["规模"]).rows,
      ((fun h => ["产品类型"].all (fun c => getCell h c == getCell r0 c))
        ∘ (fun r => r.map (fun p => if p.1 = "规模" then (histCol, p.2) else p))) rr
      = (["产品类型"].all (fun c => getCell rr c == getCell r0 c)) := by
    intro rr _
    show (["产品类型"].all (fun c =>
        getCell (rr.map fun p => if p.1 = "规模" then (histCol, p.2) else p) c
          == getCell r0 c)) = _
    simp only [List.all_cons, List.all_nil]
    rw [getCell_renameRow_of_ne rr (by decide) (fun he => hhc he.symm)]
  rw [List.filter_congr hpred,
    groupbySum_filter_eq df ["产品类型"] ["规模"] (by decide) r0 hk,
    List.map_cons, List.map_nil]

theorem mergeExt_renamed_groupbySum (df : Frame) (histCol : String)
    (hhc : histCol ≠ "产品类型") (r0 : Row)
    (hk : rowKey ["产品类型"] r0 ∈ groupKeys ["产品类型"] df.rows) :
    mergeExt (renameCol (groupbySum df ["产品类型"] ["规模"]) "规模" histCol)
        ["产品类型"] r0
      = [(histCol, Cell.v (seriesSum ((df.rows.filter
          (fun r => rowKey ["产品类型"] r == rowKey ["产品类型"] r0)).map
            (fun r => (getCell r "规模").toNp))))] := by
  have hne : ("产品类型" : String) ≠ histCol := fun he => hhc he.symm
  have hren : (groupRow ["产品类型"] ["规模"] df.rows (rowKey ["产品类型"] r0)).map
      (fun p => if p.1 = "规模" then (histCol, p.2) else p)
      = [("产品类型", getCell r0 "产品类型"),
         (histCol, Cell.v (seriesSum ((df.rows.filter
          (fun r => rowKey ["产品类型"] r == rowKey ["产品类型"] r0)).map
            (fun r => (getCell r "规模").toNp))))] := by
    show [(if ("产品类型" : String) = "规模"
            then (histCol, getCell r0 "产品类型") else ("产品类型", getCell r0 "产品类型")),
          (if ("规模" : String) = "规模"
            then (histCol, Cell.v (seriesSum ((df.rows.filter
              (fun r => rowKey ["产品类型"] r == rowKey ["产品类型"] r0)).map
                (fun r => (getCell r "规模").toNp))))
            else ("规模", Cell.v (seriesSum ((df.rows.filter
              (fun r => rowKey ["产品类型"] r == rowKey ["产品类型"] r0)).map
                (fun r => (getCell r "规模").toNp)))))] = _
    rw [if_neg (by decide), if_pos rfl]
  have hcell : ∀ x : Cell, getCell [(histCol, x)] histCol = x := by
    intro x
    unfold getCell
    rw [List.find?_cons_of_pos _ (by simp)]
  unfold mergeExt
  rw [periodStage_rvals df histCol hhc,
    renamed_groupbySum_filter df histCol hhc r0 hk, hren]
  simp only [List.map_cons, List.map_nil]
  rw [getCell_cons_of_ne hne, hcell]

theorem scaleBase_share (cur : Frame) :
    ∀ r0 ∈ (scaleBase cur).rows,
      getCell r0 "占比"
        = Cell.v (NpV.npDiv (getCell r0 "规模").toNp (scale_total cur)) := by
  intro r0 hr0
  unfold scaleBase at hr0
  rw [setCol_rows, List.mem_map] at hr0
  obtain ⟨rb, hrb, rfl⟩ := hr0
  rw [getCell_setCell_self, getCell_setCell_of_ne _ _ (by decide : "规模" ≠ "占比")]

theorem details_df3_shares (cur : Frame)
    (h2f1 : cur.cols.contains "类型总规模" = false)
    (h2wf : ∀ r ∈ cur.rows, "类型总规模" ∉ r.map Prod.fst) :
    ∀ rm ∈ (details_df3 cur).rows,
      getCell rm "占总规模比例"
        = Cell.v (NpV.npDiv (getCell rm "规模").toNp (details_total_scale cur))
      ∧ (getCell rm "产品类型" ≠ Cell.v NpV.nan →
          getCell rm "占类型规模比例"
            = Cell.v (NpV.npDiv (getCell rm "规模").toNp
                (details_category_scale cur (getCell rm "产品类型")))) := by
  intro rm hrm
  unfold details_df3 at hrm
  rw [setCol_rows] at hrm
  have hrv : (details_ts cur).cols.filter (fun c2 => !(["产品类型"].contains c2))
      = ["类型总规模"] := by
    unfold details_ts
    exact periodStage_rvals _ _ (by decide)
  have hfr : ∀ c ∈ (["类型总规模"] : List String), c ∉ (details_df1 cur).cols := by
    intro c hc
    have hc2 : c = "类型总规模" := List.mem_singleton.mp hc
    subst hc2
    intro hmem
    unfold details_df1 at hmem
    rcases mem_setCol_cols hmem with h1 | h1
    · rcases mem_ensure_columns_cols _ _ _ h1 with h2 | h2
      · exact not_mem_of_contains_false h2f1 h2
      · revert h2
        decide
    · revert h1
      decide
  have hov := hov_of_rvals_not_mem (l := details_df1 cur) ["类型总规模"] hrv hfr
  have hun : ∀ r0 ∈ (details_df1 cur).rows,
      ((details_ts cur).rows.filter
        (fun h => ["产品类型"].all (fun c => getCell h c == getCell r0 c))).length
          ≤ 1 := by
    intro r0 _
    apply rows_match_le_one
    unfold details_ts
    exact renamed_groupbySum_key_nodup _ _ (by decide)
  rw [mergeOn_rows_eq_map hov hun, List.mem_map] at hrm
  obtain ⟨rmm, hrmm, rfl⟩ := hrm
  rw [List.mem_map] at hrmm
  obtain ⟨r1, hr1, hEq⟩ := hrmm
  have hnamesExt : (mergeExt (details_ts cur) ["产品类型"] r1).map Prod.fst
      = ["类型总规模"] := by
    rw [mergeExt_map_fst, hrv]
  have hm1 : getCell rmm "规模" = getCell r1 "规模" := by
    rw [← hEq]
    exact getCell_append_right_not_mem (by rw [hnamesExt]; decide)
  have hm2 : getCell rmm "产品类型" = getCell r1 "产品类型" := by
    rw [← hEq]
    exact getCell_append_right_not_mem (by rw [hnamesExt]; decide)
  have hm3 : getCell rmm "占总规模比例" = getCell r1 "占总规模比例" := by
    rw [← hEq]
    exact getCell_append_right_not_mem (by rw [hnamesExt]; decide)
  have hdf1 := hr1
  unfold details_df1 at hr1
  rw [setCol_rows, List.mem_map] at hr1
  obtain ⟨r0, hr0, hEq1⟩ := hr1
  have h4 : getCell r1 "占总规模比例"
      = Cell.v (NpV.npDiv (getCell r1 "规模").toNp (details_total_scale cur)) := by
    rw [← hEq1, getCell_setCell_self,
      getCell_setCell_of_ne _ _ (by decide : "规模" ≠ "占总规模比例")]
  constructor
  · rw [getCell_setCell_of_ne _ _ (by decide : "占总规模比例" ≠ "占类型规模比例"),
      getCell_setCell_of_ne _ _ (by decide : "规模" ≠ "占类型规模比例"),
      hm3, hm1, h4]
  · intro hknn
    rw [getCell_setCell_of_ne _ _ (by decide : "产品类型" ≠ "占类型规模比例"), hm2] at hknn
    rw [getCell_setCell_self,
      getCell_setCell_of_ne _ _ (by decide : "规模" ≠ "占类型规模比例"),
      getCell_setCell_of_ne _ _ (by decide : "产品类型" ≠ "占类型规模比例"),
      hm1, hm2]
    have hkmem : rowKey ["产品类型"] r1 ∈ groupKeys ["产品类型"] (details_df1 cur).rows := by
      rw [mem_groupKeys]
      refine List.mem_map_of_mem _ (List.mem_filter.mpr ⟨hdf1, ?_⟩)
      simp [keyIsValid, rowKey, hknn]
    have hnames1 : "类型总规模" ∉ r1.map Prod.fst := by
      rw [← hEq1]
      intro hmem
      rcases mem_map_fst_setCell hmem with h1 | h1
      · obtain ⟨rc, hrc, hsub⟩ := ensure_columns_rows_names _ _ _ hr0
        rcases hsub _ h1 with h2 | h2
        · exact h2wf rc hrc h2
        · revert h2
          decide
      · revert h1
        decide
    have e5 : getCell rmm "类型总规模"
        = Cell.v (seriesSum (((details_df1 cur).rows.filter
            (fun r => rowKey ["产品类型"] r == rowKey ["产品类型"] r1)).map
            (fun r => (getCell r "规模").toNp))) := by
      rw [← hEq, getCell_append_left_not_mem hnames1,
        show details_ts cur = renameCol (groupbySum (details_df1 cur)
          ["产品类型"] ["规模"]) "规模" "类型总规模" from rfl,
        mergeExt_renamed_groupbySum (details_df1 cur) "类型总规模" (by decide) r1 hkmem]
      unfold getCell
      rw [List.find?_cons_of_pos _ (by simp)]
    rw [e5]
    have hfib : (((details_df1 cur).rows.filter
          (fun r => rowKey ["产品类型"] r == rowKey ["产品类型"] r1)).map
          (fun r => (getCell r "规模").toNp))
        = (((ensure_columns cur
            ["产品代码", "产品名称", "产品类型", "规模", "净值"]).rows.filter
          (fun r => rowKey ["产品类型"] r == rowKey ["产品类型"] r1)).map
          (fun r => (getCell r "规模").toNp)) := by
      have hdf1rows : (details_df1 cur).rows
          = (ensure_columns cur
              ["产品代码", "产品名称", "产品类型", "规模", "净值"]).rows.map
            (fun r => setCell r "占总规模比例"
              (Cell.v (NpV.npDiv (getCell r "规模").toNp (details_total_scale cur)))) := by
        unfold details_df1
        rw [setCol_rows]
      rw [hdf1rows]
      refine fiber_sum_map _ _ _ _ _ ?_ ?_
      · intro r _
        exact rowKey_setCell_not_mem r _ (by decide)
      · intro r _
        exact getCell_setCell_of_ne r _ (by decide : "规模" ≠ "占总规模比例")
    rw [hfib]
    rfl

/-! ### Claim C5 -/

/-- C5 counterexample: a detail report over a single record of scale `0`
(grand total `0`, category total `0`): both share columns are `NaN`
(`0/0` under numpy semantics), not the claimed SafeArithmetic default
`0` — the shares are raw pandas divisions with no guard. -/
theorem C5_counterexample :
    ((calculate_product_scale_details_table curZeroScale none).rows.map
      (fun r => getCell r "占总规模比例")) = [Cell.v NpV.nan]
  ∧ ((calculate_product_scale_details_table curZeroScale none).rows.map
      (fun r => getCell r "占类型规模比例")) = [Cell.v NpV.nan]
  ∧ ((calculate_product_scale_details_table curZeroScale none).rows.map
      (fun r => getCell r "规模")) = [Cell.v (NpV.fin 0)]
  ∧ Cell.v NpV.nan ≠ Cell.v (NpV.fin 0) := by
  have h00 : NpV.npDiv (NpV.fin 0) (NpV.fin (0 + 0)) = NpV.nan := by
    norm_num [NpV.npDiv]
  refine ⟨?_, ?_, rfl, by decide⟩
  · rw [show ((calculate_product_scale_details_table curZeroScale none).rows.map
        (fun r => getCell r "占总规模比例"))
      = [Cell.v (NpV.npDiv (NpV.fin 0) (NpV.fin (0 + 0)))] from rfl, h00]
  · rw [show ((calculate_product_scale_details_table curZeroScale none).rows.map
        (fun r => getCell r "占类型规模比例"))
      = [Cell.v (NpV.npDiv (NpV.fin 0) (NpV.fin (0 + 0)))] from rfl, h00]

/-- C5 (amended): the share columns are plain numpy divisions, not
SafeArithmetic — each category share is its scale divided by the grand
total, each instrument's total share is its scale over the grand total,
and its category share is its scale over its category's total (for a
non-missing category), all via `npDiv`; with a zero denominator the
result is `+inf`, `-inf` or `NaN` (never the claimed default `0`),
though no exception is raised. -/
theorem C5_share_division (cur : Frame) (hd : HistData) (cur2 : Frame)
    (hw : ∀ f, hd.last_week = some f →
      f.cols.contains "产品类型" = true ∧ f.cols.contains "规模" = true)
    (hm : ∀ f, hd.last_month = some f →
      f.cols.contains "产品类型" = true ∧ f.cols.contains "规模" = true)
    (hy : ∀ f, hd.last_year = some f →
      f.cols.contains "产品类型" = true ∧ f.cols.contains "规模" = true)
    (h2f1 : cur2.cols.contains "类型总规模" = false)
    (h2wf : ∀ r ∈ cur2.rows, "类型总规模" ∉ r.map Prod.fst) :
    (∀ r ∈ (calculate_product_scale_table cur hd).rows.dropLast,
       getCell r "占比" = Cell.v (NpV.npDiv (getCell r "规模").toNp (scale_total cur)))
  ∧ (∀ r ∈ (calculate_product_scale_details_table cur2 none).rows,
       getCell r "占总规模比例"
         = Cell.v (NpV.npDiv (getCell r "规模").toNp (details_total_scale cur2))
       ∧ (getCell r "产品类型" ≠ Cell.v NpV.nan →
           getCell r "占类型规模比例"
             = Cell.v (NpV.npDiv (getCell r "规模").toNp
                 (details_category_scale cur2 (getCell r "产品类型")))))
  ∧ (∀ q : ℚ, NpV.npDiv (NpV.fin q) (NpV.fin 0)
       = if 0 < q then NpV.pinf else if q < 0 then NpV.ninf else NpV.nan)
  ∧ NpV.npDiv NpV.nan (NpV.fin 0) = NpV.nan := by
  refine ⟨?_, ?_, ?_, rfl⟩
  · obtain ⟨row, hrowEq, hcoreEq⟩ := calculate_product_scale_core_ok cur hd hw hm hy
    intro r hr
    have htable : calculate_product_scale_table cur hd
        = concatRow (scaleStages cur hd) row := by
      unfold calculate_product_scale_table
      rw [hcoreEq]
    rw [htable] at hr
    have hdl : (concatRow (scaleStages cur hd) row).rows.dropLast
        = (scaleStages cur hd).rows := by
      show ((scaleStages cur hd).rows ++ [row]).dropLast = _
      exact List.dropLast_concat
    rw [hdl] at hr
    obtain ⟨r2, hr2m, hpres3, -⟩ := mem_periodStageO_rows
      (periodStageO (periodStageO (scaleBase cur) hd.last_week "上周规模" "环比变化")
        hd.last_month "上月规模" "月度变化")
      hd.last_year "去年同期规模" "同比变化"
      (scaleStage2_contains cur hd) (by decide) (by decide) (by decide) r hr
    obtain ⟨r1, hr1m, hpres2, -⟩ := mem_periodStageO_rows
      (periodStageO (scaleBase cur) hd.last_week "上周规模" "环比变化")
      hd.last_month "上月规模" "月度变化"
      (scaleStage1_contains cur hd) (by decide) (by decide) (by decide) r2 hr2m
    obtain ⟨r0, hr0m, hpres1, -⟩ := mem_periodStageO_rows
      (scaleBase cur) hd.last_week "上周规模" "环比变化"
      rfl (by decide) (by decide) (by decide) r1 hr1m
    have e1 : getCell r "占比" = getCell r0 "占比" := by
      rw [hpres3 "占比" (by decide) (by decide), hpres2 "占比" (by decide) (by decide),
        hpres1 "占比" (by decide) (by decide)]
    have e2 : getCell r "规模" = getCell r0 "规模" := by
      rw [hpres3 "规模" (by decide) (by decide), hpres2 "规模" (by decide) (by decide),
        hpres1 "规模" (by decide) (by decide)]
    rw [e1, e2]
    exact scaleBase_share cur r0 hr0m
  · intro r hr
    have htable : calculate_product_scale_details_table cur2 none
        = details_good_none cur2 := by
      unfold calculate_product_scale_details_table
      rw [details_core_none_ok]
    rw [htable] at hr
    unfold details_good_none at hr
    rw [frame_rows_mk, List.mem_insertionSort, List.mem_map] at hr
    obtain ⟨rm, hrm, rfl⟩ := hr
    obtain ⟨hs1, hs2⟩ := details_df3_shares cur2 h2f1 h2wf rm hrm
    constructor
    · rw [getCell_projRow_of_mem _ (by decide), getCell_projRow_of_mem _ (by decide),
        hs1]
    · intro hknn
      rw [getCell_projRow_of_mem _ (by decide)] at hknn
      rw [getCell_projRow_of_mem _ (by decide), getCell_projRow_of_mem _ (by decide),
        getCell_projRow_of_mem _ (by decide)]
      exact hs2 hknn
  · intro q
    simp [NpV.npDiv]

/-- C5 witness: `C5_share_division` at the concrete frames and the
concrete category row: its share cell is the raw division of its scale
by the grand total. -/
theorem C5_share_division_witness :
    getCell [("产品类型", Cell.str "A"), ("规模", Cell.v (NpV.fin (100 + 0))),
       ("占比", Cell.v (NpV.npDiv (NpV.fin (100 + 0)) (NpV.fin (100 + 0)))),
       ("上周规模", Cell.v NpV.nan), ("环比变化", Cell.v (NpV.fin 0))] "占比"
      = Cell.v (NpV.npDiv
          (getCell [("产品类型", Cell.str "A"), ("规模", Cell.v (NpV.fin (100 + 0))),
       ("占比", Cell.v (NpV.npDiv (NpV.fin (100 + 0)) (NpV.fin (100 + 0)))),
       ("上周规模", Cell.v NpV.nan), ("环比变化", Cell.v (NpV.fin 0))] "规模").toNp
          (scale_total curOneCat)) := by
  refine (C5_share_division curOneCat ⟨some lwOtherCat, none, none⟩ curZeroScale
    (fun f hf => by injection hf with h2; subst h2; exact ⟨by decide, by decide⟩)
    (fun f hf => Option.noConfusion hf)
    (fun f hf => Option.noConfusion hf)
    (by decide) (by decide)).1 _ ?_
  rw [show (calculate_product_scale_table curOneCat
      ⟨some lwOtherCat, none, none⟩).rows.dropLast
    = [[("产品类型", Cell.str "A"), ("规模", Cell.v (NpV.fin (100 + 0))),
       ("占比", Cell.v (NpV.npDiv (NpV.fin (100 + 0)) (NpV.fin (100 + 0)))),
       ("上周规模", Cell.v NpV.nan), ("环比变化", Cell.v (NpV.fin 0))]] from rfl]
  exact List.mem_singleton_self _

theorem periodStage_map_getCell (pts h : Frame) (histCol changeCol c : String)
    (hfresh : pts.cols.contains histCol = false) (hhc : histCol ≠ "产品类型")
    (hc1 : c ≠ histCol) (hc2 : c ≠ changeCol) :
    (periodStage pts h histCol changeCol).rows.map (fun r => getCell r c)
      = pts.rows.map (fun r => getCell r c) := by
  unfold periodStage
  rw [setCol_rows]
  rw [mergeOn_rows_eq_map (periodStage_hov pts h histCol hfresh hhc) ?hmatch]
  case hmatch =>
    intro r0 _
    apply rows_match_le_one
    exact renamed_groupbySum_key_nodup h histCol hhc
  rw [List.map_map, List.map_map]
  refine List.map_congr_left (fun r0 _ => ?_)
  simp only [Function.comp]
  rw [getCell_setCell_of_ne _ _ hc2]
  refine getCell_append_right_not_mem ?_
  rw [mergeExt_map_fst, periodStage_rvals h histCol hhc]
  intro hmem
  exact hc1 (List.mem_singleton.mp hmem)

theorem periodStageO_map_getCell (pts : Frame) (hf : Option Frame)
    (histCol changeCol c : String)
    (hfresh : pts.cols.contains histCol = false) (hhc : histCol ≠ "产品类型")
    (hc1 : c ≠ histCol) (hc2 : c ≠ changeCol) :
    (periodStageO pts hf histCol changeCol).rows.map (fun r => getCell r c)
      = pts.rows.map (fun r => getCell r c) := by
  cases hf with
  | none => rfl
  | some f => exact periodStage_map_getCell pts f histCol changeCol c hfresh hhc hc1 hc2

theorem scaleStages_map_getCell (cur : Frame) (hd : HistData) (c : String)
    (h1 : c ≠ "上周规模") (h2 : c ≠ "环比变化") (h3 : c ≠ "上月规模")
    (h4 : c ≠ "月度变化") (h5 : c ≠ "去年同期规模") (h6 : c ≠ "同比变化") :
    (scaleStages cur hd).rows.map (fun r => getCell r c)
      = (scaleBase cur).rows.map (fun r => getCell r c) := by
  unfold scaleStages
  rw [periodStageO_map_getCell _ hd.last_year "去年同期规模" "同比变化" c
      (scaleStage2_contains cur hd) (by decide) h5 h6,
    periodStageO_map_getCell _ hd.last_month "上月规模" "月度变化" c
      (scaleStage1_contains cur hd) (by decide) h3 h4,
    periodStageO_map_getCell (scaleBase cur) hd.last_week "上周规模" "环比变化" c
      rfl (by decide) h1 h2]

theorem scaleBase_map_scale (cur : Frame) :
    (scaleBase cur).rows.map (fun r => getCell r "规模")
      = (groupKeys ["产品类型"]
          (ensure_columns cur ["产品代码", "产品名称", "产品类型", "规模"]).rows).map
        (fun k => Cell.v (seriesSum
          (((ensure_columns cur ["产品代码", "产品名称", "产品类型", "规模"]).rows.filter
            (fun r => rowKey ["产品类型"] r == k)).map
            (fun r => (getCell r "规模").toNp)))) := by
  unfold scaleBase
  rw [setCol_rows, groupbySum_rows, List.map_map, List.map_map]
  refine List.map_congr_left (fun k _ => ?_)
  simp only [Function.comp]
  rw [getCell_setCell_of_ne _ _ (by decide : "规模" ≠ "占比"),
    getCell_groupRow _ _ (by decide) (by decide)]

theorem scaleBase_map_share (cur : Frame) :
    (scaleBase cur).rows.map (fun r => getCell r "占比")
      = (groupKeys ["产品类型"]
          (ensure_columns cur ["产品代码", "产品名称", "产品类型", "规模"]).rows).map
        (fun k => Cell.v (NpV.npDiv (seriesSum
          (((ensure_columns cur ["产品代码", "产品名称", "产品类型", "规模"]).rows.filter
            (fun r => rowKey ["产品类型"] r == k)).map
            (fun r => (getCell r "规模").toNp))) (scale_total cur))) := by
  unfold scaleBase
  rw [setCol_rows, groupbySum_rows, List.map_map, List.map_map]
  refine List.map_congr_left (fun k _ => ?_)
  simp only [Function.comp]
  rw [getCell_setCell_self, getCell_groupRow _ _ (by decide) (by decide)]
  rfl

theorem isFinOrNa_toNp {c : Cell} (h : isFinOrNa c = true) :
    isFinOrNa (Cell.v c.toNp) = true := by
  cases c with
  | v x => exact h
  | str s => simp [isFinOrNa] at h

theorem seriesSum_map_fin {α : Type} (l : List α) (F : α → ℚ) :
    seriesSum (l.map (fun a => NpV.fin (F a))) = NpV.fin ((l.map F).sum) := by
  unfold seriesSum
  rw [List.map_map]
  have h1 : (NpV.orZero ∘ fun a => NpV.fin (F a)) = (fun a => NpV.fin (F a)) := by
    funext a
    simp [NpV.orZero, NpV.isna]
  rw [h1, show l.map (fun a => NpV.fin (F a)) = (l.map F).map NpV.fin from by
    rw [List.map_map]; rfl, sum_map_fin]

theorem map_toNp_comp (l : List Row) (c : String) :
    l.map (fun r => (getCell r c).toNp)
      = (l.map (fun r => getCell r c)).map Cell.toNp := by
  rw [List.map_map]
  rfl

/-! ### Claim C6 -/

/-- C6 counterexample: a current snapshot whose single record has the
non-negative scale `0`.  The category's share is `0/0 = NaN`, so the
float sum of the category shares is `NaN` — not a number within `1e-9`
of `1.0` — refuting the share-sum invariant for non-negative scales. -/
theorem C6_counterexample :
    ((calculate_product_scale_table curZeroCat ⟨none, none, none⟩).rows.dropLast.map
      (fun r => getCell r "规模")) = [Cell.v (NpV.fin 0)]
  ∧ ((calculate_product_scale_table curZeroCat ⟨none, none, none⟩).rows.dropLast.map
      (fun r => getCell r "占比")) = [Cell.v NpV.nan]
  ∧ List.foldr NpV.npAdd (NpV.fin 0)
      ((calculate_product_scale_table curZeroCat ⟨none, none, none⟩).rows.dropLast.map
        (fun r => (getCell r "占比").toNp)) = NpV.nan
  ∧ ¬ (∃ q : ℚ, List.foldr NpV.npAdd (NpV.fin 0)
      ((calculate_product_scale_table curZeroCat ⟨none, none, none⟩).rows.dropLast.map
        (fun r => (getCell r "占比").toNp)) = NpV.fin q ∧ |q - 1| ≤ 1 / 1000000000) := by
  have hnan : NpV.npDiv (NpV.fin (0 + 0)) (NpV.fin (0 + 0)) = NpV.nan := by
    norm_num [NpV.npDiv]
  have h3 : List.foldr NpV.npAdd (NpV.fin 0)
      ((calculate_product_scale_table curZeroCat ⟨none, none, none⟩).rows.dropLast.map
        (fun r => (getCell r "占比").toNp)) = NpV.nan := by
    rw [show ((calculate_product_scale_table curZeroCat ⟨none, none, none⟩).rows.dropLast.map
        (fun r => (getCell r "占比").toNp))
      = [NpV.npDiv (NpV.fin (0 + 0)) (NpV.fin (0 + 0))] from rfl, hnan]
    rfl
  refine ⟨?_, ?_, h3, ?_⟩
  · rw [show ((calculate_product_scale_table curZeroCat ⟨none, none, none⟩).rows.dropLast.map
        (fun r => getCell r "规模"))
      = [Cell.v (NpV.fin (0 + 0))] from rfl]
    norm_num
  · rw [show ((calculate_product_scale_table curZeroCat ⟨none, none, none⟩).rows.dropLast.map
        (fun r => getCell r "占比"))
      = [Cell.v (NpV.npDiv (NpV.fin (0 + 0)) (NpV.fin (0 + 0)))] from rfl, hnan]
  · rintro ⟨q, hq, -⟩
    rw [h3] at hq
    exact NpV.noConfusion hq

/-- C6 (amended): for a current snapshot that has the required columns,
no missing categories, finite-or-missing scales, and a finite positive
grand total — and historical snapshots that carry the grouping columns
with numeric (non-string) scale cells, since a string scale cell makes
the source's `hist['规模'].sum()` or its per-row subtraction raise a
`TypeError`, aborting the whole report to an empty frame: the category
rows' raw scales sum (skip-NA) exactly to the grand total; the category
shares sum exactly to `1.0` (hence within any tolerance); and the
synthetic total row carries the grand total, share `1.0`, and per-period
deltas computed by `safe_divide` from each period's own grand total,
independent of the per-category rows.  When the grand total is zero
(e.g. all scales `0`, still non-negative) the shares are `NaN` and the
share-sum invariant fails, so positivity — not mere non-negativity — is
required. -/
theorem C6_total_row_invariants (cur : Frame) (hd : HistData)
    (hw : ∀ f, hd.last_week = some f →
      f.cols.contains "产品类型" = true ∧ f.cols.contains "规模" = true)
    (hm : ∀ f, hd.last_month = some f →
      f.cols.contains "产品类型" = true ∧ f.cols.contains "规模" = true)
    (hy : ∀ f, hd.last_year = some f →
      f.cols.contains "产品类型" = true ∧ f.cols.contains "规模" = true)
    (hwnum : ∀ f, hd.last_week = some f →
      ∀ r ∈ f.rows, isNumCell (getCell r "规模") = true)
    (hmnum : ∀ f, hd.last_month = some f →
      ∀ r ∈ f.rows, isNumCell (getCell r "规模") = true)
    (hynum : ∀ f, hd.last_year = some f →
      ∀ r ∈ f.rows, isNumCell (getCell r "规模") = true)
    (hreq : ∀ c ∈ (["产品代码", "产品名称", "产品类型", "规模"] : List String),
      cur.cols.contains c = true)
    (hcat : ∀ r ∈ cur.rows, getCell r "产品类型" ≠ Cell.v NpV.nan)
    (hfin : ∀ r ∈ cur.rows, isFinOrNa (getCell r "规模") = true)
    (hpos : ∃ q : ℚ, 0 < q ∧ scale_total cur = NpV.fin q) :
    seriesSum ((calculate_product_scale_table cur hd).rows.dropLast.map
        (fun r => (getCell r "规模").toNp)) = scale_total cur
  ∧ seriesSum ((calculate_product_scale_table cur hd).rows.dropLast.map
        (fun r => (getCell r "占比").toNp)) = NpV.fin 1
  ∧ (∀ rl, (calculate_product_scale_table cur hd).rows.getLast? = some rl →
       getCell rl "产品类型" = Cell.str "总计"
       ∧ getCell rl "规模" = Cell.v (scale_total cur)
       ∧ getCell rl "占比" = Cell.v (NpV.fin 1)
       ∧ (∀ f, hd.last_week = some f →
           getCell rl "上周规模" = Cell.v (colSum f "规模")
           ∧ getCell rl "环比变化" = Cell.v (safe_divide
               (NpV.npSub (scale_total cur) (colSum f "规模")) (colSum f "规模")
               (NpV.fin 0)))
       ∧ (∀ f, hd.last_month = some f →
           getCell rl "上月规模" = Cell.v (colSum f "规模")
           ∧ getCell rl "月度变化" = Cell.v (safe_divide
               (NpV.npSub (scale_total cur) (colSum f "规模")) (colSum f "规模")
               (NpV.fin 0)))
       ∧ (∀ f, hd.last_year = some f →
           getCell rl "去年同期规模" = Cell.v (colSum f "规模")
           ∧ getCell rl "同比变化" = Cell.v (safe_divide
               (NpV.npSub (scale_total cur) (colSum f "规模")) (colSum f "规模")
               (NpV.fin 0)))) := by
  obtain ⟨qT, hqTpos, hqT⟩ := hpos
  obtain ⟨row, hrowEq, hcoreEq⟩ := calculate_product_scale_core_ok cur hd hw hm hy
  obtain ⟨row2, hrowEq2, hcat2, hsc2, hshare2, hWk, hMo, hYr⟩ :=
    scaleTotalRow_ok (scale_total cur) hd
      (fun f hf => (hw f hf).2) (fun f hf => (hm f hf).2) (fun f hf => (hy f hf).2)
  rw [hrowEq] at hrowEq2
  have hrr : row2 = row := ((Except.ok.injEq _ _).mp hrowEq2).symm
  subst hrr
  have htable : calculate_product_scale_table cur hd
      = concatRow (scaleStages cur hd) row2 := by
    unfold calculate_product_scale_table
    rw [hcoreEq]
  have hdrop : (calculate_product_scale_table cur hd).rows.dropLast
      = (scaleStages cur hd).rows := by
    rw [htable]
    show ((scaleStages cur hd).rows ++ [row2]).dropLast = _
    exact List.dropLast_concat
  have hlast : (calculate_product_scale_table cur hd).rows.getLast? = some row2 := by
    rw [htable]
    show ((scaleStages cur hd).rows ++ [row2]).getLast? = _
    exact List.getLast?_concat _
  have hE : ensure_columns cur ["产品代码", "产品名称", "产品类型", "规模"] = cur :=
    ensure_columns_eq_self _ cur hreq
  have hfib : ∀ k : List Cell, seriesSum ((cur.rows.filter
      (fun r => rowKey ["产品类型"] r == k)).map (fun r => (getCell r "规模").toNp))
      = NpV.fin (((cur.rows.filter (fun r => rowKey ["产品类型"] r == k)).map
          (fun r => npvQ (getCell r "规模").toNp)).sum) := by
    intro k
    rw [seriesSum_eq_fin _ (by
      intro x hx
      rw [List.mem_map] at hx
      obtain ⟨r, hr, rfl⟩ := hx
      exact isFinOrNa_toNp (hfin r (List.mem_of_mem_filter hr))), List.map_map]
    rfl
  have hcov : ∀ r ∈ cur.rows, rowKey ["产品类型"] r
      ∈ (groupKeys ["产品类型"] cur.rows).toFinset := by
    intro r hr
    rw [List.mem_toFinset, mem_groupKeys]
    refine List.mem_map_of_mem _ (List.mem_filter.mpr ⟨hr, ?_⟩)
    simp [keyIsValid, rowKey, hcat r hr]
  have hpart : ((groupKeys ["产品类型"] cur.rows).map
      (fun k => ((cur.rows.filter (fun r => rowKey ["产品类型"] r == k)).map
        (fun r => npvQ (getCell r "规模").toNp)).sum)).sum
      = (cur.rows.map (fun r => npvQ (getCell r "规模").toNp)).sum := by
    rw [← List.sum_toFinset _ (groupKeys_nodup ["产品类型"] cur.rows)]
    exact sum_fibers _ (rowKey ["产品类型"]) _ cur.rows hcov
  have hT2 : scale_total cur
      = NpV.fin ((cur.rows.map (fun r => npvQ (getCell r "规模").toNp)).sum) := by
    unfold scale_total
    rw [hE]
    unfold colSum seriesOfCol
    rw [seriesSum_eq_fin _ (by
      intro x hx
      rw [List.mem_map] at hx
      obtain ⟨r, hr, rfl⟩ := hx
      exact isFinOrNa_toNp (hfin r hr)), List.map_map]
    rfl
  have hqTsum : qT = (cur.rows.map (fun r => npvQ (getCell r "规模").toNp)).sum := by
    have h0 := hqT.symm.trans hT2
    injection h0
  have hdropS : (calculate_product_scale_table cur hd).rows.dropLast.map
      (fun r => getCell r "规模")
      = (groupKeys ["产品类型"] cur.rows).map
        (fun k => Cell.v (seriesSum ((cur.rows.filter
          (fun r => rowKey ["产品类型"] r == k)).map
          (fun r => (getCell r "规模").toNp)))) := by
    rw [hdrop, scaleStages_map_getCell cur hd "规模" (by decide) (by decide) (by decide)
      (by decide) (by decide) (by decide), scaleBase_map_scale, hE]
  have hdropP : (calculate_product_scale_table cur hd).rows.dropLast.map
      (fun r => getCell r "占比")
      = (groupKeys ["产品类型"] cur.rows).map
        (fun k => Cell.v (NpV.npDiv (seriesSum ((cur.rows.filter
          (fun r => rowKey ["产品类型"] r == k)).map
          (fun r => (getCell r "规模").toNp))) (scale_total cur))) := by
    rw [hdrop, scaleStages_map_getCell cur hd "占比" (by decide) (by decide) (by decide)
      (by decide) (by decide) (by decide), scaleBase_map_share, hE]
  refine ⟨?_, ?_, ?_⟩
  · rw [map_toNp_comp, hdropS, List.map_map]
    show seriesSum ((groupKeys ["产品类型"] cur.rows).map (fun k =>
      seriesSum ((cur.rows.filter (fun r => rowKey ["产品类型"] r == k)).map
        (fun r => (getCell r "规模").toNp)))) = scale_total cur
    rw [List.map_congr_left (fun k _ => hfib k), seriesSum_map_fin, hpart,
      ← hqTsum, hqT]
  · rw [map_toNp_comp, hdropP, List.map_map]
    show seriesSum ((groupKeys ["产品类型"] cur.rows).map (fun k =>
      NpV.npDiv (seriesSum ((cur.rows.filter (fun r => rowKey ["产品类型"] r == k)).map
        (fun r => (getCell r "规模").toNp))) (scale_total cur))) = NpV.fin 1
    have hdiv : ∀ k ∈ groupKeys ["产品类型"] cur.rows,
        NpV.npDiv (seriesSum ((cur.rows.filter
          (fun r => rowKey ["产品类型"] r == k)).map
          (fun r => (getCell r "规模").toNp))) (scale_total cur)
        = NpV.fin ((((cur.rows.filter (fun r => rowKey ["产品类型"] r == k)).map
            (fun r => npvQ (getCell r "规模").toNp)).sum) / qT) := by
      intro k _
      rw [hfib k, hqT]
      simp [NpV.npDiv, ne_of_gt hqTpos]
    rw [List.map_congr_left hdiv, seriesSum_map_fin]
    have hsum : ((groupKeys ["产品类型"] cur.rows).map
        (fun k => (((cur.rows.filter (fun r => rowKey ["产品类型"] r == k)).map
          (fun r => npvQ (getCell r "规模").toNp)).sum) / qT)).sum
        = (((groupKeys ["产品类型"] cur.rows).map
          (fun k => ((cur.rows.filter (fun r => rowKey ["产品类型"] r == k)).map
            (fun r => npvQ (getCell r "规模").toNp)).sum)).sum) / qT := by
      rw [List.map_congr_left (fun k _ => div_eq_mul_inv
        (((cur.rows.filter (fun r => rowKey ["产品类型"] r == k)).map
          (fun r => npvQ (getCell r "规模").toNp)).sum) qT),
        List.sum_map_mul_right, ← div_eq_mul_inv]
    rw [hsum, hpart, ← hqTsum, div_self (ne_of_gt hqTpos)]
  · intro rl hrl
    rw [hlast] at hrl
    have hrleq : row2 = rl := by injection hrl
    subst hrleq
    exact ⟨hcat2, hsc2, hshare2, hWk, hMo, hYr⟩

/-- C6 witness: `C6_total_row_invariants` at the concrete one-category
snapshot (scale `100`, grand total `100`), hypotheses discharged by
computation: the category scales sum to the grand total. -/
theorem C6_total_row_invariants_witness :
    seriesSum ((calculate_product_scale_table curOneCat
        ⟨none, none, none⟩).rows.dropLast.map
      (fun r => (getCell r "规模").toNp)) = scale_total curOneCat := by
  have hT : scale_total curOneCat = NpV.fin 100 := by
    rw [show scale_total curOneCat = NpV.fin (100 + 0) from rfl]
    norm_num
  exact (C6_total_row_invariants curOneCat ⟨none, none, none⟩
    (fun f hf => Option.noConfusion hf)
    (fun f hf => Option.noConfusion hf)
    (fun f hf => Option.noConfusion hf)
    (fun f hf => Option.noConfusion hf)
    (fun f hf => Option.noConfusion hf)
    (fun f hf => Option.noConfusion hf)
    (by decide) (by decide) (by decide) ⟨100, by norm_num, hT⟩).1

end FinReport
